import Mathlib

/-!
Shallow embedding of the Quoridor model (`src/game.js`) and verification of
the frozen claims about it.

Conventions of the embedding:
* Cell coordinates are natural numbers; the 9×9 cell grid uses rows/cols 0..8,
  the 8×8 wall grids use 0..7.  All array reads in the source are guarded by
  bounds tests before indexing, so natural-number arithmetic (with truncated
  subtraction occurring only under the corresponding guards) agrees with the
  JavaScript integer arithmetic on every executed read/write.
* JavaScript 2D boolean arrays become total functions `Nat → Nat → Bool`;
  an out-of-bounds read of a JS array yields `undefined`, which is falsy,
  matching the convention that our initial grids are `false` outside bounds.
* Mutation becomes explicit state passing: methods that mutate the game
  return the new `Game` value (paired with their boolean result where the
  source returns one).
-/

/-- A pawn-move direction; the source's `MOVE_UP/DOWN/LEFT/RIGHT` tuples. -/
inductive Dir : Type
  | up
  | down
  | left
  | right
deriving DecidableEq, Repr

/-- Boolean grid, the embedding of a JS 2D array of booleans. -/
abbrev GridB : Type := Nat → Nat → Bool

/-- Write `v` at cell `(i, j)` of a grid (JS `arr[i][j] = v`). -/
def gset (g : GridB) (i j : Nat) (v : Bool) : GridB :=
  fun a b => if a = i ∧ b = j then v else g a b

/-- The source's `PawnPosition` (`row`, `col`). -/
structure PawnPosition where
  row : Nat
  col : Nat
deriving DecidableEq, Repr

/-- `PawnPosition.newAddMove`: the position after moving one step in a direction. -/
def PawnPosition.newAddMove (p : PawnPosition) (d : Dir) : PawnPosition :=
  match d with
  | Dir.up => ⟨p.row - 1, p.col⟩
  | Dir.down => ⟨p.row + 1, p.col⟩
  | Dir.left => ⟨p.row, p.col - 1⟩
  | Dir.right => ⟨p.row, p.col + 1⟩

/-- The source's `Pawn`. `numberOfLeftWalls` is an integer because the source
decrements it without a lower-bound check. -/
structure Pawn where
  index : Nat
  isHumanSide : Bool
  isHumanPlayer : Bool
  position : PawnPosition
  goalRow : Nat
  numberOfLeftWalls : Int
deriving DecidableEq, Repr

/-- The `Pawn` constructor (non-clone branch). -/
def Pawn.make (index : Nat) (isHumanSide isHumanPlayer : Bool) : Pawn :=
  if isHumanSide then
    { index := index, isHumanSide := true, isHumanPlayer := isHumanPlayer,
      position := ⟨8, 4⟩, goalRow := 0, numberOfLeftWalls := 10 }
  else
    { index := index, isHumanSide := false, isHumanPlayer := isHumanPlayer,
      position := ⟨0, 4⟩, goalRow := 8, numberOfLeftWalls := 10 }

/-- The `walls` record (`horizontal`/`vertical` 8×8 grids). -/
structure Walls where
  horizontal : GridB
  vertical : GridB

/-- The `openWays` record: `upDown` is 8×9, `leftRight` is 9×8. -/
structure OpenWays where
  upDown : GridB
  leftRight : GridB

/-- The source's `Board` (non-clone branch is inlined into `Game.make`). -/
structure Board where
  pawns0 : Pawn
  pawns1 : Pawn
  walls : Walls

/-- The source's `Game`. Lazily recomputed caches are explicit fields:
`validNextPositionsCache`/`validNextPositionsUpdated` embed
`_validNextPositions`/`_validNextPositionsUpdated`, and similarly for the
probable-walls heuristic state. -/
structure Game where
  board : Board
  winner : Option Nat
  turn : Nat
  validNextWalls : Walls
  probableNextWalls : Walls
  probableValidNextWalls : Option Walls
  probableValidNextWallsUpdated : Bool
  openWays : OpenWays
  validNextPositionsCache : GridB
  validNextPositionsUpdated : Bool

/-- The `turn` setter: advancing the turn invalidates both caches. -/
def Game.setTurn (g : Game) (newTurn : Nat) : Game :=
  { g with turn := newTurn, validNextPositionsUpdated := false,
           probableValidNextWallsUpdated := false }

/-- Getter `pawn0`. -/
def Game.pawn0 (g : Game) : Pawn := g.board.pawns0

/-- Getter `pawn1`. -/
def Game.pawn1 (g : Game) : Pawn := g.board.pawns1

/-- Getter `pawnIndexOfTurn`. -/
def Game.pawnIndexOfTurn (g : Game) : Nat := g.turn % 2

/-- Getter `pawnIndexOfNotTurn`. -/
def Game.pawnIndexOfNotTurn (g : Game) : Nat := (g.turn + 1) % 2

/-- Getter `pawnOfTurn`. -/
def Game.pawnOfTurn (g : Game) : Pawn :=
  if g.pawnIndexOfTurn = 0 then g.board.pawns0 else g.board.pawns1

/-- Getter `pawnOfNotTurn`. -/
def Game.pawnOfNotTurn (g : Game) : Pawn :=
  if g.pawnIndexOfNotTurn = 0 then g.board.pawns0 else g.board.pawns1

/-- Update the pawn selected by `pawnIndexOfTurn`. -/
def Game.setPawnOfTurn (g : Game) (p : Pawn) : Game :=
  if g.pawnIndexOfTurn = 0 then { g with board := { g.board with pawns0 := p } }
  else { g with board := { g.board with pawns1 := p } }

/-- `isValidNextMoveNotConsideringOtherPawn`: the move is inside the board and
the corresponding `openWays` edge is open. -/
def Game.isValidNextMoveNotConsideringOtherPawn (g : Game)
    (currentPosition : PawnPosition) (d : Dir) : Bool :=
  match d with
  | Dir.up => decide (currentPosition.row > 0) &&
      g.openWays.upDown (currentPosition.row - 1) currentPosition.col
  | Dir.down => decide (currentPosition.row < 8) &&
      g.openWays.upDown currentPosition.row currentPosition.col
  | Dir.left => decide (currentPosition.col > 0) &&
      g.openWays.leftRight currentPosition.row (currentPosition.col - 1)
  | Dir.right => decide (currentPosition.col < 8) &&
      g.openWays.leftRight currentPosition.row currentPosition.col

/-- `isOpenWay` on an `OpenWays` value (the method reads only `this.openWays`,
so we parameterize by the edge set; `Game.isOpenWay` below restores the
method form). -/
def isOpenWayOW (ow : OpenWays) (currentRow currentCol : Nat) (d : Dir) : Bool :=
  match d with
  | Dir.up => decide (currentRow > 0) && ow.upDown (currentRow - 1) currentCol
  | Dir.down => decide (currentRow < 8) && ow.upDown currentRow currentCol
  | Dir.left => decide (currentCol > 0) && ow.leftRight currentRow (currentCol - 1)
  | Dir.right => decide (currentCol < 8) && ow.leftRight currentRow currentCol

/-- The source's `isOpenWay` method. -/
def Game.isOpenWay (g : Game) (currentRow currentCol : Nat) (d : Dir) : Bool :=
  isOpenWayOW g.openWays currentRow currentCol d

/-- Destination coordinates of a step (computed only after the corresponding
openness guard in the source). -/
def stepRow (r : Nat) (d : Dir) : Nat :=
  match d with
  | Dir.up => r - 1
  | Dir.down => r + 1
  | Dir.left => r
  | Dir.right => r

/-- Column component of a step destination. -/
def stepCol (c : Nat) (d : Dir) : Nat :=
  match d with
  | Dir.up => c
  | Dir.down => c
  | Dir.left => c - 1
  | Dir.right => c + 1

/-- The traversal order of the source's DFS (`pawnMoveTuples`). -/
def allDirs : List Dir := [Dir.up, Dir.left, Dir.right, Dir.down]

/-- The recursive closure `depthFirstSearch` of `_existPathToGoalLineFor`,
with the mutable `visited` array threaded explicitly and a fuel bound on the
recursion depth.  Fuel `81` is always sufficient: each recursive descent first
marks a previously unvisited cell of the 9×9 grid, so the depth can never
exceed the number of cells (`dfsAux_fuel_irrelevant`-style reasoning is done
via the completeness proof below).  The `(false, _)` fuel-exhaustion branch is
unreachable from the top-level entry point. -/
def dfsAux (ow : OpenWays) (goalRow : Nat) :
    Nat → List Dir → GridB → Nat → Nat → Bool × GridB
  | _, [], visited, _, _ => (false, visited)
  | fuel, d :: ds, visited, currentRow, currentCol =>
    if isOpenWayOW ow currentRow currentCol d then
      let nextRow := stepRow currentRow d
      let nextCol := stepCol currentCol d
      if visited nextRow nextCol then
        dfsAux ow goalRow fuel ds visited currentRow currentCol
      else
        let visited1 := gset visited nextRow nextCol true
        if nextRow = goalRow then (true, visited1)
        else
          match fuel with
          | 0 => (false, visited1)
          | fuel' + 1 =>
            let res := dfsAux ow goalRow fuel' allDirs visited1 nextRow nextCol
            if res.1 then res
            else dfsAux ow goalRow (fuel' + 1) ds res.2 currentRow currentCol
    else
      dfsAux ow goalRow fuel ds visited currentRow currentCol
termination_by fuel ds _ _ _ => (fuel, ds.length)

/-- `_existPathToGoalLineFor`, parameterized by the edge set it traverses. -/
def existPathToGoalLineForOW (ow : OpenWays) (pawn : Pawn) : Bool :=
  (dfsAux ow pawn.goalRow 81 allDirs (fun _ _ => false)
    pawn.position.row pawn.position.col).1

/-- The source's `_existPathToGoalLineFor` method. -/
def Game.existPathToGoalLineFor (g : Game) (pawn : Pawn) : Bool :=
  existPathToGoalLineForOW g.openWays pawn

/-- The source's `_existPathsToGoalLines`. -/
def Game.existPathsToGoalLines (g : Game) : Bool :=
  g.existPathToGoalLineFor g.pawnOfTurn && g.existPathToGoalLineFor g.pawnOfNotTurn

/-- `testIfAdjecentToOtherWallForHorizontalWallLeft` (the sequence of guarded
early returns becomes a guarded disjunction). -/
def testIfAdjecentToOtherWallForHorizontalWallLeft (w : Walls) (row col : Nat) : Bool :=
  decide (1 ≤ col) &&
    (w.vertical row (col - 1) ||
     (decide (1 ≤ row) && w.vertical (row - 1) (col - 1)) ||
     (decide (row ≤ 6) && w.vertical (row + 1) (col - 1)) ||
     (decide (2 ≤ col) && w.horizontal row (col - 2)))

/-- `testIfAdjecentToOtherWallForHorizontalWallRight`. -/
def testIfAdjecentToOtherWallForHorizontalWallRight (w : Walls) (row col : Nat) : Bool :=
  decide (col ≤ 6) &&
    (w.vertical row (col + 1) ||
     (decide (1 ≤ row) && w.vertical (row - 1) (col + 1)) ||
     (decide (row ≤ 6) && w.vertical (row + 1) (col + 1)) ||
     (decide (col ≤ 5) && w.horizontal row (col + 2)))

/-- `testIfAdjecentToOtherWallForHorizontalWallMiddle`. -/
def testIfAdjecentToOtherWallForHorizontalWallMiddle (w : Walls) (row col : Nat) : Bool :=
  (decide (1 ≤ row) && w.vertical (row - 1) col) ||
  (decide (row ≤ 6) && w.vertical (row + 1) col)

/-- `testIfConnectedOnTwoPointsForHorizontalWall`. -/
def testIfConnectedOnTwoPointsForHorizontalWall (w : Walls) (row col : Nat) : Bool :=
  let left := decide (col = 0) || testIfAdjecentToOtherWallForHorizontalWallLeft w row col
  let right := decide (col = 7) || testIfAdjecentToOtherWallForHorizontalWallRight w row col
  let middle := testIfAdjecentToOtherWallForHorizontalWallMiddle w row col
  (left && right) || (right && middle) || (middle && left)

/-- `testIfAdjecentToOtherWallForVerticalWallTop`. -/
def testIfAdjecentToOtherWallForVerticalWallTop (w : Walls) (row col : Nat) : Bool :=
  decide (1 ≤ row) &&
    (w.horizontal (row - 1) col ||
     (decide (1 ≤ col) && w.horizontal (row - 1) (col - 1)) ||
     (decide (col ≤ 6) && w.horizontal (row - 1) (col + 1)) ||
     (decide (2 ≤ row) && w.vertical (row - 2) col))

/-- `testIfAdjecentToOtherWallForVerticalWallBottom`. -/
def testIfAdjecentToOtherWallForVerticalWallBottom (w : Walls) (row col : Nat) : Bool :=
  decide (row ≤ 6) &&
    (w.horizontal (row + 1) col ||
     (decide (1 ≤ col) && w.horizontal (row + 1) (col - 1)) ||
     (decide (col ≤ 6) && w.horizontal (row + 1) (col + 1)) ||
     (decide (row ≤ 5) && w.vertical (row + 2) col))

/-- `testIfAdjecentToOtherWallForVerticalWallMiddle`. -/
def testIfAdjecentToOtherWallForVerticalWallMiddle (w : Walls) (row col : Nat) : Bool :=
  (decide (1 ≤ col) && w.horizontal row (col - 1)) ||
  (decide (col ≤ 6) && w.horizontal row (col + 1))

/-- `testIfConnectedOnTwoPointsForVerticalWall`. -/
def testIfConnectedOnTwoPointsForVerticalWall (w : Walls) (row col : Nat) : Bool :=
  let top := decide (row = 0) || testIfAdjecentToOtherWallForVerticalWallTop w row col
  let bottom := decide (row = 7) || testIfAdjecentToOtherWallForVerticalWallBottom w row col
  let middle := testIfAdjecentToOtherWallForVerticalWallMiddle w row col
  (top && bottom) || (bottom && middle) || (middle && top)

/-- Block the two `upDown` edges of a horizontal wall at `(row, col)`. -/
def blockH (ow : OpenWays) (row col : Nat) : OpenWays :=
  { ow with upDown := gset (gset ow.upDown row col false) row (col + 1) false }

/-- Block the two `leftRight` edges of a vertical wall at `(row, col)`. -/
def blockV (ow : OpenWays) (row col : Nat) : OpenWays :=
  { ow with leftRight := gset (gset ow.leftRight row col false) (row + 1) col false }

/-- `testIfExistPathsToGoalLinesAfterPlaceHorizontalWall`.  The method
temporarily closes the two edges, runs the traversal and then sets both edges
open again; the returned game carries the openWays array as the method leaves
it (which is the original one only when both edges were open on entry). -/
def Game.testIfExistPathsToGoalLinesAfterPlaceHorizontalWall (g : Game) (row col : Nat) :
    Bool × Game :=
  if testIfConnectedOnTwoPointsForHorizontalWall g.board.walls row col = false then (true, g)
  else
    let ow1 := blockH g.openWays row col
    let result := Game.existPathsToGoalLines { g with openWays := ow1 }
    let ow2 : OpenWays :=
      { ow1 with upDown := gset (gset ow1.upDown row col true) row (col + 1) true }
    (result, { g with openWays := ow2 })

/-- `testIfExistPathsToGoalLinesAfterPlaceVerticalWall`. -/
def Game.testIfExistPathsToGoalLinesAfterPlaceVerticalWall (g : Game) (row col : Nat) :
    Bool × Game :=
  if testIfConnectedOnTwoPointsForVerticalWall g.board.walls row col = false then (true, g)
  else
    let ow1 := blockV g.openWays row col
    let result := Game.existPathsToGoalLines { g with openWays := ow1 }
    let ow2 : OpenWays :=
      { ow1 with leftRight := gset (gset ow1.leftRight row col true) (row + 1) col true }
    (result, { g with openWays := ow2 })

/-- `_set_validNextPositionsToward`: mark the legal destination(s) toward
`mainMove`, handling the jump-over cases via `subMove1`/`subMove2`. -/
def Game.setValidNextPositionsToward (g : Game) (grid : GridB)
    (mainMove subMove1 subMove2 : Dir) : GridB :=
  if g.isValidNextMoveNotConsideringOtherPawn g.pawnOfTurn.position mainMove then
    let mainMovePosition := g.pawnOfTurn.position.newAddMove mainMove
    if mainMovePosition = g.pawnOfNotTurn.position then
      if g.isValidNextMoveNotConsideringOtherPawn mainMovePosition mainMove then
        let mainMainMovePosition := mainMovePosition.newAddMove mainMove
        gset grid mainMainMovePosition.row mainMainMovePosition.col true
      else
        let grid1 :=
          if g.isValidNextMoveNotConsideringOtherPawn mainMovePosition subMove1 then
            let mainSub1MovePosition := mainMovePosition.newAddMove subMove1
            gset grid mainSub1MovePosition.row mainSub1MovePosition.col true
          else grid
        if g.isValidNextMoveNotConsideringOtherPawn mainMovePosition subMove2 then
          let mainSub2MovePosition := mainMovePosition.newAddMove subMove2
          gset grid1 mainSub2MovePosition.row mainSub2MovePosition.col true
        else grid1
    else
      gset grid mainMovePosition.row mainMovePosition.col true
  else grid

/-- The computation performed by the `validNextPositions` getter on a cache
miss: clear the grid, then mark toward all four directions. -/
def Game.computeValidNextPositions (g : Game) : GridB :=
  let grid0 : GridB := fun _ _ => false
  let grid1 := g.setValidNextPositionsToward grid0 Dir.up Dir.left Dir.right
  let grid2 := g.setValidNextPositionsToward grid1 Dir.down Dir.left Dir.right
  let grid3 := g.setValidNextPositionsToward grid2 Dir.left Dir.up Dir.down
  g.setValidNextPositionsToward grid3 Dir.right Dir.up Dir.down

/-- The `validNextPositions` getter: returns the memoized grid, or computes,
caches and returns it (the returned game carries the updated cache). -/
def Game.validNextPositionsGet (g : Game) : GridB × Game :=
  if g.validNextPositionsUpdated = true then (g.validNextPositionsCache, g)
  else
    let grid := g.computeValidNextPositions
    (grid, { g with validNextPositionsCache := grid, validNextPositionsUpdated := true })

/-- The unconditional tail of `movePawn`: set the position, detect a win,
advance the turn. -/
def Game.movePawnBody (g : Game) (row col : Nat) : Bool × Game :=
  let g1 := g.setPawnOfTurn { g.pawnOfTurn with position := ⟨row, col⟩ }
  let g2 := if g1.pawnOfTurn.goalRow = g1.pawnOfTurn.position.row
            then { g1 with winner := some g1.pawnIndexOfTurn } else g1
  (true, g2.setTurn (g2.turn + 1))

/-- The source's `movePawn`.  With `needCheck` the `validNextPositions`
getter is consulted first (memoizing its result even on failure). -/
def Game.movePawn (g : Game) (row col : Nat) (needCheck : Bool) : Bool × Game :=
  if needCheck then
    let vg := g.validNextPositionsGet
    if vg.1 row col = true then Game.movePawnBody vg.2 row col
    else (false, vg.2)
  else Game.movePawnBody g row col

/-- Set cell `(i, j)` to `true` when `cond` holds (a guarded JS write). -/
def gsetIf (g : GridB) (cond : Bool) (i j : Nat) : GridB :=
  if cond then gset g i j true else g

/-- `adjustProbableValidNextWallForAfterPlaceHorizontalWall`: accumulate
probable wall candidates around a just-placed horizontal wall. -/
def Game.adjustProbableValidNextWallForAfterPlaceHorizontalWall
    (g : Game) (row col : Nat) : Game :=
  let v0 := g.probableNextWalls.vertical
  let h0 := g.probableNextWalls.horizontal
  let v1 := gsetIf v0 (decide (1 ≤ row)) (row - 1) col
  let v2 := gsetIf v1 (decide (row ≤ 6)) (row + 1) col
  let v3 := gsetIf v2 (decide (1 ≤ col)) row (col - 1)
  let v4 := gsetIf v3 (decide (1 ≤ col) && decide (1 ≤ row)) (row - 1) (col - 1)
  let v5 := gsetIf v4 (decide (1 ≤ col) && decide (row ≤ 6)) (row + 1) (col - 1)
  let h1 := gsetIf h0 (decide (1 ≤ col) && decide (2 ≤ col)) row (col - 2)
  let v6 := gsetIf v5 (decide (1 ≤ col) && decide (2 ≤ col)) row (col - 2)
  let h2 := gsetIf h1 (decide (1 ≤ col) && decide (2 ≤ col) && decide (3 ≤ col)) row (col - 3)
  let v7 := gsetIf v6 (decide (col ≤ 6)) row (col + 1)
  let v8 := gsetIf v7 (decide (col ≤ 6) && decide (1 ≤ row)) (row - 1) (col + 1)
  let v9 := gsetIf v8 (decide (col ≤ 6) && decide (row ≤ 6)) (row + 1) (col + 1)
  let h3 := gsetIf h2 (decide (col ≤ 6) && decide (col ≤ 5)) row (col + 2)
  let v10 := gsetIf v9 (decide (col ≤ 6) && decide (col ≤ 5)) row (col + 2)
  let h4 := gsetIf h3 (decide (col ≤ 6) && decide (col ≤ 5) && decide (col ≤ 4)) row (col + 3)
  { g with probableNextWalls := { horizontal := h4, vertical := v10 } }

/-- `adjustProbableValidNextWallForAfterPlaceVerticalWall`. -/
def Game.adjustProbableValidNextWallForAfterPlaceVerticalWall
    (g : Game) (row col : Nat) : Game :=
  let h0 := g.probableNextWalls.horizontal
  let v0 := g.probableNextWalls.vertical
  let h1 := gsetIf h0 (decide (1 ≤ col)) row (col - 1)
  let h2 := gsetIf h1 (decide (col ≤ 6)) row (col + 1)
  let h3 := gsetIf h2 (decide (1 ≤ row)) (row - 1) col
  let h4 := gsetIf h3 (decide (1 ≤ row) && decide (1 ≤ col)) (row - 1) (col - 1)
  let h5 := gsetIf h4 (decide (1 ≤ row) && decide (col ≤ 6)) (row - 1) (col + 1)
  let v1 := gsetIf v0 (decide (1 ≤ row) && decide (2 ≤ row)) (row - 2) col
  let h6 := gsetIf h5 (decide (1 ≤ row) && decide (2 ≤ row)) (row - 2) col
  let v2 := gsetIf v1 (decide (1 ≤ row) && decide (2 ≤ row) && decide (3 ≤ row)) (row - 3) col
  let h7 := gsetIf h6 (decide (row ≤ 6)) (row + 1) col
  let h8 := gsetIf h7 (decide (row ≤ 6) && decide (1 ≤ col)) (row + 1) (col - 1)
  let h9 := gsetIf h8 (decide (row ≤ 6) && decide (col ≤ 6)) (row + 1) (col + 1)
  let v3 := gsetIf v2 (decide (row ≤ 6) && decide (row ≤ 5)) (row + 2) col
  let h10 := gsetIf h9 (decide (row ≤ 6) && decide (row ≤ 5)) (row + 2) col
  let v4 := gsetIf v3 (decide (row ≤ 6) && decide (row ≤ 5) && decide (row ≤ 4)) (row + 3) col
  { g with probableNextWalls := { horizontal := h10, vertical := v4 } }

/-- The unconditional tail of `placeHorizontalWall`: close the two edges,
mark conflicting wall cells illegal, record the wall, update the heuristic
candidates, spend a wall, advance the turn. -/
def Game.placeHorizontalWallBody (g : Game) (row col : Nat) : Bool × Game :=
  let ow := blockH g.openWays row col
  let vnw1 := { g.validNextWalls with
    vertical := gset g.validNextWalls.vertical row col false }
  let vnw2 := { vnw1 with horizontal := gset vnw1.horizontal row col false }
  let vnw3 := if 0 < col
    then { vnw2 with horizontal := gset vnw2.horizontal row (col - 1) false } else vnw2
  let vnw4 := if col < 7
    then { vnw3 with horizontal := gset vnw3.horizontal row (col + 1) false } else vnw3
  let walls1 := { g.board.walls with
    horizontal := gset g.board.walls.horizontal row col true }
  let g1 := { g with openWays := ow, validNextWalls := vnw4,
                     board := { g.board with walls := walls1 } }
  let g2 := g1.adjustProbableValidNextWallForAfterPlaceHorizontalWall row col
  let g3 := g2.setPawnOfTurn
    { g2.pawnOfTurn with numberOfLeftWalls := g2.pawnOfTurn.numberOfLeftWalls - 1 }
  (true, g3.setTurn (g3.turn + 1))

/-- The source's `placeHorizontalWall`. -/
def Game.placeHorizontalWall (g : Game) (row col : Nat) (needCheck : Bool) : Bool × Game :=
  if needCheck then
    let tg := g.testIfExistPathsToGoalLinesAfterPlaceHorizontalWall row col
    if tg.1 = false then (false, tg.2)
    else Game.placeHorizontalWallBody tg.2 row col
  else Game.placeHorizontalWallBody g row col

/-- The unconditional tail of `placeVerticalWall`. -/
def Game.placeVerticalWallBody (g : Game) (row col : Nat) : Bool × Game :=
  let ow := blockV g.openWays row col
  let vnw1 := { g.validNextWalls with
    horizontal := gset g.validNextWalls.horizontal row col false }
  let vnw2 := { vnw1 with vertical := gset vnw1.vertical row col false }
  let vnw3 := if 0 < row
    then { vnw2 with vertical := gset vnw2.vertical (row - 1) col false } else vnw2
  let vnw4 := if row < 7
    then { vnw3 with vertical := gset vnw3.vertical (row + 1) col false } else vnw3
  let walls1 := { g.board.walls with
    vertical := gset g.board.walls.vertical row col true }
  let g1 := { g with openWays := ow, validNextWalls := vnw4,
                     board := { g.board with walls := walls1 } }
  let g2 := g1.adjustProbableValidNextWallForAfterPlaceVerticalWall row col
  let g3 := g2.setPawnOfTurn
    { g2.pawnOfTurn with numberOfLeftWalls := g2.pawnOfTurn.numberOfLeftWalls - 1 }
  (true, g3.setTurn (g3.turn + 1))

/-- The source's `placeVerticalWall`. -/
def Game.placeVerticalWall (g : Game) (row col : Nat) (needCheck : Bool) : Bool × Game :=
  if needCheck then
    let tg := g.testIfExistPathsToGoalLinesAfterPlaceVerticalWall row col
    if tg.1 = false then (false, tg.2)
    else Game.placeVerticalWallBody tg.2 row col
  else Game.placeVerticalWallBody g row col

/-- A move argument of `doMove`: the 3-element array `[movePawnTo,
placeHorizontalWallAt, placeVerticalWallAt]`. -/
structure Move where
  movePawnTo : Option (Nat × Nat)
  placeHorizontalWallAt : Option (Nat × Nat)
  placeVerticalWallAt : Option (Nat × Nat)
deriving DecidableEq, Repr

/-- The source's `doMove`: dispatch on the first populated slot; with no
populated slot the JS function returns `undefined` (here `none`) and leaves
the game untouched.  (The debug `console.log` on a terminal state has no
state effect and is omitted.) -/
def Game.doMove (g : Game) (move : Move) (needCheck : Bool) : Option Bool × Game :=
  match move.movePawnTo with
  | some p => let r := g.movePawn p.1 p.2 needCheck; (some r.1, r.2)
  | none => match move.placeHorizontalWallAt with
    | some w => let r := g.placeHorizontalWall w.1 w.2 needCheck; (some r.1, r.2)
    | none => match move.placeVerticalWallAt with
      | some w => let r := g.placeVerticalWall w.1 w.2 needCheck; (some r.1, r.2)
      | none => (none, g)

/-- The row-major traversal order of the 8×8 wall grid used by the two loops
of `updateValidNextWalls`. -/
def wallCellList : List (Nat × Nat) :=
  (List.range 8).flatMap (fun i => (List.range 8).map (fun j => (i, j)))

/-- One iteration of the horizontal-wall loop of `updateValidNextWalls`:
skip cells that overlap an existing wall, otherwise tentatively place the
wall (close its edges), test both paths, restore, and record the verdict. -/
def Game.updateValidNextWallsHStep (g : Game) (ij : Nat × Nat) : Game :=
  let i := ij.1
  let j := ij.2
  if g.board.walls.horizontal i j || g.board.walls.vertical i j ||
     (decide (0 < j) && g.board.walls.horizontal i (j - 1)) ||
     (decide (j < 7) && g.board.walls.horizontal i (j + 1)) then g
  else
    let gTmp := { g with
      board := { g.board with walls := { g.board.walls with
        horizontal := gset g.board.walls.horizontal i j true } },
      openWays := blockH g.openWays i j }
    let ok := gTmp.existPathsToGoalLines
    { g with validNextWalls := { g.validNextWalls with
        horizontal := gset g.validNextWalls.horizontal i j ok } }

/-- One iteration of the vertical-wall loop of `updateValidNextWalls`. -/
def Game.updateValidNextWallsVStep (g : Game) (ij : Nat × Nat) : Game :=
  let i := ij.1
  let j := ij.2
  if g.board.walls.vertical i j || g.board.walls.horizontal i j ||
     (decide (0 < i) && g.board.walls.vertical (i - 1) j) ||
     (decide (i < 7) && g.board.walls.vertical (i + 1) j) then g
  else
    let gTmp := { g with
      board := { g.board with walls := { g.board.walls with
        vertical := gset g.board.walls.vertical i j true } },
      openWays := blockV g.openWays i j }
    let ok := gTmp.existPathsToGoalLines
    { g with validNextWalls := { g.validNextWalls with
        vertical := gset g.validNextWalls.vertical i j ok } }

/-- The source's `updateValidNextWalls`: reset both grids to `false`, then
recompute each cell's legality with a tentative placement and path test. -/
def Game.updateValidNextWalls (g : Game) : Game :=
  let g0 := { g with validNextWalls :=
    { horizontal := fun _ _ => false, vertical := fun _ _ => false } }
  let g1 := wallCellList.foldl Game.updateValidNextWallsHStep g0
  wallCellList.foldl Game.updateValidNextWallsVStep g1

/-- The `Game` constructor (non-clone branch): initial board, all walls
unplaced, all passages open, caches cold, followed by the constructor's
`updateValidNextWalls()` call. -/
def newGame (isHumanPlayerFirst : Bool) : Game :=
  let board : Board :=
    if isHumanPlayerFirst then
      { pawns0 := Pawn.make 0 true true, pawns1 := Pawn.make 1 false false,
        walls := { horizontal := fun _ _ => false, vertical := fun _ _ => false } }
    else
      { pawns0 := Pawn.make 0 false false, pawns1 := Pawn.make 1 true true,
        walls := { horizontal := fun _ _ => false, vertical := fun _ _ => false } }
  let g : Game :=
    { board := board, winner := none, turn := 0,
      validNextWalls :=
        { horizontal := fun i j => decide (i < 8) && decide (j < 8),
          vertical := fun i j => decide (i < 8) && decide (j < 8) },
      probableNextWalls :=
        { horizontal := fun _ _ => false, vertical := fun _ _ => false },
      probableValidNextWalls := none, probableValidNextWallsUpdated := false,
      openWays :=
        { upDown := fun i j => decide (i < 8) && decide (j < 9),
          leftRight := fun i j => decide (i < 9) && decide (j < 8) },
      validNextPositionsCache := fun _ _ => false, validNextPositionsUpdated := false }
  g.updateValidNextWalls

/-- One move of the 9×9 movement graph: a step from `p` through an open edge
(as tested by `isOpenWay`). -/
def Step (ow : OpenWays) (p q : PawnPosition) : Prop :=
  ∃ d : Dir, isOpenWayOW ow p.row p.col d = true ∧
    q = ⟨stepRow p.row d, stepCol p.col d⟩

/-- Reachability over open ways. -/
def Reach (ow : OpenWays) : PawnPosition → PawnPosition → Prop :=
  Relation.ReflTransGen (Step ow)

/-- There is a path (possibly empty) from `p` to some cell of row `goal`. -/
def GoalReach (ow : OpenWays) (p : PawnPosition) (goal : Nat) : Prop :=
  ∃ q, Reach ow p q ∧ q.row = goal

/-- There is a nonempty path from `p` whose last step enters row `goal`; this
is the notion the source's DFS decides (it only tests the goal row on cells it
steps onto, never on the start cell). -/
def GoalPath (ow : OpenWays) (p : PawnPosition) (goal : Nat) : Prop :=
  ∃ q q', Reach ow p q ∧ Step ow q q' ∧ q'.row = goal

/-- The open-way grids are `false` outside their 8×9 / 9×8 bounds (true of
the initial state and preserved by every operation). -/
def OWSupport (ow : OpenWays) : Prop :=
  (∀ r c, ow.upDown r c = true → r < 8 ∧ c < 9) ∧
  (∀ r c, ow.leftRight r c = true → r < 9 ∧ c < 8)

/-- The wall grids are `false` outside their 8×8 bounds. -/
def WallsSupport (w : Walls) : Prop :=
  (∀ r c, w.horizontal r c = true → r < 8 ∧ c < 8) ∧
  (∀ r c, w.vertical r c = true → r < 8 ∧ c < 8)

/-- OpenWays is exactly the edge complement of the wall grid (the spec's
"OpenWays is always exactly the edge-complement implied by WallGrid"). -/
def Cons (w : Walls) (ow : OpenWays) : Prop :=
  (∀ r c, r < 8 → c < 9 →
    ow.upDown r c =
      !((decide (1 ≤ c) && w.horizontal r (c - 1)) || w.horizontal r c)) ∧
  (∀ r c, r < 9 → c < 8 →
    ow.leftRight r c =
      !((decide (1 ≤ r) && w.vertical (r - 1) c) || w.vertical r c))

/-- Wall cells marked legal in `validNextWalls` are in bounds and do not
overlap or cross any placed wall (established by `updateValidNextWalls` in the
constructor and maintained because wall placement clears every conflicting
cell and nothing ever sets a cell back to `true`). -/
def VnwSafe (g : Game) : Prop :=
  (∀ r c, g.validNextWalls.horizontal r c = true →
    r < 8 ∧ c < 8 ∧
    g.board.walls.horizontal r c = false ∧ g.board.walls.vertical r c = false ∧
    (1 ≤ c → g.board.walls.horizontal r (c - 1) = false) ∧
    (c < 7 → g.board.walls.horizontal r (c + 1) = false)) ∧
  (∀ r c, g.validNextWalls.vertical r c = true →
    r < 8 ∧ c < 8 ∧
    g.board.walls.vertical r c = false ∧ g.board.walls.horizontal r c = false ∧
    (1 ≤ r → g.board.walls.vertical (r - 1) c = false) ∧
    (r < 7 → g.board.walls.vertical (r + 1) c = false))

/-- The state invariant carried through reachable games: bounded grids,
wall/open-way consistency, safety of the legal-wall cache, coherence of the
memoized `validNextPositions`, and a path to goal for both pawns. -/
def Game.Inv (g : Game) : Prop :=
  WallsSupport g.board.walls ∧ OWSupport g.openWays ∧ Cons g.board.walls g.openWays ∧
  VnwSafe g ∧
  (g.validNextPositionsUpdated = true →
    g.validNextPositionsCache = g.computeValidNextPositions) ∧
  GoalReach g.openWays g.pawn0.position g.pawn0.goalRow ∧
  GoalReach g.openWays g.pawn1.position g.pawn1.goalRow

/-- Pointwise containment of visited grids. -/
def visSub (v v' : GridB) : Prop := ∀ a b, v a b = true → v' a b = true

/-- The 81 cells of the board. -/
def cellFinset : Finset (Nat × Nat) := Finset.range 9 ×ˢ Finset.range 9

/-- The number of visited cells of the board. -/
def countVis (v : GridB) : Nat :=
  (cellFinset.filter (fun p => v p.1 p.2 = true)).card

/-- Transpose an edge set (swap the roles of rows and columns). -/
def transposeOW (ow : OpenWays) : OpenWays :=
  { upDown := fun r c => ow.leftRight c r, leftRight := fun r c => ow.upDown c r }

/-- Transpose a wall grid pair. -/
def transposeWalls (w : Walls) : Walls :=
  { horizontal := fun r c => w.vertical c r, vertical := fun r c => w.horizontal c r }

/-- Swap the coordinates of a position. -/
def PawnPosition.swap (p : PawnPosition) : PawnPosition := ⟨p.col, p.row⟩

/-- A wall-placement move is also allowed by the `validNextWalls` legal-wall
set (the filter every real caller of `doMove` applies); pawn moves are
unrestricted. -/
def Move.wallAllowed (g : Game) (m : Move) : Prop :=
  match m.movePawnTo, m.placeHorizontalWallAt, m.placeVerticalWallAt with
  | some _, _, _ => True
  | none, some w, _ => g.validNextWalls.horizontal w.1 w.2 = true
  | none, none, some w => g.validNextWalls.vertical w.1 w.2 = true
  | none, none, none => True

/-- One game step validated only by `doMove` with `needCheck = true` (the
reachability notion quantified over by the claim). -/
def Game.validatedStep (g g' : Game) : Prop :=
  ∃ m : Move, g.doMove m true = (some true, g')

/-- States reachable from `g0` by `doMove`-validated moves alone. -/
def Game.reachableByValidated (g0 g : Game) : Prop :=
  Relation.ReflTransGen Game.validatedStep g0 g

/-- One game step validated by `doMove` with `needCheck = true` whose wall
placements are additionally restricted to cells legal in `validNextWalls`. -/
def Game.legalStep (g g' : Game) : Prop :=
  ∃ m : Move, Move.wallAllowed g m ∧ g.doMove m true = (some true, g')

/-- States reachable from `g0` by fully legal moves. -/
def Game.reachableByLegal (g0 g : Game) : Prop :=
  Relation.ReflTransGen Game.legalStep g0 g

/-- A pawn-move `doMove` argument. -/
def mvP (r c : Nat) : Move := ⟨some (r, c), none, none⟩

/-- A horizontal-wall `doMove` argument. -/
def mvH (r c : Nat) : Move := ⟨none, some (r, c), none⟩

/-- A vertical-wall `doMove` argument. -/
def mvV (r c : Nat) : Move := ⟨none, none, some (r, c)⟩

/-- The overlap/conflict precondition of the horizontal-wall loop of
`updateValidNextWalls`: the cell holds a wall of either orientation, or an
adjacent parallel wall already co-opts one of its edges. -/
def overlapH (w : Walls) (r c : Nat) : Bool :=
  w.horizontal r c || w.vertical r c ||
  (decide (0 < c) && w.horizontal r (c - 1)) ||
  (decide (c < 7) && w.horizontal r (c + 1))

/-- The overlap/conflict precondition of the vertical-wall loop. -/
def overlapV (w : Walls) (r c : Nat) : Bool :=
  w.vertical r c || w.horizontal r c ||
  (decide (0 < r) && w.vertical (r - 1) c) ||
  (decide (r < 7) && w.vertical (r + 1) c)

/-- The unoptimized transactional legality test for a horizontal wall: close
the two edges, run the double DFS, restore (pure, so the restore is implicit).
This is the flip-edges-then-DFS test the spec describes, the body of
`testIfExistPathsToGoalLinesAfterPlaceHorizontalWall` without the two-point
precheck skip, exactly as inlined in `updateValidNextWalls`. -/
def Game.testUnoptimizedH (g : Game) (row col : Nat) : Bool :=
  Game.existPathsToGoalLines { g with openWays := blockH g.openWays row col }

/-- The unoptimized transactional legality test for a vertical wall. -/
def Game.testUnoptimizedV (g : Game) (row col : Nat) : Bool :=
  Game.existPathsToGoalLines { g with openWays := blockV g.openWays row col }

/-- The open-way grids of a fresh board: every in-bounds passage open. -/
def initOW : OpenWays :=
  { upDown := fun i j => decide (i < 8) && decide (j < 9),
    leftRight := fun i j => decide (i < 9) && decide (j < 8) }

/-- The initial game used by the concrete scenarios below. -/
def gInit : Game := newGame true

/-- Barrier scenario: four legal horizontal walls on wall-row 4 leaving only
the rightmost passage open, all accepted by `doMove` with `needCheck = true`. -/
def sBar1 : Game := (gInit.doMove (mvH 4 0) true).2

/-- Barrier scenario after the second wall. -/
def sBar2 : Game := (sBar1.doMove (mvH 4 2) true).2

/-- Barrier scenario after the third wall. -/
def sBar3 : Game := (sBar2.doMove (mvH 4 4) true).2

/-- Barrier scenario after the fourth wall; both pawns still have paths
through the gap above column 8. -/
def sBar4 : Game := (sBar3.doMove (mvH 4 6) true).2

/-- The sealing fifth wall at (4,7): it overlaps the wall at (4,6), the
two-point precheck does not see it, and `doMove` with `needCheck = true`
accepts it, cutting both pawns off from their goal rows. -/
def sBar5 : Game := (sBar4.doMove (mvH 4 7) true).2

/-- Variant barrier used for the failed-wall state-corruption scenario:
walls H(4,0), H(4,2), H(4,4), H(4,7) and V(3,6), all accepted by `doMove`
with `needCheck = true`; the only passage through wall-row 4 is above
column 6. -/
def sCor4 : Game := (sBar3.doMove (mvH 4 7) true).2

/-- The corruption scenario after the anchoring vertical wall V(3,6). -/
def sCor5 : Game := (sCor4.doMove (mvV 3 6) true).2

/-- The result of the rejected overlapping wall H(4,6) on `sCor5`: `doMove`
returns failure but the restore step has forced the edge under the existing
wall at (4,7) open. -/
def sCor6 : Option Bool × Game := sCor5.doMove (mvH 4 6) true

/-- Openways-restoration scenario: legal walls V(1,1) then H(0,1). -/
def sres2 : Game := ((gInit.doMove (mvV 1 1) true).2.doMove (mvH 0 1) true).2

/-- Near-enclosure scenario: walls H(0,0), H(0,2), H(0,4) close the floor of
the row-0 cells up to column 5; pawn1 at (0,4) keeps the exits right of
column 5.  The candidate V(0,5) would seal the pocket and is rejected. -/
def sPock1 : Game := (gInit.doMove (mvH 0 0) true).2

/-- Pocket scenario after the second floor wall. -/
def sPock2 : Game := (sPock1.doMove (mvH 0 2) true).2

/-- Pocket scenario after the third floor wall. -/
def sPock3 : Game := (sPock2.doMove (mvH 0 4) true).2

/-- A terminal position: pawn0 has reached its goal row 0 and `winner` is
set; it is pawn1's turn.  (Field-for-field a value the engine produces when
pawn0 wins; used to test move handling after the game has ended.) -/
def gWon : Game :=
  { board :=
      { pawns0 := { index := 0, isHumanSide := true, isHumanPlayer := true,
                    position := ⟨0, 3⟩, goalRow := 0, numberOfLeftWalls := 10 },
        pawns1 := { index := 1, isHumanSide := false, isHumanPlayer := false,
                    position := ⟨0, 4⟩, goalRow := 8, numberOfLeftWalls := 10 },
        walls := { horizontal := fun _ _ => false, vertical := fun _ _ => false } },
    winner := some 0, turn := 1,
    validNextWalls :=
      { horizontal := fun i j => decide (i < 8) && decide (j < 8),
        vertical := fun i j => decide (i < 8) && decide (j < 8) },
    probableNextWalls :=
      { horizontal := fun _ _ => false, vertical := fun _ _ => false },
    probableValidNextWalls := none, probableValidNextWallsUpdated := false,
    openWays :=
      { upDown := fun i j => decide (i < 8) && decide (j < 9),
        leftRight := fun i j => decide (i < 9) && decide (j < 8) },
    validNextPositionsCache := fun _ _ => false, validNextPositionsUpdated := false }

/-- A mid-board jump position: pawn0 (to move) at (4,4), pawn1 directly
above at (3,4), no walls. -/
def gAdj : Game :=
  { board :=
      { pawns0 := { index := 0, isHumanSide := true, isHumanPlayer := true,
                    position := ⟨4, 4⟩, goalRow := 0, numberOfLeftWalls := 10 },
        pawns1 := { index := 1, isHumanSide := false, isHumanPlayer := false,
                    position := ⟨3, 4⟩, goalRow := 8, numberOfLeftWalls := 10 },
        walls := { horizontal := fun _ _ => false, vertical := fun _ _ => false } },
    winner := none, turn := 0,
    validNextWalls :=
      { horizontal := fun i j => decide (i < 8) && decide (j < 8),
        vertical := fun i j => decide (i < 8) && decide (j < 8) },
    probableNextWalls :=
      { horizontal := fun _ _ => false, vertical := fun _ _ => false },
    probableValidNextWalls := none, probableValidNextWallsUpdated := false,
    openWays :=
      { upDown := fun i j => decide (i < 8) && decide (j < 9),
        leftRight := fun i j => decide (i < 9) && decide (j < 8) },
    validNextPositionsCache := fun _ _ => false, validNextPositionsUpdated := false }

/-- A position one step from victory: pawn0 (to move) at (1,4) with goal
row 0, pawn1 at (8,4), no walls. -/
def gNearWin : Game :=
  { board :=
      { pawns0 := { index := 0, isHumanSide := true, isHumanPlayer := true,
                    position := ⟨1, 4⟩, goalRow := 0, numberOfLeftWalls := 10 },
        pawns1 := { index := 1, isHumanSide := false, isHumanPlayer := false,
                    position := ⟨8, 4⟩, goalRow := 8, numberOfLeftWalls := 10 },
        walls := { horizontal := fun _ _ => false, vertical := fun _ _ => false } },
    winner := none, turn := 0,
    validNextWalls :=
      { horizontal := fun i j => decide (i < 8) && decide (j < 8),
        vertical := fun i j => decide (i < 8) && decide (j < 8) },
    probableNextWalls :=
      { horizontal := fun _ _ => false, vertical := fun _ _ => false },
    probableValidNextWalls := none, probableValidNextWallsUpdated := false,
    openWays :=
      { upDown := fun i j => decide (i < 8) && decide (j < 9),
        leftRight := fun i j => decide (i < 9) && decide (j < 8) },
    validNextPositionsCache := fun _ _ => false, validNextPositionsUpdated := false }

-- ===================== end of definitions; theorems below =====================

theorem gset_same (g : GridB) (i j : Nat) (v : Bool) : gset g i j v i j = v := by
  simp [gset]

theorem gset_other (g : GridB) (i j : Nat) (v : Bool) {a b : Nat}
    (h : ¬(a = i ∧ b = j)) : gset g i j v a b = g a b := by
  simp only [gset, if_neg h]

theorem mem_allDirs (d : Dir) : d ∈ allDirs := by
  cases d <;> simp [allDirs]

theorem newAddMove_step (p : PawnPosition) (d : Dir) :
    p.newAddMove d = ⟨stepRow p.row d, stepCol p.col d⟩ := by
  cases d <;> rfl

theorem isValidNextMove_eq_isOpenWay (g : Game) (p : PawnPosition) (d : Dir) :
    g.isValidNextMoveNotConsideringOtherPawn p d = isOpenWayOW g.openWays p.row p.col d := by
  cases d <;> rfl

theorem step_inBounds {ow : OpenWays} (hsup : OWSupport ow) {r c : Nat} {d : Dir}
    (h : isOpenWayOW ow r c d = true) : stepRow r d < 9 ∧ stepCol c d < 9 := by
  obtain ⟨hud, hlr⟩ := hsup
  cases d with
  | up =>
    simp only [isOpenWayOW, Bool.and_eq_true, decide_eq_true_eq] at h
    have := hud _ _ h.2
    simp only [stepRow, stepCol]
    omega
  | down =>
    simp only [isOpenWayOW, Bool.and_eq_true, decide_eq_true_eq] at h
    have := hud _ _ h.2
    simp only [stepRow, stepCol]
    omega
  | left =>
    simp only [isOpenWayOW, Bool.and_eq_true, decide_eq_true_eq] at h
    have := hlr _ _ h.2
    simp only [stepRow, stepCol]
    omega
  | right =>
    simp only [isOpenWayOW, Bool.and_eq_true, decide_eq_true_eq] at h
    have := hlr _ _ h.2
    simp only [stepRow, stepCol]
    omega

theorem step_symm {ow : OpenWays} (hsup : OWSupport ow) {p q : PawnPosition}
    (h : Step ow p q) : Step ow q p := by
  obtain ⟨hud, hlr⟩ := hsup
  obtain ⟨d, hopen, rfl⟩ := h
  cases d with
  | up =>
    simp only [isOpenWayOW, Bool.and_eq_true, decide_eq_true_eq] at hopen
    obtain ⟨hr, he⟩ := hopen
    have hb := hud _ _ he
    refine ⟨Dir.down, ?_, ?_⟩
    · simp only [isOpenWayOW, stepRow, stepCol, Bool.and_eq_true, decide_eq_true_eq]
      exact ⟨hb.1, he⟩
    · simp only [stepRow, stepCol]
      have h1 : p.row - 1 + 1 = p.row := by omega
      rw [h1]
  | down =>
    simp only [isOpenWayOW, Bool.and_eq_true, decide_eq_true_eq] at hopen
    obtain ⟨hr, he⟩ := hopen
    refine ⟨Dir.up, ?_, ?_⟩
    · simp only [isOpenWayOW, stepRow, stepCol, Bool.and_eq_true, decide_eq_true_eq]
      refine ⟨by omega, ?_⟩
      simpa using he
    · simp only [stepRow, stepCol]
      have h1 : p.row + 1 - 1 = p.row := by omega
      rw [h1]
  | left =>
    simp only [isOpenWayOW, Bool.and_eq_true, decide_eq_true_eq] at hopen
    obtain ⟨hc, he⟩ := hopen
    have hb := hlr _ _ he
    refine ⟨Dir.right, ?_, ?_⟩
    · simp only [isOpenWayOW, stepRow, stepCol, Bool.and_eq_true, decide_eq_true_eq]
      exact ⟨hb.2, he⟩
    · simp only [stepRow, stepCol]
      have h1 : p.col - 1 + 1 = p.col := by omega
      rw [h1]
  | right =>
    simp only [isOpenWayOW, Bool.and_eq_true, decide_eq_true_eq] at hopen
    obtain ⟨hc, he⟩ := hopen
    refine ⟨Dir.left, ?_, ?_⟩
    · simp only [isOpenWayOW, stepRow, stepCol, Bool.and_eq_true, decide_eq_true_eq]
      refine ⟨by omega, ?_⟩
      simpa using he
    · simp only [stepRow, stepCol]
      have h1 : p.col + 1 - 1 = p.col := by omega
      rw [h1]

theorem reach_symm {ow : OpenWays} (hsup : OWSupport ow) {p q : PawnPosition}
    (h : Reach ow p q) : Reach ow q p := by
  induction h with
  | refl => exact Relation.ReflTransGen.refl
  | tail _ hstep ih => exact Relation.ReflTransGen.head (step_symm hsup hstep) ih

theorem goalPath_head {ow : OpenWays} {p p' : PawnPosition} {goal : Nat}
    (hstep : Step ow p p') (h : GoalPath ow p' goal) : GoalPath ow p goal := by
  obtain ⟨q, q', hr, hs, hg⟩ := h
  exact ⟨q, q', Relation.ReflTransGen.head hstep hr, hs, hg⟩

theorem goalPath_goalReach {ow : OpenWays} {p : PawnPosition} {goal : Nat}
    (h : GoalPath ow p goal) : GoalReach ow p goal := by
  obtain ⟨q, q', hr, hs, hg⟩ := h
  exact ⟨q', Relation.ReflTransGen.tail hr hs, hg⟩

theorem dfsAux_sound (ow : OpenWays) (goal : Nat) :
    ∀ fuel ds vis r c, (dfsAux ow goal fuel ds vis r c).1 = true →
      GoalPath ow ⟨r, c⟩ goal := by
  intro fuel ds vis r c
  induction fuel, ds, vis, r, c using dfsAux.induct ow goal with
  | case1 fuel vis r c =>
    intro h
    simp [dfsAux] at h
  | case2 fuel d ds vis r c hopen nr nc hvis ih =>
    intro h
    apply ih
    simp only [dfsAux, hopen, if_true, hvis, if_pos] at h
    simpa using h
  | case3 fuel d ds vis r c hopen nr nc hvis hgoal =>
    intro _
    exact ⟨⟨r, c⟩, _, Relation.ReflTransGen.refl, ⟨d, hopen, rfl⟩, hgoal⟩
  | case4 d ds vis r c hopen nr nc hvis hgoal =>
    intro h
    simp only [dfsAux, hopen, if_true, hvis, hgoal] at h
    simp at h
  | case5 d ds vis r c hopen nr nc hvis vis1 hgoal fuel' res hres ih =>
    intro _
    exact goalPath_head ⟨d, hopen, rfl⟩ (ih hres)
  | case6 d ds vis r c hopen nr nc hvis vis1 hgoal fuel' res hres ih1 ih2 ih3 =>
    intro h
    apply ih3
    simp only [dfsAux, hopen, if_true] at h
    simp only [show nr = stepRow r d from rfl, show nc = stepCol c d from rfl] at hvis hgoal
    simp only [Bool.not_eq_true] at hvis
    simp only [hvis, Bool.false_eq_true, if_false, hgoal, if_neg, if_false] at h
    simp only [show res = dfsAux ow goal fuel' allDirs (gset vis (stepRow r d) (stepCol c d) true) (stepRow r d) (stepCol c d) from rfl] at hres
    simp only [Bool.not_eq_true] at hres
    simp only [hres, Bool.false_eq_true, if_false] at h
    exact h
  | case7 fuel d ds vis r c hopen ih =>
    intro h
    apply ih
    simp only [dfsAux, hopen] at h
    simpa using h

theorem visSub_refl (v : GridB) : visSub v v := fun _ _ h => h

theorem visSub_trans {a b c : GridB} (h1 : visSub a b) (h2 : visSub b c) : visSub a c :=
  fun x y h => h2 x y (h1 x y h)

theorem visSub_gset (v : GridB) (i j : Nat) : visSub v (gset v i j true) := by
  intro a b h
  by_cases hab : a = i ∧ b = j
  · obtain ⟨rfl, rfl⟩ := hab
    exact gset_same ..
  · rwa [gset_other _ _ _ _ hab]

theorem cellFinset_card : cellFinset.card = 81 := by
  simp [cellFinset]

theorem countVis_le (v : GridB) : countVis v ≤ 81 := by
  have h := Finset.card_filter_le cellFinset (fun p => v p.1 p.2 = true)
  rw [cellFinset_card] at h
  exact h

theorem countVis_lt {v : GridB} {a b : Nat} (ha : a < 9) (hb : b < 9) (h : v a b = false) :
    countVis v < 81 := by
  have hmem : (a, b) ∈ cellFinset := by
    simp [cellFinset, Finset.mem_product, ha, hb]
  have hsub : (cellFinset.filter (fun p => v p.1 p.2 = true)) ⊂ cellFinset := by
    refine (Finset.ssubset_iff_of_subset (Finset.filter_subset _ _)).2 ?_
    refine ⟨(a, b), hmem, ?_⟩
    simp [h]
  have := Finset.card_lt_card hsub
  rwa [cellFinset_card] at this

theorem countVis_gset {v : GridB} {a b : Nat} (ha : a < 9) (hb : b < 9) (h : v a b = false) :
    countVis (gset v a b true) = countVis v + 1 := by
  unfold countVis
  have hmem : (a, b) ∈ cellFinset := by
    simp [cellFinset, Finset.mem_product, ha, hb]
  have hfe : cellFinset.filter (fun p => gset v a b true p.1 p.2 = true)
      = insert (a, b) (cellFinset.filter (fun p => v p.1 p.2 = true)) := by
    ext x
    rcases x with ⟨x, y⟩
    simp only [Finset.mem_filter, Finset.mem_insert, Prod.mk.injEq]
    constructor
    · rintro ⟨hp, hv⟩
      by_cases hxy : x = a ∧ y = b
      · exact Or.inl hxy
      · exact Or.inr ⟨hp, by rwa [gset_other _ _ _ _ hxy] at hv⟩
    · rintro (⟨rfl, rfl⟩ | ⟨hp, hv⟩)
      · exact ⟨hmem, gset_same ..⟩
      · refine ⟨hp, ?_⟩
        by_cases hxy : x = a ∧ y = b
        · obtain ⟨rfl, rfl⟩ := hxy
          exact gset_same ..
        · rwa [gset_other _ _ _ _ hxy]
  rw [hfe, Finset.card_insert_of_not_mem]
  simp [Finset.mem_filter, h]

theorem countVis_mono {v v' : GridB} (h : visSub v v') : countVis v ≤ countVis v' := by
  unfold countVis
  apply Finset.card_le_card
  intro p hp
  simp only [Finset.mem_filter] at hp ⊢
  exact ⟨hp.1, h _ _ hp.2⟩

theorem dfsAux_false_spec (ow : OpenWays) (goal : Nat) (hsup : OWSupport ow) :
    ∀ fuel ds vis r c,
      ∀ res vis', dfsAux ow goal fuel ds vis r c = (res, vis') →
      81 ≤ fuel + countVis vis → res = false →
      (visSub vis vis' ∧
       (∀ d ∈ ds, isOpenWayOW ow r c d = true →
          vis' (stepRow r d) (stepCol c d) = true) ∧
       (∀ a b, vis' a b = true →
          vis a b = true ∨
          (a ≠ goal ∧ ∀ d, isOpenWayOW ow a b d = true →
            vis' (stepRow a d) (stepCol b d) = true))) := by
  intro fuel ds vis r c
  induction fuel, ds, vis, r, c using dfsAux.induct ow goal with
  | case1 fuel vis r c =>
    intro res vis' heq hfuel hres
    simp only [dfsAux, Prod.mk.injEq] at heq
    obtain ⟨rfl, rfl⟩ := heq
    refine ⟨visSub_refl _, ?_, ?_⟩
    · intro d hd
      simp at hd
    · intro a b h
      exact Or.inl h
  | case2 fuel d ds vis r c hopen nr nc hvis ih =>
    intro res vis' heq hfuel hres
    simp only [dfsAux, hopen, if_true, hvis, if_pos] at heq
    obtain ⟨hsub, hfront, hclos⟩ := ih res vis' heq hfuel hres
    refine ⟨hsub, ?_, hclos⟩
    intro d' hd' hopen'
    rcases List.mem_cons.1 hd' with rfl | hmem
    · exact hsub _ _ hvis
    · exact hfront d' hmem hopen'
  | case3 fuel d ds vis r c hopen nr nc hvis hgoal =>
    intro res vis' heq hfuel hres
    simp only [dfsAux, hopen, if_true] at heq
    rw [if_neg] at heq
    · rw [if_pos hgoal] at heq
      simp only [Prod.mk.injEq] at heq
      rw [← heq.1] at hres
      exact absurd hres (by decide)
    · exact hvis
  | case4 d ds vis r c hopen nr nc hvis hgoal =>
    intro res vis' heq hfuel hres
    exfalso
    have hb := step_inBounds hsup hopen
    have hlt : countVis vis < 81 := by
      apply countVis_lt hb.1 hb.2
      rw [← Bool.not_eq_true]
      exact hvis
    omega
  | case5 d ds vis r c hopen nr nc hvis vis1 hgoal fuel' res0 hres0 ih =>
    intro res vis' heq hfuel hres
    exfalso
    simp only [dfsAux, hopen, if_true] at heq
    rw [if_neg hvis, if_neg hgoal] at heq
    have hres0x : (dfsAux ow goal fuel' allDirs (gset vis (stepRow r d) (stepCol c d) true)
        (stepRow r d) (stepCol c d)).1 = true := hres0
    simp only [hres0x, if_true] at heq
    rw [heq] at hres0x
    rw [hres] at hres0x
    simp at hres0x
  | case6 d ds vis r c hopen nr nc hvis vis1 hgoal fuel' res0 hres0 ih1 ih2 ih3 =>
    intro res vis' heq hfuel hres
    have hres0f : (dfsAux ow goal fuel' allDirs (gset vis (stepRow r d) (stepCol c d) true)
        (stepRow r d) (stepCol c d)).1 = false := by
      rw [← Bool.not_eq_true]
      exact hres0
    simp only [dfsAux, hopen, if_true] at heq
    rw [if_neg hvis, if_neg hgoal] at heq
    simp only [hres0f, Bool.false_eq_true, if_false] at heq
    have hb := step_inBounds hsup hopen
    have hvisf : vis nr nc = false := by
      rw [← Bool.not_eq_true]
      exact hvis
    have hcnt : countVis vis1 = countVis vis + 1 := countVis_gset hb.1 hb.2 hvisf
    have heq0 : dfsAux ow goal fuel' allDirs vis1 nr nc = (false, res0.2) := by
      rw [← hres0f]
    obtain ⟨sub1, front1, clos1⟩ := ih1 false res0.2 heq0 (by omega) rfl
    have hsubv1 : visSub vis vis1 := visSub_gset vis nr nc
    have hsub02 : visSub vis res0.2 := visSub_trans hsubv1 sub1
    have hcnt2 : countVis vis ≤ countVis res0.2 := countVis_mono hsub02
    obtain ⟨sub2, front2, clos2⟩ := ih3 res vis' heq (by omega) hres
    refine ⟨visSub_trans hsub02 sub2, ?_, ?_⟩
    · intro d' hd' hopen'
      rcases List.mem_cons.1 hd' with rfl | hmem
      · exact sub2 _ _ (sub1 _ _ (gset_same ..))
      · exact front2 d' hmem hopen'
    · intro a b hab
      rcases clos2 a b hab with h2 | h2
      · rcases clos1 a b h2 with h1 | h1
        · by_cases hxy : a = nr ∧ b = nc
          · obtain ⟨rfl, rfl⟩ := hxy
            refine Or.inr ⟨hgoal, ?_⟩
            intro d' hopen'
            exact sub2 _ _ (front1 d' (mem_allDirs d') hopen')
          · left
            have h1x : gset vis nr nc true a b = true := h1
            rwa [gset_other _ _ _ _ hxy] at h1x
        · refine Or.inr ⟨h1.1, ?_⟩
          intro d' hopen'
          exact sub2 _ _ (h1.2 d' hopen')
      · exact Or.inr h2
  | case7 fuel d ds vis r c hopen ih =>
    intro res vis' heq hfuel hres
    simp only [dfsAux, hopen] at heq
    rw [if_neg] at heq
    · obtain ⟨hsub, hfront, hclos⟩ := ih res vis' heq hfuel hres
      refine ⟨hsub, ?_, hclos⟩
      intro d' hd' hopen'
      rcases List.mem_cons.1 hd' with rfl | hmem
      · exact absurd hopen' hopen
      · exact hfront d' hmem hopen'
    · simp [hopen]

theorem dfsTop_complete (ow : OpenWays) (goal : Nat) (hsup : OWSupport ow)
    (p : PawnPosition) (h : GoalPath ow p goal) :
    (dfsAux ow goal 81 allDirs (fun _ _ => false) p.row p.col).1 = true := by
  by_contra hfalse
  rw [Bool.not_eq_true] at hfalse
  have heq : dfsAux ow goal 81 allDirs (fun _ _ => false) p.row p.col
      = ((dfsAux ow goal 81 allDirs (fun _ _ => false) p.row p.col).1,
         (dfsAux ow goal 81 allDirs (fun _ _ => false) p.row p.col).2) := rfl
  rw [hfalse] at heq
  obtain ⟨hsub, hfront, hclos⟩ :=
    dfsAux_false_spec ow goal hsup 81 allDirs (fun _ _ => false) p.row p.col
      false _ heq (by omega) rfl
  set visEnd := (dfsAux ow goal 81 allDirs (fun _ _ => false) p.row p.col).2 with hv
  have marked : ∀ x : PawnPosition, Reach ow p x → x = p ∨ visEnd x.row x.col = true := by
    intro x hx
    induction hx with
    | refl => exact Or.inl rfl
    | tail hr hstep ih =>
      obtain ⟨d, hopen, rfl⟩ := hstep
      rcases ih with rfl | hm
      · exact Or.inr (hfront d (mem_allDirs d) hopen)
      · rcases hclos _ _ hm with hcontra | ⟨_, hnb⟩
        · simp at hcontra
        · exact Or.inr (hnb d hopen)
  obtain ⟨q, q', hr, ⟨d, hopen, rfl⟩, hg⟩ := h
  have hq' : visEnd (stepRow q.row d) (stepCol q.col d) = true := by
    rcases marked q hr with rfl | hm
    · exact hfront d (mem_allDirs d) hopen
    · rcases hclos _ _ hm with hcontra | ⟨_, hnb⟩
      · simp at hcontra
      · exact hnb d hopen
  rcases hclos _ _ hq' with hcontra | ⟨hne, _⟩
  · simp at hcontra
  · exact hne hg

theorem existPath_iff_goalPath (ow : OpenWays) (pawn : Pawn) (hsup : OWSupport ow) :
    existPathToGoalLineForOW ow pawn = true ↔ GoalPath ow pawn.position pawn.goalRow := by
  constructor
  · intro h
    exact dfsAux_sound ow pawn.goalRow 81 allDirs (fun _ _ => false)
      pawn.position.row pawn.position.col h
  · intro h
    exact dfsTop_complete ow pawn.goalRow hsup pawn.position h

theorem gset_false_le {g : GridB} {i j a b : Nat} (h : gset g i j false a b = true) :
    g a b = true := by
  by_cases hab : a = i ∧ b = j
  · obtain ⟨rfl, rfl⟩ := hab
    rw [gset_same] at h
    exact absurd h (by simp)
  · rwa [gset_other _ _ _ _ hab] at h

theorem blockH_support {ow : OpenWays} {R C : Nat} (hsup : OWSupport ow) :
    OWSupport (blockH ow R C) := by
  refine ⟨?_, hsup.2⟩
  intro r c h
  exact hsup.1 r c (gset_false_le (gset_false_le h))

theorem blockV_support {ow : OpenWays} {R C : Nat} (hsup : OWSupport ow) :
    OWSupport (blockV ow R C) := by
  refine ⟨hsup.1, ?_⟩
  intro r c h
  exact hsup.2 r c (gset_false_le (gset_false_le h))

theorem blockH_upDown_other {ow : OpenWays} {R C r c : Nat}
    (h1 : ¬(r = R ∧ c = C)) (h2 : ¬(r = R ∧ c = C + 1)) :
    (blockH ow R C).upDown r c = ow.upDown r c := by
  show gset (gset ow.upDown R C false) R (C + 1) false r c = ow.upDown r c
  rw [gset_other _ _ _ _ h2, gset_other _ _ _ _ h1]

theorem wallsSupport_h_false {w : Walls} (hws : WallsSupport w) {r c : Nat}
    (h : ¬(r < 8 ∧ c < 8)) : w.horizontal r c = false := by
  by_contra hne
  rw [Bool.not_eq_false] at hne
  exact h (hws.1 r c hne)

theorem wallsSupport_v_false {w : Walls} (hws : WallsSupport w) {r c : Nat}
    (h : ¬(r < 8 ∧ c < 8)) : w.vertical r c = false := by
  by_contra hne
  rw [Bool.not_eq_false] at hne
  exact h (hws.2 r c hne)

theorem cons_upDown_open {w : Walls} {ow : OpenWays} (hcons : Cons w ow)
    {r c : Nat} (hr : r < 8) (hc : c < 9)
    (h1 : 1 ≤ c → w.horizontal r (c - 1) = false) (h2 : w.horizontal r c = false) :
    ow.upDown r c = true := by
  rw [hcons.1 r c hr hc, h2]
  by_cases h : 1 ≤ c
  · rw [h1 h]
    simp
  · simp [h]

theorem cons_leftRight_open {w : Walls} {ow : OpenWays} (hcons : Cons w ow)
    {r c : Nat} (hr : r < 9) (hc : c < 8)
    (h1 : 1 ≤ r → w.vertical (r - 1) c = false) (h2 : w.vertical r c = false) :
    ow.leftRight r c = true := by
  rw [hcons.2 r c hr hc, h2]
  by_cases h : 1 ≤ r
  · rw [h1 h]
    simp
  · simp [h]

theorem step_up {ow : OpenWays} {r c : Nat} (hr : 0 < r) (h : ow.upDown (r - 1) c = true) :
    Step ow ⟨r, c⟩ ⟨r - 1, c⟩ := by
  refine ⟨Dir.up, ?_, rfl⟩
  simp only [isOpenWayOW, Bool.and_eq_true, decide_eq_true_eq]
  exact ⟨hr, h⟩

theorem step_down {ow : OpenWays} {r c : Nat} (hr : r < 8) (h : ow.upDown r c = true) :
    Step ow ⟨r, c⟩ ⟨r + 1, c⟩ := by
  refine ⟨Dir.down, ?_, rfl⟩
  simp only [isOpenWayOW, Bool.and_eq_true, decide_eq_true_eq]
  exact ⟨hr, h⟩

theorem step_left {ow : OpenWays} {r c : Nat} (hc : 0 < c) (h : ow.leftRight r (c - 1) = true) :
    Step ow ⟨r, c⟩ ⟨r, c - 1⟩ := by
  refine ⟨Dir.left, ?_, rfl⟩
  simp only [isOpenWayOW, Bool.and_eq_true, decide_eq_true_eq]
  exact ⟨hc, h⟩

theorem step_right {ow : OpenWays} {r c : Nat} (hc : c < 8) (h : ow.leftRight r c = true) :
    Step ow ⟨r, c⟩ ⟨r, c + 1⟩ := by
  refine ⟨Dir.right, ?_, rfl⟩
  simp only [isOpenWayOW, Bool.and_eq_true, decide_eq_true_eq]
  exact ⟨hc, h⟩

theorem step_cases {ow : OpenWays} (hsup : OWSupport ow) {p q : PawnPosition}
    (h : Step ow p q) :
    (∃ r c, r < 8 ∧ c < 9 ∧ ow.upDown r c = true ∧
       ((p = ⟨r, c⟩ ∧ q = ⟨r + 1, c⟩) ∨ (p = ⟨r + 1, c⟩ ∧ q = ⟨r, c⟩))) ∨
    (∃ r c, r < 9 ∧ c < 8 ∧ ow.leftRight r c = true ∧
       ((p = ⟨r, c⟩ ∧ q = ⟨r, c + 1⟩) ∨ (p = ⟨r, c + 1⟩ ∧ q = ⟨r, c⟩))) := by
  obtain ⟨d, hopen, rfl⟩ := h
  cases d with
  | up =>
    simp only [isOpenWayOW, Bool.and_eq_true, decide_eq_true_eq] at hopen
    obtain ⟨hr, he⟩ := hopen
    have hb := hsup.1 _ _ he
    refine Or.inl ⟨p.row - 1, p.col, hb.1, hb.2, he, Or.inr ⟨?_, ?_⟩⟩
    · have h1 : p.row - 1 + 1 = p.row := by omega
      rw [h1]
    · rfl
  | down =>
    simp only [isOpenWayOW, Bool.and_eq_true, decide_eq_true_eq] at hopen
    obtain ⟨hr, he⟩ := hopen
    have hb := hsup.1 _ _ he
    exact Or.inl ⟨p.row, p.col, hb.1, hb.2, he, Or.inl ⟨rfl, rfl⟩⟩
  | left =>
    simp only [isOpenWayOW, Bool.and_eq_true, decide_eq_true_eq] at hopen
    obtain ⟨hc, he⟩ := hopen
    have hb := hsup.2 _ _ he
    refine Or.inr ⟨p.row, p.col - 1, hb.1, hb.2, he, Or.inr ⟨?_, ?_⟩⟩
    · have h1 : p.col - 1 + 1 = p.col := by omega
      rw [h1]
    · rfl
  | right =>
    simp only [isOpenWayOW, Bool.and_eq_true, decide_eq_true_eq] at hopen
    obtain ⟨hc, he⟩ := hopen
    have hb := hsup.2 _ _ he
    exact Or.inr ⟨p.row, p.col, hb.1, hb.2, he, Or.inl ⟨rfl, rfl⟩⟩

theorem reach_three {ow : OpenWays} {p1 p2 p3 p4 : PawnPosition}
    (h1 : Step ow p1 p2) (h2 : Step ow p2 p3) (h3 : Step ow p3 p4) : Reach ow p1 p4 :=
  Relation.ReflTransGen.head h1
    (Relation.ReflTransGen.head h2 (Relation.ReflTransGen.single h3))

theorem anchorLeftH_false {w : Walls} {R C : Nat}
    (h : (decide (C = 0) || testIfAdjecentToOtherWallForHorizontalWallLeft w R C) = false) :
    1 ≤ C ∧ w.vertical R (C - 1) = false ∧
    (1 ≤ R → w.vertical (R - 1) (C - 1) = false) ∧
    (R ≤ 6 → w.vertical (R + 1) (C - 1) = false) ∧
    (2 ≤ C → w.horizontal R (C - 2) = false) := by
  rw [Bool.or_eq_false_iff] at h
  obtain ⟨h0, hadj⟩ := h
  have hC : 1 ≤ C := by
    rcases Nat.eq_zero_or_pos C with rfl | h
    · simp at h0
    · exact h
  unfold testIfAdjecentToOtherWallForHorizontalWallLeft at hadj
  rw [show decide (1 ≤ C) = true from decide_eq_true hC, Bool.true_and] at hadj
  simp only [Bool.or_eq_false_iff] at hadj
  obtain ⟨⟨⟨h1, h2⟩, h3⟩, h4⟩ := hadj
  refine ⟨hC, h1, ?_, ?_, ?_⟩
  · intro hR
    rw [show decide (1 ≤ R) = true from decide_eq_true hR, Bool.true_and] at h2
    exact h2
  · intro hR
    rw [show decide (R ≤ 6) = true from decide_eq_true hR, Bool.true_and] at h3
    exact h3
  · intro hC2
    rw [show decide (2 ≤ C) = true from decide_eq_true hC2, Bool.true_and] at h4
    exact h4

theorem anchorRightH_false {w : Walls} {R C : Nat} (hC8 : C < 8)
    (h : (decide (C = 7) || testIfAdjecentToOtherWallForHorizontalWallRight w R C) = false) :
    C < 7 ∧ w.vertical R (C + 1) = false ∧
    (1 ≤ R → w.vertical (R - 1) (C + 1) = false) ∧
    (R ≤ 6 → w.vertical (R + 1) (C + 1) = false) ∧
    (C ≤ 5 → w.horizontal R (C + 2) = false) := by
  rw [Bool.or_eq_false_iff] at h
  obtain ⟨h0, hadj⟩ := h
  have hC : C < 7 := by
    have : C ≠ 7 := by simpa using h0
    omega
  unfold testIfAdjecentToOtherWallForHorizontalWallRight at hadj
  rw [show decide (C ≤ 6) = true from decide_eq_true (by omega), Bool.true_and] at hadj
  simp only [Bool.or_eq_false_iff] at hadj
  obtain ⟨⟨⟨h1, h2⟩, h3⟩, h4⟩ := hadj
  refine ⟨hC, h1, ?_, ?_, ?_⟩
  · intro hR
    rw [show decide (1 ≤ R) = true from decide_eq_true hR, Bool.true_and] at h2
    exact h2
  · intro hR
    rw [show decide (R ≤ 6) = true from decide_eq_true hR, Bool.true_and] at h3
    exact h3
  · intro hC5
    rw [show decide (C ≤ 5) = true from decide_eq_true hC5, Bool.true_and] at h4
    exact h4

theorem anchorMidH_false {w : Walls} {R C : Nat}
    (h : testIfAdjecentToOtherWallForHorizontalWallMiddle w R C = false) :
    (1 ≤ R → w.vertical (R - 1) C = false) ∧ (R ≤ 6 → w.vertical (R + 1) C = false) := by
  unfold testIfAdjecentToOtherWallForHorizontalWallMiddle at h
  rw [Bool.or_eq_false_iff] at h
  obtain ⟨h1, h2⟩ := h
  constructor
  · intro hR
    rw [show decide (1 ≤ R) = true from decide_eq_true hR, Bool.true_and] at h1
    exact h1
  · intro hR
    rw [show decide (R ≤ 6) = true from decide_eq_true hR, Bool.true_and] at h2
    exact h2

theorem surgeryH_assemble {ow : OpenWays} {R C : Nat} (hsup : OWSupport ow)
    (hdet1 : Reach (blockH ow R C) ⟨R, C⟩ ⟨R + 1, C⟩)
    (hdet2 : Reach (blockH ow R C) ⟨R, C + 1⟩ ⟨R + 1, C + 1⟩) :
    ∀ p q, Step ow p q → Reach (blockH ow R C) p q := by
  intro p q h
  have hsup' : OWSupport (blockH ow R C) := blockH_support hsup
  rcases step_cases hsup h with ⟨r, c, hr, hc, he, hpq⟩ | ⟨r, c, hr, hc, he, hpq⟩
  · by_cases h1 : r = R ∧ c = C
    · obtain ⟨rfl, rfl⟩ := h1
      rcases hpq with ⟨rfl, rfl⟩ | ⟨rfl, rfl⟩
      · exact hdet1
      · exact reach_symm hsup' hdet1
    · by_cases h2 : r = R ∧ c = C + 1
      · obtain ⟨rfl, rfl⟩ := h2
        rcases hpq with ⟨rfl, rfl⟩ | ⟨rfl, rfl⟩
        · exact hdet2
        · exact reach_symm hsup' hdet2
      · have he' : (blockH ow R C).upDown r c = true := by
          rw [blockH_upDown_other h1 h2]
          exact he
        rcases hpq with ⟨rfl, rfl⟩ | ⟨rfl, rfl⟩
        · exact Relation.ReflTransGen.single (step_down hr he')
        · exact Relation.ReflTransGen.single (step_symm hsup' (step_down hr he'))
  · have he' : (blockH ow R C).leftRight r c = true := he
    rcases hpq with ⟨rfl, rfl⟩ | ⟨rfl, rfl⟩
    · exact Relation.ReflTransGen.single (step_right hc he')
    · exact Relation.ReflTransGen.single (step_symm hsup' (step_right hc he'))

theorem surgeryH {w : Walls} {ow : OpenWays} (hws : WallsSupport w) (hsup : OWSupport ow)
    (hcons : Cons w ow) {R C : Nat} (hR : R < 8) (hC : C < 8)
    (hNoH : w.horizontal R C = false) (hNoV : w.vertical R C = false)
    (hNoL : 1 ≤ C → w.horizontal R (C - 1) = false)
    (hNoR : C < 7 → w.horizontal R (C + 1) = false)
    (hpre : testIfConnectedOnTwoPointsForHorizontalWall w R C = false) :
    ∀ p q, Step ow p q → Reach (blockH ow R C) p q := by
  have mkDetL : (decide (C = 0) || testIfAdjecentToOtherWallForHorizontalWallLeft w R C) = false →
      Reach (blockH ow R C) ⟨R, C⟩ ⟨R + 1, C⟩ := by
    intro hL
    obtain ⟨hC1, vL1, vL2, vL3, hL4⟩ := anchorLeftH_false hL
    have vL3' : w.vertical (R + 1) (C - 1) = false := by
      by_cases h : R ≤ 6
      · exact vL3 h
      · exact wallsSupport_v_false hws (by omega)
    have e1 : ow.leftRight R (C - 1) = true :=
      cons_leftRight_open hcons (by omega) (by omega) vL2 vL1
    have e2 : ow.upDown R (C - 1) = true := by
      apply cons_upDown_open hcons hR (by omega)
      · intro h
        rw [Nat.sub_sub]
        exact hL4 (by omega)
      · exact hNoL hC1
    have e3 : ow.leftRight (R + 1) (C - 1) = true := by
      apply cons_leftRight_open hcons (by omega) (by omega)
      · intro _
        exact vL1
      · exact vL3'
    have e2' : (blockH ow R C).upDown R (C - 1) = true := by
      rw [blockH_upDown_other (by omega) (by omega)]
      exact e2
    have s1 : Step (blockH ow R C) ⟨R, C⟩ ⟨R, C - 1⟩ := step_left (by omega) e1
    have s2 : Step (blockH ow R C) ⟨R, C - 1⟩ ⟨R + 1, C - 1⟩ := step_down hR e2'
    have s3 : Step (blockH ow R C) ⟨R + 1, C - 1⟩ ⟨R + 1, C⟩ := by
      have hs := @step_right (blockH ow R C) (R + 1) (C - 1) (by omega) e3
      rwa [show C - 1 + 1 = C from by omega] at hs
    exact reach_three s1 s2 s3
  have mkDetR : (decide (C = 7) || testIfAdjecentToOtherWallForHorizontalWallRight w R C) = false →
      Reach (blockH ow R C) ⟨R, C + 1⟩ ⟨R + 1, C + 1⟩ := by
    intro hRt
    obtain ⟨hC7, vR1, vR2, vR3, hR4⟩ := anchorRightH_false hC hRt
    have vR3' : w.vertical (R + 1) (C + 1) = false := by
      by_cases h : R ≤ 6
      · exact vR3 h
      · exact wallsSupport_v_false hws (by omega)
    have hR4' : w.horizontal R (C + 2) = false := by
      by_cases h : C ≤ 5
      · exact hR4 h
      · exact wallsSupport_h_false hws (by omega)
    have e1 : ow.leftRight R (C + 1) = true :=
      cons_leftRight_open hcons (by omega) (by omega) vR2 vR1
    have e2 : ow.upDown R (C + 2) = true := by
      apply cons_upDown_open hcons hR (by omega)
      · intro _
        exact hNoR hC7
      · exact hR4'
    have e3 : ow.leftRight (R + 1) (C + 1) = true := by
      apply cons_leftRight_open hcons (by omega) (by omega)
      · intro _
        exact vR1
      · exact vR3'
    have e2' : (blockH ow R C).upDown R (C + 2) = true := by
      rw [blockH_upDown_other (by omega) (by omega)]
      exact e2
    have s1 : Step (blockH ow R C) ⟨R, C + 1⟩ ⟨R, C + 2⟩ := step_right (by omega) e1
    have s2 : Step (blockH ow R C) ⟨R, C + 2⟩ ⟨R + 1, C + 2⟩ := step_down hR e2'
    have s3 : Step (blockH ow R C) ⟨R + 1, C + 2⟩ ⟨R + 1, C + 1⟩ :=
      step_left (by omega) e3
    exact reach_three s1 s2 s3
  have mkDetML :
      (decide (C = 0) || testIfAdjecentToOtherWallForHorizontalWallLeft w R C) = false →
      testIfAdjecentToOtherWallForHorizontalWallMiddle w R C = false →
      Reach (blockH ow R C) ⟨R, C + 1⟩ ⟨R + 1, C + 1⟩ := by
    intro hL hM
    obtain ⟨mV1, mV2⟩ := anchorMidH_false hM
    have mV2' : w.vertical (R + 1) C = false := by
      by_cases h : R ≤ 6
      · exact mV2 h
      · exact wallsSupport_v_false hws (by omega)
    have e4 : ow.leftRight R C = true :=
      cons_leftRight_open hcons (by omega) hC mV1 hNoV
    have e5 : ow.leftRight (R + 1) C = true := by
      apply cons_leftRight_open hcons (by omega) hC
      · intro _
        exact hNoV
      · exact mV2'
    have s0 : Step (blockH ow R C) ⟨R, C + 1⟩ ⟨R, C⟩ :=
      step_left (by omega) e4
    have s5 : Step (blockH ow R C) ⟨R + 1, C⟩ ⟨R + 1, C + 1⟩ := step_right hC e5
    exact Relation.ReflTransGen.head s0
      (Relation.ReflTransGen.trans (mkDetL hL) (Relation.ReflTransGen.single s5))
  have mkDetMR :
      (decide (C = 7) || testIfAdjecentToOtherWallForHorizontalWallRight w R C) = false →
      testIfAdjecentToOtherWallForHorizontalWallMiddle w R C = false →
      Reach (blockH ow R C) ⟨R, C⟩ ⟨R + 1, C⟩ := by
    intro hRt hM
    obtain ⟨mV1, mV2⟩ := anchorMidH_false hM
    have mV2' : w.vertical (R + 1) C = false := by
      by_cases h : R ≤ 6
      · exact mV2 h
      · exact wallsSupport_v_false hws (by omega)
    have e4 : ow.leftRight R C = true :=
      cons_leftRight_open hcons (by omega) hC mV1 hNoV
    have e5 : ow.leftRight (R + 1) C = true := by
      apply cons_leftRight_open hcons (by omega) hC
      · intro _
        exact hNoV
      · exact mV2'
    have s0 : Step (blockH ow R C) ⟨R, C⟩ ⟨R, C + 1⟩ := step_right hC e4
    have s5 : Step (blockH ow R C) ⟨R + 1, C + 1⟩ ⟨R + 1, C⟩ :=
      step_left (by omega) e5
    exact Relation.ReflTransGen.head s0
      (Relation.ReflTransGen.trans (mkDetR hRt) (Relation.ReflTransGen.single s5))
  have hpre' := hpre
  unfold testIfConnectedOnTwoPointsForHorizontalWall at hpre'
  simp only [Bool.or_eq_false_iff] at hpre'
  obtain ⟨⟨hLR, hRM⟩, hML⟩ := hpre'
  rcases Bool.eq_false_or_eq_true
      (decide (C = 0) || testIfAdjecentToOtherWallForHorizontalWallLeft w R C) with hLv | hLv
  · rw [hLv, Bool.true_and] at hLR
    rw [hLv, Bool.and_true] at hML
    exact surgeryH_assemble hsup (mkDetMR hLR hML) (mkDetR hLR)
  · rcases Bool.eq_false_or_eq_true
        (decide (C = 7) || testIfAdjecentToOtherWallForHorizontalWallRight w R C) with hRv | hRv
    · rw [hRv, Bool.true_and] at hRM
      exact surgeryH_assemble hsup (mkDetL hLv) (mkDetML hLv hRM)
    · exact surgeryH_assemble hsup (mkDetL hLv) (mkDetR hRv)

attribute [ext] PawnPosition Walls OpenWays Pawn Board Game

theorem transposeOW_transposeOW (ow : OpenWays) : transposeOW (transposeOW ow) = ow := rfl

theorem step_transpose {ow : OpenWays} {p q : PawnPosition} (h : Step ow p q) :
    Step (transposeOW ow) p.swap q.swap := by
  obtain ⟨d, hopen, rfl⟩ := h
  cases d with
  | up => exact ⟨Dir.left, hopen, rfl⟩
  | down => exact ⟨Dir.right, hopen, rfl⟩
  | left => exact ⟨Dir.up, hopen, rfl⟩
  | right => exact ⟨Dir.down, hopen, rfl⟩

theorem reach_transpose {ow : OpenWays} {p q : PawnPosition} (h : Reach ow p q) :
    Reach (transposeOW ow) p.swap q.swap := by
  induction h with
  | refl => exact Relation.ReflTransGen.refl
  | tail _ hstep ih => exact Relation.ReflTransGen.tail ih (step_transpose hstep)

theorem reach_untranspose {ow : OpenWays} {p q : PawnPosition}
    (h : Reach (transposeOW ow) p.swap q.swap) : Reach ow p q := by
  have h2 := reach_transpose h
  rw [transposeOW_transposeOW] at h2
  exact h2

theorem cons_transpose {w : Walls} {ow : OpenWays} (h : Cons w ow) :
    Cons (transposeWalls w) (transposeOW ow) := by
  constructor
  · intro r c hr hc
    exact h.2 c r hc hr
  · intro r c hr hc
    exact h.1 c r hc hr

theorem owSupport_transpose {ow : OpenWays} (h : OWSupport ow) :
    OWSupport (transposeOW ow) := by
  constructor
  · intro r c hrc
    have h2 := h.2 c r hrc
    exact ⟨h2.2, h2.1⟩
  · intro r c hrc
    have h2 := h.1 c r hrc
    exact ⟨h2.2, h2.1⟩

theorem wallsSupport_transpose {w : Walls} (h : WallsSupport w) :
    WallsSupport (transposeWalls w) := by
  constructor
  · intro r c hrc
    have h2 := h.2 c r hrc
    exact ⟨h2.2, h2.1⟩
  · intro r c hrc
    have h2 := h.1 c r hrc
    exact ⟨h2.2, h2.1⟩

theorem precheckV_eq_transpose (w : Walls) (R C : Nat) :
    testIfConnectedOnTwoPointsForVerticalWall w R C =
      testIfConnectedOnTwoPointsForHorizontalWall (transposeWalls w) C R := rfl

theorem blockV_transpose (ow : OpenWays) (R C : Nat) :
    transposeOW (blockV ow R C) = blockH (transposeOW ow) C R := by
  refine OpenWays.ext ?_ rfl
  funext r c
  show gset (gset ow.leftRight R C false) (R + 1) C false c r
      = gset (gset (transposeOW ow).upDown C R false) C (R + 1) false r c
  simp only [gset, transposeOW]
  by_cases e1 : r = C
  · subst e1
    by_cases e2 : c = R + 1
    · subst e2
      simp
    · by_cases e3 : c = R
      · subst e3
        simp
      · simp [e2, e3]
  · simp [e1]

theorem surgeryV {w : Walls} {ow : OpenWays} (hws : WallsSupport w) (hsup : OWSupport ow)
    (hcons : Cons w ow) {R C : Nat} (hR : R < 8) (hC : C < 8)
    (hNoV : w.vertical R C = false) (hNoH : w.horizontal R C = false)
    (hNoT : 1 ≤ R → w.vertical (R - 1) C = false)
    (hNoB : R < 7 → w.vertical (R + 1) C = false)
    (hpre : testIfConnectedOnTwoPointsForVerticalWall w R C = false) :
    ∀ p q, Step ow p q → Reach (blockV ow R C) p q := by
  intro p q h
  have ht := step_transpose h
  have hsurg := surgeryH (wallsSupport_transpose hws) (owSupport_transpose hsup)
      (cons_transpose hcons) hC hR
      (show (transposeWalls w).horizontal C R = false from hNoV)
      (show (transposeWalls w).vertical C R = false from hNoH)
      (fun h1 => show (transposeWalls w).horizontal C (R - 1) = false from hNoT h1)
      (fun h1 => show (transposeWalls w).horizontal C (R + 1) = false from hNoB h1)
      (by rw [← precheckV_eq_transpose]; exact hpre)
      p.swap q.swap ht
  rw [← blockV_transpose] at hsurg
  exact reach_untranspose hsurg

theorem reach_lift {ow ow' : OpenWays}
    (hlift : ∀ p q, Step ow p q → Reach ow' p q) {p q : PawnPosition}
    (h : Reach ow p q) : Reach ow' p q := by
  induction h with
  | refl => exact Relation.ReflTransGen.refl
  | tail _ hstep ih => exact Relation.ReflTransGen.trans ih (hlift _ _ hstep)

theorem goalReach_lift {ow ow' : OpenWays}
    (hlift : ∀ p q, Step ow p q → Reach ow' p q) {p : PawnPosition} {goal : Nat}
    (h : GoalReach ow p goal) : GoalReach ow' p goal := by
  obtain ⟨q, hr, hg⟩ := h
  exact ⟨q, reach_lift hlift hr, hg⟩

theorem step_ne {ow : OpenWays} {p q : PawnPosition} (h : Step ow p q) : p ≠ q := by
  obtain ⟨d, hopen, rfl⟩ := h
  cases d with
  | up =>
    simp only [isOpenWayOW, Bool.and_eq_true, decide_eq_true_eq] at hopen
    intro he
    have h2 : p.row = stepRow p.row Dir.up := congrArg PawnPosition.row he
    simp only [stepRow] at h2
    omega
  | down =>
    intro he
    have h2 : p.row = stepRow p.row Dir.down := congrArg PawnPosition.row he
    simp only [stepRow] at h2
    omega
  | left =>
    simp only [isOpenWayOW, Bool.and_eq_true, decide_eq_true_eq] at hopen
    intro he
    have h2 : p.col = stepCol p.col Dir.left := congrArg PawnPosition.col he
    simp only [stepCol] at h2
    omega
  | right =>
    intro he
    have h2 : p.col = stepCol p.col Dir.right := congrArg PawnPosition.col he
    simp only [stepCol] at h2
    omega

theorem goalPath_lift {ow ow' : OpenWays}
    (hlift : ∀ p q, Step ow p q → Reach ow' p q) {p : PawnPosition} {goal : Nat}
    (h : GoalPath ow p goal) : GoalPath ow' p goal := by
  obtain ⟨q, q', hr, hs, hg⟩ := h
  have hr' : Reach ow' p q := reach_lift hlift hr
  have hq' : Reach ow' q q' := hlift _ _ hs
  rcases Relation.ReflTransGen.cases_tail hq' with heq | ⟨m, hm, hstep⟩
  · exact absurd heq.symm (step_ne hs)
  · exact ⟨m, q', Relation.ReflTransGen.trans hr' hm, hstep, hg⟩

theorem pawnOfTurn_congr {g g' : Game} (hb : g'.board = g.board) (ht : g'.turn = g.turn) :
    g'.pawnOfTurn = g.pawnOfTurn := by
  unfold Game.pawnOfTurn Game.pawnIndexOfTurn
  rw [hb, ht]

theorem pawnOfNotTurn_congr {g g' : Game} (hb : g'.board = g.board) (ht : g'.turn = g.turn) :
    g'.pawnOfNotTurn = g.pawnOfNotTurn := by
  unfold Game.pawnOfNotTurn Game.pawnIndexOfNotTurn
  rw [hb, ht]

theorem existPathsToGoalLines_set_ow (g : Game) (ow : OpenWays) :
    Game.existPathsToGoalLines { g with openWays := ow } =
      (existPathToGoalLineForOW ow g.pawnOfTurn &&
       existPathToGoalLineForOW ow g.pawnOfNotTurn) := rfl

theorem testUnoptimizedH_congr {g g' : Game} {r c : Nat} (hb : g'.board = g.board)
    (ho : g'.openWays = g.openWays) (ht : g'.turn = g.turn) :
    g'.testUnoptimizedH r c = g.testUnoptimizedH r c := by
  unfold Game.testUnoptimizedH
  rw [existPathsToGoalLines_set_ow, existPathsToGoalLines_set_ow, ho,
    pawnOfTurn_congr hb ht, pawnOfNotTurn_congr hb ht]

theorem testUnoptimizedV_congr {g g' : Game} {r c : Nat} (hb : g'.board = g.board)
    (ho : g'.openWays = g.openWays) (ht : g'.turn = g.turn) :
    g'.testUnoptimizedV r c = g.testUnoptimizedV r c := by
  unfold Game.testUnoptimizedV
  rw [existPathsToGoalLines_set_ow, existPathsToGoalLines_set_ow, ho,
    pawnOfTurn_congr hb ht, pawnOfNotTurn_congr hb ht]

theorem updateVNWHStep_frame (g : Game) (ij : Nat × Nat) :
    (g.updateValidNextWallsHStep ij).board = g.board ∧
    (g.updateValidNextWallsHStep ij).openWays = g.openWays ∧
    (g.updateValidNextWallsHStep ij).turn = g.turn ∧
    (g.updateValidNextWallsHStep ij).winner = g.winner ∧
    (g.updateValidNextWallsHStep ij).probableNextWalls = g.probableNextWalls ∧
    (g.updateValidNextWallsHStep ij).probableValidNextWalls = g.probableValidNextWalls ∧
    (g.updateValidNextWallsHStep ij).probableValidNextWallsUpdated
      = g.probableValidNextWallsUpdated ∧
    (g.updateValidNextWallsHStep ij).validNextPositionsCache = g.validNextPositionsCache ∧
    (g.updateValidNextWallsHStep ij).validNextPositionsUpdated
      = g.validNextPositionsUpdated ∧
    (g.updateValidNextWallsHStep ij).validNextWalls.vertical
      = g.validNextWalls.vertical := by
  unfold Game.updateValidNextWallsHStep
  dsimp only
  split
  · exact ⟨rfl, rfl, rfl, rfl, rfl, rfl, rfl, rfl, rfl, rfl⟩
  · exact ⟨rfl, rfl, rfl, rfl, rfl, rfl, rfl, rfl, rfl, rfl⟩

theorem updateVNWVStep_frame (g : Game) (ij : Nat × Nat) :
    (g.updateValidNextWallsVStep ij).board = g.board ∧
    (g.updateValidNextWallsVStep ij).openWays = g.openWays ∧
    (g.updateValidNextWallsVStep ij).turn = g.turn ∧
    (g.updateValidNextWallsVStep ij).winner = g.winner ∧
    (g.updateValidNextWallsVStep ij).probableNextWalls = g.probableNextWalls ∧
    (g.updateValidNextWallsVStep ij).probableValidNextWalls = g.probableValidNextWalls ∧
    (g.updateValidNextWallsVStep ij).probableValidNextWallsUpdated
      = g.probableValidNextWallsUpdated ∧
    (g.updateValidNextWallsVStep ij).validNextPositionsCache = g.validNextPositionsCache ∧
    (g.updateValidNextWallsVStep ij).validNextPositionsUpdated
      = g.validNextPositionsUpdated ∧
    (g.updateValidNextWallsVStep ij).validNextWalls.horizontal
      = g.validNextWalls.horizontal := by
  unfold Game.updateValidNextWallsVStep
  dsimp only
  split
  · exact ⟨rfl, rfl, rfl, rfl, rfl, rfl, rfl, rfl, rfl, rfl⟩
  · exact ⟨rfl, rfl, rfl, rfl, rfl, rfl, rfl, rfl, rfl, rfl⟩

theorem updateVNWHStep_vnw_h (g : Game) (i j r c : Nat) :
    (g.updateValidNextWallsHStep (i, j)).validNextWalls.horizontal r c
      = if (r = i ∧ c = j) ∧ overlapH g.board.walls i j = false
        then g.testUnoptimizedH i j
        else g.validNextWalls.horizontal r c := by
  unfold Game.updateValidNextWallsHStep
  dsimp only
  split
  · rename_i hcond
    have hov : overlapH g.board.walls i j = true := hcond
    rw [if_neg]
    rintro ⟨-, hfalse⟩
    rw [hov] at hfalse
    exact absurd hfalse (by decide)
  · rename_i hcond
    have hov : overlapH g.board.walls i j = false := by
      have h2 : ¬ overlapH g.board.walls i j = true := hcond
      rw [← Bool.not_eq_true]
      exact h2
    show gset g.validNextWalls.horizontal i j _ r c = _
    by_cases hrc : r = i ∧ c = j
    · obtain ⟨rfl, rfl⟩ := hrc
      rw [gset_same, if_pos ⟨⟨rfl, rfl⟩, hov⟩]
      rfl
    · rw [gset_other _ _ _ _ hrc, if_neg]
      rintro ⟨hrc', -⟩
      exact hrc hrc'

theorem updateVNWVStep_vnw_v (g : Game) (i j r c : Nat) :
    (g.updateValidNextWallsVStep (i, j)).validNextWalls.vertical r c
      = if (r = i ∧ c = j) ∧ overlapV g.board.walls i j = false
        then g.testUnoptimizedV i j
        else g.validNextWalls.vertical r c := by
  unfold Game.updateValidNextWallsVStep
  dsimp only
  split
  · rename_i hcond
    have hov : overlapV g.board.walls i j = true := hcond
    rw [if_neg]
    rintro ⟨-, hfalse⟩
    rw [hov] at hfalse
    exact absurd hfalse (by decide)
  · rename_i hcond
    have hov : overlapV g.board.walls i j = false := by
      have h2 : ¬ overlapV g.board.walls i j = true := hcond
      rw [← Bool.not_eq_true]
      exact h2
    show gset g.validNextWalls.vertical i j _ r c = _
    by_cases hrc : r = i ∧ c = j
    · obtain ⟨rfl, rfl⟩ := hrc
      rw [gset_same, if_pos ⟨⟨rfl, rfl⟩, hov⟩]
      rfl
    · rw [gset_other _ _ _ _ hrc, if_neg]
      rintro ⟨hrc', -⟩
      exact hrc hrc'

theorem foldH_frame (l : List (Nat × Nat)) (g : Game) :
    (l.foldl Game.updateValidNextWallsHStep g).board = g.board ∧
    (l.foldl Game.updateValidNextWallsHStep g).openWays = g.openWays ∧
    (l.foldl Game.updateValidNextWallsHStep g).turn = g.turn ∧
    (l.foldl Game.updateValidNextWallsHStep g).winner = g.winner ∧
    (l.foldl Game.updateValidNextWallsHStep g).probableNextWalls = g.probableNextWalls ∧
    (l.foldl Game.updateValidNextWallsHStep g).probableValidNextWalls
      = g.probableValidNextWalls ∧
    (l.foldl Game.updateValidNextWallsHStep g).probableValidNextWallsUpdated
      = g.probableValidNextWallsUpdated ∧
    (l.foldl Game.updateValidNextWallsHStep g).validNextPositionsCache
      = g.validNextPositionsCache ∧
    (l.foldl Game.updateValidNextWallsHStep g).validNextPositionsUpdated
      = g.validNextPositionsUpdated ∧
    (l.foldl Game.updateValidNextWallsHStep g).validNextWalls.vertical
      = g.validNextWalls.vertical := by
  induction l generalizing g with
  | nil => exact ⟨rfl, rfl, rfl, rfl, rfl, rfl, rfl, rfl, rfl, rfl⟩
  | cons ij tl ih =>
    rw [List.foldl_cons]
    have hs := updateVNWHStep_frame g ij
    have ht := ih (g.updateValidNextWallsHStep ij)
    exact ⟨ht.1.trans hs.1, ht.2.1.trans hs.2.1, ht.2.2.1.trans hs.2.2.1,
      ht.2.2.2.1.trans hs.2.2.2.1, ht.2.2.2.2.1.trans hs.2.2.2.2.1,
      ht.2.2.2.2.2.1.trans hs.2.2.2.2.2.1, ht.2.2.2.2.2.2.1.trans hs.2.2.2.2.2.2.1,
      ht.2.2.2.2.2.2.2.1.trans hs.2.2.2.2.2.2.2.1,
      ht.2.2.2.2.2.2.2.2.1.trans hs.2.2.2.2.2.2.2.2.1,
      ht.2.2.2.2.2.2.2.2.2.trans hs.2.2.2.2.2.2.2.2.2⟩

theorem foldV_frame (l : List (Nat × Nat)) (g : Game) :
    (l.foldl Game.updateValidNextWallsVStep g).board = g.board ∧
    (l.foldl Game.updateValidNextWallsVStep g).openWays = g.openWays ∧
    (l.foldl Game.updateValidNextWallsVStep g).turn = g.turn ∧
    (l.foldl Game.updateValidNextWallsVStep g).winner = g.winner ∧
    (l.foldl Game.updateValidNextWallsVStep g).probableNextWalls = g.probableNextWalls ∧
    (l.foldl Game.updateValidNextWallsVStep g).probableValidNextWalls
      = g.probableValidNextWalls ∧
    (l.foldl Game.updateValidNextWallsVStep g).probableValidNextWallsUpdated
      = g.probableValidNextWallsUpdated ∧
    (l.foldl Game.updateValidNextWallsVStep g).validNextPositionsCache
      = g.validNextPositionsCache ∧
    (l.foldl Game.updateValidNextWallsVStep g).validNextPositionsUpdated
      = g.validNextPositionsUpdated ∧
    (l.foldl Game.updateValidNextWallsVStep g).validNextWalls.horizontal
      = g.validNextWalls.horizontal := by
  induction l generalizing g with
  | nil => exact ⟨rfl, rfl, rfl, rfl, rfl, rfl, rfl, rfl, rfl, rfl⟩
  | cons ij tl ih =>
    rw [List.foldl_cons]
    have hs := updateVNWVStep_frame g ij
    have ht := ih (g.updateValidNextWallsVStep ij)
    exact ⟨ht.1.trans hs.1, ht.2.1.trans hs.2.1, ht.2.2.1.trans hs.2.2.1,
      ht.2.2.2.1.trans hs.2.2.2.1, ht.2.2.2.2.1.trans hs.2.2.2.2.1,
      ht.2.2.2.2.2.1.trans hs.2.2.2.2.2.1, ht.2.2.2.2.2.2.1.trans hs.2.2.2.2.2.2.1,
      ht.2.2.2.2.2.2.2.1.trans hs.2.2.2.2.2.2.2.1,
      ht.2.2.2.2.2.2.2.2.1.trans hs.2.2.2.2.2.2.2.2.1,
      ht.2.2.2.2.2.2.2.2.2.trans hs.2.2.2.2.2.2.2.2.2⟩

theorem foldH_vnw_h (l : List (Nat × Nat)) (g : Game) (r c : Nat) :
    (l.foldl Game.updateValidNextWallsHStep g).validNextWalls.horizontal r c
      = if (r, c) ∈ l ∧ overlapH g.board.walls r c = false
        then g.testUnoptimizedH r c
        else g.validNextWalls.horizontal r c := by
  induction l generalizing g with
  | nil => simp
  | cons ij tl ih =>
    obtain ⟨i, j⟩ := ij
    rw [List.foldl_cons, ih]
    have hf := updateVNWHStep_frame g (i, j)
    rw [hf.1, testUnoptimizedH_congr hf.1 hf.2.1 hf.2.2.1, updateVNWHStep_vnw_h]
    by_cases hov : overlapH g.board.walls r c = false
    · by_cases hmem : (r, c) ∈ tl
      · rw [if_pos ⟨hmem, hov⟩, if_pos ⟨List.mem_cons_of_mem _ hmem, hov⟩]
      · rw [if_neg (by rintro ⟨h1, -⟩; exact hmem h1)]
        by_cases hij : r = i ∧ c = j
        · obtain ⟨rfl, rfl⟩ := hij
          rw [if_pos ⟨⟨rfl, rfl⟩, hov⟩, if_pos ⟨List.mem_cons_self _ _, hov⟩]
        · rw [if_neg (by rintro ⟨h1, -⟩; exact hij h1), if_neg]
          rintro ⟨h1, -⟩
          rcases List.mem_cons.1 h1 with h2 | h2
          · apply hij
            have h3 := congrArg Prod.fst h2
            have h4 := congrArg Prod.snd h2
            exact ⟨h3, h4⟩
          · exact hmem h2
    · by_cases hij : r = i ∧ c = j
      · obtain ⟨rfl, rfl⟩ := hij
        rw [if_neg (by rintro ⟨-, h2⟩; exact hov h2),
          if_neg (by rintro ⟨-, h2⟩; exact hov h2),
          if_neg (by rintro ⟨-, h2⟩; exact hov h2)]
      · rw [if_neg (by rintro ⟨-, h2⟩; exact hov h2),
          if_neg (by rintro ⟨h1, -⟩; exact hij h1),
          if_neg (by rintro ⟨-, h2⟩; exact hov h2)]

theorem foldV_vnw_v (l : List (Nat × Nat)) (g : Game) (r c : Nat) :
    (l.foldl Game.updateValidNextWallsVStep g).validNextWalls.vertical r c
      = if (r, c) ∈ l ∧ overlapV g.board.walls r c = false
        then g.testUnoptimizedV r c
        else g.validNextWalls.vertical r c := by
  induction l generalizing g with
  | nil => simp
  | cons ij tl ih =>
    obtain ⟨i, j⟩ := ij
    rw [List.foldl_cons, ih]
    have hf := updateVNWVStep_frame g (i, j)
    rw [hf.1, testUnoptimizedV_congr hf.1 hf.2.1 hf.2.2.1, updateVNWVStep_vnw_v]
    by_cases hov : overlapV g.board.walls r c = false
    · by_cases hmem : (r, c) ∈ tl
      · rw [if_pos ⟨hmem, hov⟩, if_pos ⟨List.mem_cons_of_mem _ hmem, hov⟩]
      · rw [if_neg (by rintro ⟨h1, -⟩; exact hmem h1)]
        by_cases hij : r = i ∧ c = j
        · obtain ⟨rfl, rfl⟩ := hij
          rw [if_pos ⟨⟨rfl, rfl⟩, hov⟩, if_pos ⟨List.mem_cons_self _ _, hov⟩]
        · rw [if_neg (by rintro ⟨h1, -⟩; exact hij h1), if_neg]
          rintro ⟨h1, -⟩
          rcases List.mem_cons.1 h1 with h2 | h2
          · apply hij
            have h3 := congrArg Prod.fst h2
            have h4 := congrArg Prod.snd h2
            exact ⟨h3, h4⟩
          · exact hmem h2
    · by_cases hij : r = i ∧ c = j
      · obtain ⟨rfl, rfl⟩ := hij
        rw [if_neg (by rintro ⟨-, h2⟩; exact hov h2),
          if_neg (by rintro ⟨-, h2⟩; exact hov h2),
          if_neg (by rintro ⟨-, h2⟩; exact hov h2)]
      · rw [if_neg (by rintro ⟨-, h2⟩; exact hov h2),
          if_neg (by rintro ⟨h1, -⟩; exact hij h1),
          if_neg (by rintro ⟨-, h2⟩; exact hov h2)]

theorem mem_wallCellList (r c : Nat) : (r, c) ∈ wallCellList ↔ r < 8 ∧ c < 8 := by
  simp only [wallCellList, List.mem_flatMap, List.mem_map, List.mem_range]
  constructor
  · rintro ⟨i, hi, j, hj, heq⟩
    cases heq
    exact ⟨hi, hj⟩
  · rintro ⟨hr, hc⟩
    exact ⟨r, hr, c, hc, rfl⟩

theorem updateValidNextWalls_frame (g : Game) :
    g.updateValidNextWalls.board = g.board ∧
    g.updateValidNextWalls.openWays = g.openWays ∧
    g.updateValidNextWalls.turn = g.turn ∧
    g.updateValidNextWalls.winner = g.winner ∧
    g.updateValidNextWalls.probableNextWalls = g.probableNextWalls ∧
    g.updateValidNextWalls.probableValidNextWalls = g.probableValidNextWalls ∧
    g.updateValidNextWalls.probableValidNextWallsUpdated
      = g.probableValidNextWallsUpdated ∧
    g.updateValidNextWalls.validNextPositionsCache = g.validNextPositionsCache ∧
    g.updateValidNextWalls.validNextPositionsUpdated = g.validNextPositionsUpdated := by
  have h1 := foldH_frame wallCellList
    { g with validNextWalls :=
        { horizontal := fun _ _ => false, vertical := fun _ _ => false } }
  have h2 := foldV_frame wallCellList
    (wallCellList.foldl Game.updateValidNextWallsHStep
      { g with validNextWalls :=
          { horizontal := fun _ _ => false, vertical := fun _ _ => false } })
  exact ⟨h2.1.trans h1.1, h2.2.1.trans h1.2.1, h2.2.2.1.trans h1.2.2.1,
    h2.2.2.2.1.trans h1.2.2.2.1, h2.2.2.2.2.1.trans h1.2.2.2.2.1,
    h2.2.2.2.2.2.1.trans h1.2.2.2.2.2.1, h2.2.2.2.2.2.2.1.trans h1.2.2.2.2.2.2.1,
    h2.2.2.2.2.2.2.2.1.trans h1.2.2.2.2.2.2.2.1,
    h2.2.2.2.2.2.2.2.2.1.trans h1.2.2.2.2.2.2.2.2.1⟩

theorem updateValidNextWalls_vnw_h (g : Game) (r c : Nat) :
    g.updateValidNextWalls.validNextWalls.horizontal r c
      = if (r < 8 ∧ c < 8) ∧ overlapH g.board.walls r c = false
        then g.testUnoptimizedH r c else false := by
  unfold Game.updateValidNextWalls
  dsimp only
  rw [(foldV_frame wallCellList _).2.2.2.2.2.2.2.2.2, foldH_vnw_h]
  simp only [mem_wallCellList]
  rfl

theorem updateValidNextWalls_vnw_v (g : Game) (r c : Nat) :
    g.updateValidNextWalls.validNextWalls.vertical r c
      = if (r < 8 ∧ c < 8) ∧ overlapV g.board.walls r c = false
        then g.testUnoptimizedV r c else false := by
  unfold Game.updateValidNextWalls
  dsimp only
  rw [foldV_vnw_v]
  have hf := foldH_frame wallCellList
    { g with validNextWalls :=
        { horizontal := fun _ _ => false, vertical := fun _ _ => false } }
  rw [hf.1, testUnoptimizedV_congr hf.1 hf.2.1 hf.2.2.1,
    hf.2.2.2.2.2.2.2.2.2]
  simp only [mem_wallCellList]
  rfl

theorem initOW_support : OWSupport initOW := by
  constructor
  · intro r c h
    simp only [initOW, Bool.and_eq_true, decide_eq_true_eq] at h
    exact h
  · intro r c h
    simp only [initOW, Bool.and_eq_true, decide_eq_true_eq] at h
    exact h

theorem reach_col_down {ow : OpenWays} (hsup : OWSupport ow) (c : Nat) :
    ∀ r r' : Nat, r ≤ r' → (∀ k, r ≤ k → k < r' → ow.upDown k c = true) →
      Reach ow ⟨r, c⟩ ⟨r', c⟩ := by
  intro r r'
  induction r' with
  | zero =>
    intro h1 _
    have h0 : r = 0 := by omega
    subst h0
    exact Relation.ReflTransGen.refl
  | succ n ih =>
    intro h1 hopen
    rcases Nat.lt_or_ge r (n + 1) with hlt | hge
    · have hr : Reach ow ⟨r, c⟩ ⟨n, c⟩ :=
        ih (by omega) (fun k hk1 hk2 => hopen k hk1 (by omega))
      have he : ow.upDown n c = true := hopen n (by omega) (by omega)
      exact Relation.ReflTransGen.tail hr (step_down (hsup.1 _ _ he).1 he)
    · have h0 : r = n + 1 := by omega
      subst h0
      exact Relation.ReflTransGen.refl

theorem reach_row_right {ow : OpenWays} (hsup : OWSupport ow) (r : Nat) :
    ∀ c c' : Nat, c ≤ c' → (∀ k, c ≤ k → k < c' → ow.leftRight r k = true) →
      Reach ow ⟨r, c⟩ ⟨r, c'⟩ := by
  intro c c'
  induction c' with
  | zero =>
    intro h1 _
    have h0 : c = 0 := by omega
    subst h0
    exact Relation.ReflTransGen.refl
  | succ n ih =>
    intro h1 hopen
    rcases Nat.lt_or_ge c (n + 1) with hlt | hge
    · have hr : Reach ow ⟨r, c⟩ ⟨r, n⟩ :=
        ih (by omega) (fun k hk1 hk2 => hopen k hk1 (by omega))
      have he : ow.leftRight r n = true := hopen n (by omega) (by omega)
      exact Relation.ReflTransGen.tail hr (step_right (hsup.2 _ _ he).2 he)
    · have h0 : c = n + 1 := by omega
      subst h0
      exact Relation.ReflTransGen.refl

theorem reach_row_any {ow : OpenWays} (hsup : OWSupport ow) (r c c' : Nat)
    (hc : c ≤ 8) (hc' : c' ≤ 8)
    (hopen : ∀ k, k < 8 → ow.leftRight r k = true) : Reach ow ⟨r, c⟩ ⟨r, c'⟩ := by
  rcases Nat.le_total c c' with h | h
  · exact reach_row_right hsup r c c' h (fun k _ hk2 => hopen k (by omega))
  · exact reach_symm hsup (reach_row_right hsup r c' c h (fun k _ hk2 => hopen k (by omega)))

theorem goalPath_blockH_init (R C : Nat) (hC : C < 8) (sr sc goal : Nat) (hsc : sc ≤ 8)
    (hsg : (sr = 8 ∧ goal = 0) ∨ (sr = 0 ∧ goal = 8)) :
    GoalPath (blockH initOW R C) ⟨sr, sc⟩ goal := by
  have hsup : OWSupport (blockH initOW R C) := blockH_support initOW_support
  set tc := if C = 0 then 2 else C - 1 with htc
  have htc8 : tc ≤ 8 := by
    rw [htc]
    split <;> omega
  have htcC : tc ≠ C ∧ tc ≠ C + 1 := by
    rw [htc]
    constructor <;> split <;> omega
  have hlr : ∀ rr k, rr ≤ 8 → k < 8 → (blockH initOW R C).leftRight rr k = true := by
    intro rr k h1 h2
    show initOW.leftRight rr k = true
    simp only [initOW, Bool.and_eq_true, decide_eq_true_eq]
    omega
  have hud : ∀ k, k < 8 → (blockH initOW R C).upDown k tc = true := by
    intro k hk
    rw [blockH_upDown_other (by rintro ⟨-, h⟩; exact htcC.1 h)
      (by rintro ⟨-, h⟩; exact htcC.2 h)]
    simp only [initOW, Bool.and_eq_true, decide_eq_true_eq]
    omega
  rcases hsg with ⟨rfl, rfl⟩ | ⟨rfl, rfl⟩
  · have hrow : Reach (blockH initOW R C) ⟨8, sc⟩ ⟨8, tc⟩ :=
      reach_row_any hsup 8 sc tc hsc htc8 (fun k hk => hlr 8 k (by omega) hk)
    have hcol : Reach (blockH initOW R C) ⟨1, tc⟩ ⟨8, tc⟩ :=
      reach_col_down hsup tc 1 8 (by omega) (fun k h1 h2 => hud k (by omega))
    refine ⟨⟨1, tc⟩, ⟨0, tc⟩,
      Relation.ReflTransGen.trans hrow (reach_symm hsup hcol), ?_, rfl⟩
    exact step_up (by omega) (hud 0 (by omega))
  · have hrow : Reach (blockH initOW R C) ⟨0, sc⟩ ⟨0, tc⟩ :=
      reach_row_any hsup 0 sc tc hsc htc8 (fun k hk => hlr 0 k (by omega) hk)
    have hcol : Reach (blockH initOW R C) ⟨0, tc⟩ ⟨7, tc⟩ :=
      reach_col_down hsup tc 0 7 (by omega) (fun k h1 h2 => hud k (by omega))
    refine ⟨⟨7, tc⟩, ⟨8, tc⟩, Relation.ReflTransGen.trans hrow hcol, ?_, rfl⟩
    exact step_down (by omega) (hud 7 (by omega))

theorem goalPath_blockV_init (R C : Nat) (sr sc goal : Nat) (hsc : sc ≤ 8)
    (hsg : (sr = 8 ∧ goal = 0) ∨ (sr = 0 ∧ goal = 8)) :
    GoalPath (blockV initOW R C) ⟨sr, sc⟩ goal := by
  have hsup : OWSupport (blockV initOW R C) := blockV_support initOW_support
  have hud : ∀ k, k < 8 → (blockV initOW R C).upDown k sc = true := by
    intro k hk
    show initOW.upDown k sc = true
    simp only [initOW, Bool.and_eq_true, decide_eq_true_eq]
    omega
  rcases hsg with ⟨rfl, rfl⟩ | ⟨rfl, rfl⟩
  · have hcol : Reach (blockV initOW R C) ⟨1, sc⟩ ⟨8, sc⟩ :=
      reach_col_down hsup sc 1 8 (by omega) (fun k h1 h2 => hud k (by omega))
    refine ⟨⟨1, sc⟩, ⟨0, sc⟩, reach_symm hsup hcol, ?_, rfl⟩
    exact step_up (by omega) (hud 0 (by omega))
  · have hcol : Reach (blockV initOW R C) ⟨0, sc⟩ ⟨7, sc⟩ :=
      reach_col_down hsup sc 0 7 (by omega) (fun k h1 h2 => hud k (by omega))
    refine ⟨⟨7, sc⟩, ⟨8, sc⟩, hcol, ?_, rfl⟩
    exact step_down (by omega) (hud 7 (by omega))

theorem goalPath_initOW (sr sc goal : Nat) (hsc : sc ≤ 8)
    (hsg : (sr = 8 ∧ goal = 0) ∨ (sr = 0 ∧ goal = 8)) :
    GoalPath initOW ⟨sr, sc⟩ goal := by
  have hsup : OWSupport initOW := initOW_support
  have hud : ∀ k, k < 8 → initOW.upDown k sc = true := by
    intro k hk
    simp only [initOW, Bool.and_eq_true, decide_eq_true_eq]
    omega
  rcases hsg with ⟨rfl, rfl⟩ | ⟨rfl, rfl⟩
  · have hcol : Reach initOW ⟨1, sc⟩ ⟨8, sc⟩ :=
      reach_col_down hsup sc 1 8 (by omega) (fun k h1 h2 => hud k (by omega))
    refine ⟨⟨1, sc⟩, ⟨0, sc⟩, reach_symm hsup hcol, ?_, rfl⟩
    exact step_up (by omega) (hud 0 (by omega))
  · have hcol : Reach initOW ⟨0, sc⟩ ⟨7, sc⟩ :=
      reach_col_down hsup sc 0 7 (by omega) (fun k h1 h2 => hud k (by omega))
    refine ⟨⟨7, sc⟩, ⟨8, sc⟩, hcol, ?_, rfl⟩
    exact step_down (by omega) (hud 7 (by omega))

theorem newGame_board (b : Bool) :
    (newGame b).board =
      (if b then
        { pawns0 := Pawn.make 0 true true, pawns1 := Pawn.make 1 false false,
          walls := { horizontal := fun _ _ => false, vertical := fun _ _ => false } }
       else
        { pawns0 := Pawn.make 0 false false, pawns1 := Pawn.make 1 true true,
          walls := { horizontal := fun _ _ => false, vertical := fun _ _ => false } }) := by
  unfold newGame
  dsimp only
  exact (updateValidNextWalls_frame _).1

theorem newGame_openWays (b : Bool) : (newGame b).openWays = initOW := by
  unfold newGame
  dsimp only
  exact (updateValidNextWalls_frame _).2.1

theorem newGame_turn (b : Bool) : (newGame b).turn = 0 := by
  unfold newGame
  dsimp only
  exact (updateValidNextWalls_frame _).2.2.1

theorem newGame_winner (b : Bool) : (newGame b).winner = none := by
  unfold newGame
  dsimp only
  exact (updateValidNextWalls_frame _).2.2.2.1

theorem newGame_vnpUpdated (b : Bool) : (newGame b).validNextPositionsUpdated = false := by
  unfold newGame
  dsimp only
  exact (updateValidNextWalls_frame _).2.2.2.2.2.2.2.2

theorem newGame_walls (b : Bool) :
    (newGame b).board.walls =
      { horizontal := fun _ _ => false, vertical := fun _ _ => false } := by
  rw [newGame_board]
  cases b <;> rfl

theorem newGame_walls_legal (b : Bool) (r c : Nat) (hr : r < 8) (hc : c < 8) :
    (newGame b).validNextWalls.horizontal r c = true ∧
    (newGame b).validNextWalls.vertical r c = true := by
  cases b with
  | true =>
    unfold newGame
    dsimp only
    rw [updateValidNextWalls_vnw_h, updateValidNextWalls_vnw_v]
    constructor
    · rw [if_pos ⟨⟨hr, hc⟩, by simp [overlapH]⟩]
      unfold Game.testUnoptimizedH
      rw [existPathsToGoalLines_set_ow]
      rw [Bool.and_eq_true]
      constructor
      · exact dfsTop_complete _ _ (blockH_support initOW_support) _
          (goalPath_blockH_init r c hc 8 4 0 (by omega) (Or.inl ⟨rfl, rfl⟩))
      · exact dfsTop_complete _ _ (blockH_support initOW_support) _
          (goalPath_blockH_init r c hc 0 4 8 (by omega) (Or.inr ⟨rfl, rfl⟩))
    · rw [if_pos ⟨⟨hr, hc⟩, by simp [overlapV]⟩]
      unfold Game.testUnoptimizedV
      rw [existPathsToGoalLines_set_ow]
      rw [Bool.and_eq_true]
      constructor
      · exact dfsTop_complete _ _ (blockV_support initOW_support) _
          (goalPath_blockV_init r c 8 4 0 (by omega) (Or.inl ⟨rfl, rfl⟩))
      · exact dfsTop_complete _ _ (blockV_support initOW_support) _
          (goalPath_blockV_init r c 0 4 8 (by omega) (Or.inr ⟨rfl, rfl⟩))
  | false =>
    unfold newGame
    dsimp only
    rw [updateValidNextWalls_vnw_h, updateValidNextWalls_vnw_v]
    constructor
    · rw [if_pos ⟨⟨hr, hc⟩, by simp [overlapH]⟩]
      unfold Game.testUnoptimizedH
      rw [existPathsToGoalLines_set_ow]
      rw [Bool.and_eq_true]
      constructor
      · exact dfsTop_complete _ _ (blockH_support initOW_support) _
          (goalPath_blockH_init r c hc 0 4 8 (by omega) (Or.inr ⟨rfl, rfl⟩))
      · exact dfsTop_complete _ _ (blockH_support initOW_support) _
          (goalPath_blockH_init r c hc 8 4 0 (by omega) (Or.inl ⟨rfl, rfl⟩))
    · rw [if_pos ⟨⟨hr, hc⟩, by simp [overlapV]⟩]
      unfold Game.testUnoptimizedV
      rw [existPathsToGoalLines_set_ow]
      rw [Bool.and_eq_true]
      constructor
      · exact dfsTop_complete _ _ (blockV_support initOW_support) _
          (goalPath_blockV_init r c 0 4 8 (by omega) (Or.inr ⟨rfl, rfl⟩))
      · exact dfsTop_complete _ _ (blockV_support initOW_support) _
          (goalPath_blockV_init r c 8 4 0 (by omega) (Or.inl ⟨rfl, rfl⟩))

theorem toward_spec {g : Game} (grid : GridB) (main s1 s2 : Dir) (x y : Nat)
    (h : g.setValidNextPositionsToward grid main s1 s2 x y = true) :
    grid x y = true ∨ Reach g.openWays g.pawnOfTurn.position ⟨x, y⟩ := by
  unfold Game.setValidNextPositionsToward at h
  by_cases h1 : g.isValidNextMoveNotConsideringOtherPawn g.pawnOfTurn.position main = true
  case neg =>
    rw [if_neg h1] at h
    exact Or.inl h
  rw [if_pos h1] at h
  dsimp only at h
  have hstep1 : Step g.openWays g.pawnOfTurn.position
      (g.pawnOfTurn.position.newAddMove main) := by
    refine ⟨main, ?_, newAddMove_step _ main⟩
    rw [← isValidNextMove_eq_isOpenWay]
    exact h1
  by_cases h2 : g.pawnOfTurn.position.newAddMove main = g.pawnOfNotTurn.position
  case neg =>
    rw [if_neg h2] at h
    by_cases hxy : x = (g.pawnOfTurn.position.newAddMove main).row ∧
        y = (g.pawnOfTurn.position.newAddMove main).col
    · right
      obtain ⟨rfl, rfl⟩ := hxy
      exact Relation.ReflTransGen.single hstep1
    · left
      rwa [gset_other _ _ _ _ hxy] at h
  rw [if_pos h2] at h
  have hs1block : ∀ hh : GridB,
      (if g.isValidNextMoveNotConsideringOtherPawn
          (g.pawnOfTurn.position.newAddMove main) s1 = true
        then gset hh ((g.pawnOfTurn.position.newAddMove main).newAddMove s1).row
          ((g.pawnOfTurn.position.newAddMove main).newAddMove s1).col true
        else hh) x y = true →
      hh x y = true ∨ Reach g.openWays g.pawnOfTurn.position ⟨x, y⟩ := by
    intro hh hmem
    by_cases h5 : g.isValidNextMoveNotConsideringOtherPawn
        (g.pawnOfTurn.position.newAddMove main) s1 = true
    · rw [if_pos h5] at hmem
      by_cases hxy : x = ((g.pawnOfTurn.position.newAddMove main).newAddMove s1).row ∧
          y = ((g.pawnOfTurn.position.newAddMove main).newAddMove s1).col
      · right
        obtain ⟨rfl, rfl⟩ := hxy
        refine Relation.ReflTransGen.head hstep1 (Relation.ReflTransGen.single ?_)
        refine ⟨s1, ?_, newAddMove_step _ s1⟩
        rw [← isValidNextMove_eq_isOpenWay]
        exact h5
      · left
        rwa [gset_other _ _ _ _ hxy] at hmem
    · rw [if_neg h5] at hmem
      exact Or.inl hmem
  by_cases h3 : g.isValidNextMoveNotConsideringOtherPawn
      (g.pawnOfTurn.position.newAddMove main) main = true
  · rw [if_pos h3] at h
    by_cases hxy : x = ((g.pawnOfTurn.position.newAddMove main).newAddMove main).row ∧
        y = ((g.pawnOfTurn.position.newAddMove main).newAddMove main).col
    · right
      obtain ⟨rfl, rfl⟩ := hxy
      refine Relation.ReflTransGen.head hstep1 (Relation.ReflTransGen.single ?_)
      refine ⟨main, ?_, newAddMove_step _ main⟩
      rw [← isValidNextMove_eq_isOpenWay]
      exact h3
    · left
      rwa [gset_other _ _ _ _ hxy] at h
  · rw [if_neg h3] at h
    by_cases h4 : g.isValidNextMoveNotConsideringOtherPawn
        (g.pawnOfTurn.position.newAddMove main) s2 = true
    · rw [if_pos h4] at h
      by_cases hxy : x = ((g.pawnOfTurn.position.newAddMove main).newAddMove s2).row ∧
          y = ((g.pawnOfTurn.position.newAddMove main).newAddMove s2).col
      · right
        obtain ⟨rfl, rfl⟩ := hxy
        refine Relation.ReflTransGen.head hstep1 (Relation.ReflTransGen.single ?_)
        refine ⟨s2, ?_, newAddMove_step _ s2⟩
        rw [← isValidNextMove_eq_isOpenWay]
        exact h4
      · rw [gset_other _ _ _ _ hxy] at h
        exact hs1block _ h
    · rw [if_neg h4] at h
      exact hs1block _ h

theorem computeVNP_reach {g : Game} {x y : Nat}
    (h : g.computeValidNextPositions x y = true) :
    Reach g.openWays g.pawnOfTurn.position ⟨x, y⟩ := by
  unfold Game.computeValidNextPositions at h
  rcases toward_spec _ _ _ _ _ _ h with h | h
  · rcases toward_spec _ _ _ _ _ _ h with h | h
    · rcases toward_spec _ _ _ _ _ _ h with h | h
      · rcases toward_spec _ _ _ _ _ _ h with h | h
        · simp at h
        · exact h
      · exact h
    · exact h
  · exact h

theorem movePawnBody_fields (g : Game) (r c : Nat) :
    (Game.movePawnBody g r c).1 = true ∧
    (Game.movePawnBody g r c).2.board.walls = g.board.walls ∧
    (Game.movePawnBody g r c).2.openWays = g.openWays ∧
    (Game.movePawnBody g r c).2.validNextWalls = g.validNextWalls ∧
    (Game.movePawnBody g r c).2.validNextPositionsUpdated = false ∧
    (Game.movePawnBody g r c).2.board.pawns0
      = (if g.turn % 2 = 0 then { g.board.pawns0 with position := ⟨r, c⟩ }
         else g.board.pawns0) ∧
    (Game.movePawnBody g r c).2.board.pawns1
      = (if g.turn % 2 = 0 then g.board.pawns1
         else { g.board.pawns1 with position := ⟨r, c⟩ }) ∧
    (Game.movePawnBody g r c).2.winner
      = (if g.pawnOfTurn.goalRow = r then some g.pawnIndexOfTurn else g.winner) := by
  unfold Game.movePawnBody Game.setPawnOfTurn Game.setTurn Game.pawnOfTurn
    Game.pawnIndexOfTurn
  dsimp only
  by_cases hpar : g.turn % 2 = 0
  · simp only [if_pos hpar]
    by_cases h2 : g.board.pawns0.goalRow = r
    · simp only [if_pos h2]
      refine ⟨?_, ?_, ?_, ?_, ?_, ?_, ?_, ?_⟩ <;> first | rfl | trivial
    · simp only [if_neg h2]
      refine ⟨?_, ?_, ?_, ?_, ?_, ?_, ?_, ?_⟩ <;> first | rfl | trivial
  · simp only [if_neg hpar]
    by_cases h2 : g.board.pawns1.goalRow = r
    · simp only [if_pos h2]
      refine ⟨?_, ?_, ?_, ?_, ?_, ?_, ?_, ?_⟩ <;> first | rfl | trivial
    · simp only [if_neg h2]
      refine ⟨?_, ?_, ?_, ?_, ?_, ?_, ?_, ?_⟩ <;> first | rfl | trivial

theorem validNextPositionsGet_fst {g : Game}
    (hcoh : g.validNextPositionsUpdated = true →
      g.validNextPositionsCache = g.computeValidNextPositions) :
    (g.validNextPositionsGet).1 = g.computeValidNextPositions := by
  unfold Game.validNextPositionsGet
  split
  · rename_i hupd
    exact hcoh hupd
  · rfl

theorem validNextPositionsGet_snd (g : Game) :
    (g.validNextPositionsGet).2.board = g.board ∧
    (g.validNextPositionsGet).2.openWays = g.openWays ∧
    (g.validNextPositionsGet).2.turn = g.turn ∧
    (g.validNextPositionsGet).2.winner = g.winner ∧
    (g.validNextPositionsGet).2.validNextWalls = g.validNextWalls := by
  unfold Game.validNextPositionsGet
  split
  · exact ⟨rfl, rfl, rfl, rfl, rfl⟩
  · exact ⟨rfl, rfl, rfl, rfl, rfl⟩

theorem restore_eq {f : GridB} {i j i' j' : Nat} (h1 : f i j = true) (h2 : f i' j' = true) :
    gset (gset (gset (gset f i j false) i' j' false) i j true) i' j' true = f := by
  funext a b
  by_cases hA : a = i' ∧ b = j'
  · obtain ⟨rfl, rfl⟩ := hA
    rw [gset_same, h2]
  · rw [gset_other _ _ _ _ hA]
    by_cases hB : a = i ∧ b = j
    · obtain ⟨rfl, rfl⟩ := hB
      rw [gset_same, h1]
    · rw [gset_other _ _ _ _ hB, gset_other _ _ _ _ hA, gset_other _ _ _ _ hB]

theorem gset_false_true_ne {g : GridB} {i j a b : Nat} (h : gset g i j false a b = true) :
    g a b = true ∧ ¬(a = i ∧ b = j) := by
  by_cases hab : a = i ∧ b = j
  · obtain ⟨rfl, rfl⟩ := hab
    rw [gset_same] at h
    exact absurd h (by simp)
  · rw [gset_other _ _ _ _ hab] at h
    exact ⟨h, hab⟩

theorem gset_same_of {g : GridB} {i j a b : Nat} {v : Bool} (ha : a = i) (hb : b = j) :
    gset g i j v a b = v := by
  subst ha; subst hb; exact gset_same ..

theorem testH_fst (g : Game) (R C : Nat) :
    (g.testIfExistPathsToGoalLinesAfterPlaceHorizontalWall R C).1
      = (if testIfConnectedOnTwoPointsForHorizontalWall g.board.walls R C = false
         then true else g.testUnoptimizedH R C) := by
  unfold Game.testIfExistPathsToGoalLinesAfterPlaceHorizontalWall
  split
  · rfl
  · rfl

theorem testV_fst (g : Game) (R C : Nat) :
    (g.testIfExistPathsToGoalLinesAfterPlaceVerticalWall R C).1
      = (if testIfConnectedOnTwoPointsForVerticalWall g.board.walls R C = false
         then true else g.testUnoptimizedV R C) := by
  unfold Game.testIfExistPathsToGoalLinesAfterPlaceVerticalWall
  split
  · rfl
  · rfl

theorem testH_snd (g : Game) (R C : Nat)
    (hfree1 : g.openWays.upDown R C = true)
    (hfree2 : g.openWays.upDown R (C + 1) = true) :
    (g.testIfExistPathsToGoalLinesAfterPlaceHorizontalWall R C).2 = g := by
  unfold Game.testIfExistPathsToGoalLinesAfterPlaceHorizontalWall
  split
  · rfl
  · dsimp only
    refine Game.ext rfl rfl rfl rfl rfl rfl rfl ?_ rfl rfl
    refine OpenWays.ext ?_ rfl
    show gset (gset (gset (gset g.openWays.upDown R C false) R (C + 1) false) R C true)
        R (C + 1) true = g.openWays.upDown
    exact restore_eq hfree1 hfree2

theorem testV_snd (g : Game) (R C : Nat)
    (hfree1 : g.openWays.leftRight R C = true)
    (hfree2 : g.openWays.leftRight (R + 1) C = true) :
    (g.testIfExistPathsToGoalLinesAfterPlaceVerticalWall R C).2 = g := by
  unfold Game.testIfExistPathsToGoalLinesAfterPlaceVerticalWall
  split
  · rfl
  · dsimp only
    refine Game.ext rfl rfl rfl rfl rfl rfl rfl ?_ rfl rfl
    refine OpenWays.ext rfl ?_
    show gset (gset (gset (gset g.openWays.leftRight R C false) (R + 1) C false) R C true)
        (R + 1) C true = g.openWays.leftRight
    exact restore_eq hfree1 hfree2

theorem pawns_cover (g : Game) :
    (g.pawnOfTurn = g.board.pawns0 ∧ g.pawnOfNotTurn = g.board.pawns1) ∨
    (g.pawnOfTurn = g.board.pawns1 ∧ g.pawnOfNotTurn = g.board.pawns0) := by
  unfold Game.pawnOfTurn Game.pawnOfNotTurn Game.pawnIndexOfTurn Game.pawnIndexOfNotTurn
  rcases Nat.mod_two_eq_zero_or_one g.turn with hpar | hpar
  · left
    have h1 : (g.turn + 1) % 2 = 1 := by omega
    rw [hpar, h1]
    exact ⟨rfl, rfl⟩
  · right
    have h1 : (g.turn + 1) % 2 = 0 := by omega
    rw [hpar, h1]
    exact ⟨rfl, rfl⟩

theorem cons_placeH {w : Walls} {ow : OpenWays} (hcons : Cons w ow) {R C : Nat} :
    Cons { horizontal := gset w.horizontal R C true, vertical := w.vertical }
      (blockH ow R C) := by
  constructor
  · intro r c hr hc
    show gset (gset ow.upDown R C false) R (C + 1) false r c
      = !((decide (1 ≤ c) && gset w.horizontal R C true r (c - 1)) ||
          gset w.horizontal R C true r c)
    by_cases hA : r = R ∧ c = C + 1
    · have e1 : gset (gset ow.upDown R C false) R (C + 1) false r c = false :=
        gset_same_of hA.1 hA.2
      have e2 : gset w.horizontal R C true r (c - 1) = true :=
        gset_same_of hA.1 (by omega)
      have hc1 : 1 ≤ c := by omega
      rw [e1, e2]
      simp [hc1]
    · rw [gset_other _ _ _ _ hA]
      by_cases hB : r = R ∧ c = C
      · have e1 : gset ow.upDown R C false r c = false := gset_same_of hB.1 hB.2
        have e2 : gset w.horizontal R C true r c = true := gset_same_of hB.1 hB.2
        rw [e1, e2]
        simp
      · rw [gset_other _ _ _ _ hB, hcons.1 r c hr hc]
        have h1 : gset w.horizontal R C true r (c - 1) = w.horizontal r (c - 1) := by
          apply gset_other
          rintro ⟨rfl, hc1⟩
          rcases Nat.eq_zero_or_pos c with rfl | hcp
          · exact hB ⟨rfl, by omega⟩
          · exact hA ⟨rfl, by omega⟩
        have h2 : gset w.horizontal R C true r c = w.horizontal r c :=
          gset_other _ _ _ _ hB
        rw [h1, h2]
  · intro r c hr hc
    show ow.leftRight r c = _
    exact hcons.2 r c hr hc

theorem cons_placeV {w : Walls} {ow : OpenWays} (hcons : Cons w ow) {R C : Nat} :
    Cons { horizontal := w.horizontal, vertical := gset w.vertical R C true }
      (blockV ow R C) := by
  constructor
  · intro r c hr hc
    show ow.upDown r c = _
    exact hcons.1 r c hr hc
  · intro r c hr hc
    show gset (gset ow.leftRight R C false) (R + 1) C false r c
      = !((decide (1 ≤ r) && gset w.vertical R C true (r - 1) c) ||
          gset w.vertical R C true r c)
    by_cases hA : r = R + 1 ∧ c = C
    · have e1 : gset (gset ow.leftRight R C false) (R + 1) C false r c = false :=
        gset_same_of hA.1 hA.2
      have e2 : gset w.vertical R C true (r - 1) c = true :=
        gset_same_of (by omega) hA.2
      have hr1 : 1 ≤ r := by omega
      rw [e1, e2]
      simp [hr1]
    · rw [gset_other _ _ _ _ hA]
      by_cases hB : r = R ∧ c = C
      · have e1 : gset ow.leftRight R C false r c = false := gset_same_of hB.1 hB.2
        have e2 : gset w.vertical R C true r c = true := gset_same_of hB.1 hB.2
        rw [e1, e2]
        simp
      · rw [gset_other _ _ _ _ hB, hcons.2 r c hr hc]
        have h1 : gset w.vertical R C true (r - 1) c = w.vertical (r - 1) c := by
          apply gset_other
          rintro ⟨hr1, rfl⟩
          rcases Nat.eq_zero_or_pos r with rfl | hrp
          · exact hB ⟨by omega, rfl⟩
          · exact hA ⟨by omega, rfl⟩
        have h2 : gset w.vertical R C true r c = w.vertical r c :=
          gset_other _ _ _ _ hB
        rw [h1, h2]

theorem movePawn_true_spec {g g' : Game} {r c : Nat}
    (hcoh : g.validNextPositionsUpdated = true →
      g.validNextPositionsCache = g.computeValidNextPositions)
    (h : g.movePawn r c true = (true, g')) :
    g.computeValidNextPositions r c = true ∧
    g'.board.walls = g.board.walls ∧
    g'.openWays = g.openWays ∧
    g'.validNextWalls = g.validNextWalls ∧
    g'.validNextPositionsUpdated = false ∧
    g'.board.pawns0 = (if g.turn % 2 = 0 then { g.board.pawns0 with position := ⟨r, c⟩ }
      else g.board.pawns0) ∧
    g'.board.pawns1 = (if g.turn % 2 = 0 then g.board.pawns1
      else { g.board.pawns1 with position := ⟨r, c⟩ }) := by
  unfold Game.movePawn at h
  rw [if_pos rfl] at h
  dsimp only at h
  split at h
  · rename_i hval
    have hg' : (Game.movePawnBody (g.validNextPositionsGet).2 r c).2 = g' :=
      congrArg Prod.snd h
    have hval' : g.computeValidNextPositions r c = true := by
      rw [← validNextPositionsGet_fst hcoh]
      exact hval
    have hf := movePawnBody_fields (g.validNextPositionsGet).2 r c
    have hs := validNextPositionsGet_snd g
    refine ⟨hval', ?_, ?_, ?_, ?_, ?_, ?_⟩
    · rw [← hg', hf.2.1, hs.1]
    · rw [← hg', hf.2.2.1, hs.2.1]
    · rw [← hg', hf.2.2.2.1, hs.2.2.2.2]
    · rw [← hg', hf.2.2.2.2.1]
    · rw [← hg', hf.2.2.2.2.2.1, hs.1, hs.2.2.1]
    · rw [← hg', hf.2.2.2.2.2.2.1, hs.1, hs.2.2.1]
  · rename_i hval
    exfalso
    have hfst := congrArg Prod.fst h
    simp at hfst

theorem movePawn_inv {g g' : Game} {r c : Nat} (hinv : g.Inv)
    (h : g.movePawn r c true = (true, g')) : g'.Inv := by
  obtain ⟨hws, hsup, hcons, hvnw, hcoh, hgr0, hgr1⟩ := hinv
  obtain ⟨hval, hwalls, how, hvnweq, hupd, hp0, hp1⟩ := movePawn_true_spec hcoh h
  have hreach : Reach g.openWays g.pawnOfTurn.position ⟨r, c⟩ := computeVNP_reach hval
  refine ⟨?_, ?_, ?_, ⟨?_, ?_⟩, ?_, ?_, ?_⟩
  · rw [hwalls]
    exact hws
  · rw [how]
    exact hsup
  · rw [hwalls, how]
    exact hcons
  · intro rr cc hcell
    rw [hvnweq] at hcell
    rw [hwalls]
    exact hvnw.1 rr cc hcell
  · intro rr cc hcell
    rw [hvnweq] at hcell
    rw [hwalls]
    exact hvnw.2 rr cc hcell
  · intro hu
    rw [hupd] at hu
    exact absurd hu (by decide)
  · show GoalReach g'.openWays g'.board.pawns0.position g'.board.pawns0.goalRow
    rw [how, hp0]
    by_cases hpar : g.turn % 2 = 0
    · rw [if_pos hpar]
      have hpt : g.pawnOfTurn = g.board.pawns0 := by
        unfold Game.pawnOfTurn Game.pawnIndexOfTurn
        rw [if_pos hpar]
      obtain ⟨q, hq, hqrow⟩ := hgr0
      refine ⟨q, ?_, hqrow⟩
      have h1 : Reach g.openWays (⟨r, c⟩ : PawnPosition) g.board.pawns0.position := by
        have h2 := reach_symm hsup hreach
        rw [hpt] at h2
        exact h2
      exact Relation.ReflTransGen.trans h1 hq
    · rw [if_neg hpar]
      exact hgr0
  · show GoalReach g'.openWays g'.board.pawns1.position g'.board.pawns1.goalRow
    rw [how, hp1]
    by_cases hpar : g.turn % 2 = 0
    · rw [if_pos hpar]
      exact hgr1
    · rw [if_neg hpar]
      have hpt : g.pawnOfTurn = g.board.pawns1 := by
        unfold Game.pawnOfTurn Game.pawnIndexOfTurn
        rw [if_neg hpar]
      obtain ⟨q, hq, hqrow⟩ := hgr1
      refine ⟨q, ?_, hqrow⟩
      have h1 : Reach g.openWays (⟨r, c⟩ : PawnPosition) g.board.pawns1.position := by
        have h2 := reach_symm hsup hreach
        rw [hpt] at h2
        exact h2
      exact Relation.ReflTransGen.trans h1 hq

theorem placeHWallBody_fields (g : Game) (R C : Nat) :
    (Game.placeHorizontalWallBody g R C).1 = true ∧
    (Game.placeHorizontalWallBody g R C).2.openWays = blockH g.openWays R C ∧
    (Game.placeHorizontalWallBody g R C).2.board.walls.horizontal
      = gset g.board.walls.horizontal R C true ∧
    (Game.placeHorizontalWallBody g R C).2.board.walls.vertical
      = g.board.walls.vertical ∧
    (Game.placeHorizontalWallBody g R C).2.board.pawns0.position
      = g.board.pawns0.position ∧
    (Game.placeHorizontalWallBody g R C).2.board.pawns0.goalRow
      = g.board.pawns0.goalRow ∧
    (Game.placeHorizontalWallBody g R C).2.board.pawns1.position
      = g.board.pawns1.position ∧
    (Game.placeHorizontalWallBody g R C).2.board.pawns1.goalRow
      = g.board.pawns1.goalRow ∧
    (Game.placeHorizontalWallBody g R C).2.validNextPositionsUpdated = false ∧
    (Game.placeHorizontalWallBody g R C).2.validNextWalls.vertical
      = gset g.validNextWalls.vertical R C false ∧
    ∀ x y, (Game.placeHorizontalWallBody g R C).2.validNextWalls.horizontal x y = true →
      g.validNextWalls.horizontal x y = true ∧ ¬(x = R ∧ y = C) ∧
      (1 ≤ C → ¬(x = R ∧ y = C - 1)) ∧ (C < 7 → ¬(x = R ∧ y = C + 1)) := by
  unfold Game.placeHorizontalWallBody
    Game.adjustProbableValidNextWallForAfterPlaceHorizontalWall
    Game.setPawnOfTurn Game.setTurn Game.pawnOfTurn Game.pawnIndexOfTurn
  dsimp only
  by_cases hc0 : 0 < C
  · by_cases hc7 : C < 7
    · simp only [if_pos hc0, if_pos hc7]
      by_cases hpar : g.turn % 2 = 0
      · simp only [if_pos hpar]
        refine ⟨(by first | rfl | trivial), (by first | rfl | trivial), (by first | rfl | trivial), (by first | rfl | trivial), (by first | rfl | trivial), (by first | rfl | trivial), (by first | rfl | trivial), (by first | rfl | trivial), (by first | rfl | trivial), (by first | rfl | trivial), ?_⟩
        intro x y hxy
        obtain ⟨hxy1, hne3⟩ := gset_false_true_ne hxy
        obtain ⟨hxy2, hne2⟩ := gset_false_true_ne hxy1
        obtain ⟨hxy3, hne1⟩ := gset_false_true_ne hxy2
        exact ⟨hxy3, hne1, fun _ => hne2, fun _ => hne3⟩
      · simp only [if_neg hpar]
        refine ⟨(by first | rfl | trivial), (by first | rfl | trivial), (by first | rfl | trivial), (by first | rfl | trivial), (by first | rfl | trivial), (by first | rfl | trivial), (by first | rfl | trivial), (by first | rfl | trivial), (by first | rfl | trivial), (by first | rfl | trivial), ?_⟩
        intro x y hxy
        obtain ⟨hxy1, hne3⟩ := gset_false_true_ne hxy
        obtain ⟨hxy2, hne2⟩ := gset_false_true_ne hxy1
        obtain ⟨hxy3, hne1⟩ := gset_false_true_ne hxy2
        exact ⟨hxy3, hne1, fun _ => hne2, fun _ => hne3⟩
    · simp only [if_pos hc0, if_neg hc7]
      by_cases hpar : g.turn % 2 = 0
      · simp only [if_pos hpar]
        refine ⟨(by first | rfl | trivial), (by first | rfl | trivial), (by first | rfl | trivial), (by first | rfl | trivial), (by first | rfl | trivial), (by first | rfl | trivial), (by first | rfl | trivial), (by first | rfl | trivial), (by first | rfl | trivial), (by first | rfl | trivial), ?_⟩
        intro x y hxy
        obtain ⟨hxy2, hne2⟩ := gset_false_true_ne hxy
        obtain ⟨hxy3, hne1⟩ := gset_false_true_ne hxy2
        exact ⟨hxy3, hne1, fun _ => hne2, fun h7 => absurd h7 hc7⟩
      · simp only [if_neg hpar]
        refine ⟨(by first | rfl | trivial), (by first | rfl | trivial), (by first | rfl | trivial), (by first | rfl | trivial), (by first | rfl | trivial), (by first | rfl | trivial), (by first | rfl | trivial), (by first | rfl | trivial), (by first | rfl | trivial), (by first | rfl | trivial), ?_⟩
        intro x y hxy
        obtain ⟨hxy2, hne2⟩ := gset_false_true_ne hxy
        obtain ⟨hxy3, hne1⟩ := gset_false_true_ne hxy2
        exact ⟨hxy3, hne1, fun _ => hne2, fun h7 => absurd h7 hc7⟩
  · by_cases hc7 : C < 7
    · simp only [if_neg hc0, if_pos hc7]
      by_cases hpar : g.turn % 2 = 0
      · simp only [if_pos hpar]
        refine ⟨(by first | rfl | trivial), (by first | rfl | trivial), (by first | rfl | trivial), (by first | rfl | trivial), (by first | rfl | trivial), (by first | rfl | trivial), (by first | rfl | trivial), (by first | rfl | trivial), (by first | rfl | trivial), (by first | rfl | trivial), ?_⟩
        intro x y hxy
        obtain ⟨hxy1, hne3⟩ := gset_false_true_ne hxy
        obtain ⟨hxy3, hne1⟩ := gset_false_true_ne hxy1
        exact ⟨hxy3, hne1, fun h1 => absurd h1 (by omega), fun _ => hne3⟩
      · simp only [if_neg hpar]
        refine ⟨(by first | rfl | trivial), (by first | rfl | trivial), (by first | rfl | trivial), (by first | rfl | trivial), (by first | rfl | trivial), (by first | rfl | trivial), (by first | rfl | trivial), (by first | rfl | trivial), (by first | rfl | trivial), (by first | rfl | trivial), ?_⟩
        intro x y hxy
        obtain ⟨hxy1, hne3⟩ := gset_false_true_ne hxy
        obtain ⟨hxy3, hne1⟩ := gset_false_true_ne hxy1
        exact ⟨hxy3, hne1, fun h1 => absurd h1 (by omega), fun _ => hne3⟩
    · simp only [if_neg hc0, if_neg hc7]
      by_cases hpar : g.turn % 2 = 0
      · simp only [if_pos hpar]
        refine ⟨(by first | rfl | trivial), (by first | rfl | trivial), (by first | rfl | trivial), (by first | rfl | trivial), (by first | rfl | trivial), (by first | rfl | trivial), (by first | rfl | trivial), (by first | rfl | trivial), (by first | rfl | trivial), (by first | rfl | trivial), ?_⟩
        intro x y hxy
        obtain ⟨hxy3, hne1⟩ := gset_false_true_ne hxy
        exact ⟨hxy3, hne1, fun h1 => absurd h1 (by omega), fun h7 => absurd h7 hc7⟩
      · simp only [if_neg hpar]
        refine ⟨(by first | rfl | trivial), (by first | rfl | trivial), (by first | rfl | trivial), (by first | rfl | trivial), (by first | rfl | trivial), (by first | rfl | trivial), (by first | rfl | trivial), (by first | rfl | trivial), (by first | rfl | trivial), (by first | rfl | trivial), ?_⟩
        intro x y hxy
        obtain ⟨hxy3, hne1⟩ := gset_false_true_ne hxy
        exact ⟨hxy3, hne1, fun h1 => absurd h1 (by omega), fun h7 => absurd h7 hc7⟩

theorem placeVWallBody_fields (g : Game) (R C : Nat) :
    (Game.placeVerticalWallBody g R C).1 = true ∧
    (Game.placeVerticalWallBody g R C).2.openWays = blockV g.openWays R C ∧
    (Game.placeVerticalWallBody g R C).2.board.walls.vertical
      = gset g.board.walls.vertical R C true ∧
    (Game.placeVerticalWallBody g R C).2.board.walls.horizontal
      = g.board.walls.horizontal ∧
    (Game.placeVerticalWallBody g R C).2.board.pawns0.position
      = g.board.pawns0.position ∧
    (Game.placeVerticalWallBody g R C).2.board.pawns0.goalRow
      = g.board.pawns0.goalRow ∧
    (Game.placeVerticalWallBody g R C).2.board.pawns1.position
      = g.board.pawns1.position ∧
    (Game.placeVerticalWallBody g R C).2.board.pawns1.goalRow
      = g.board.pawns1.goalRow ∧
    (Game.placeVerticalWallBody g R C).2.validNextPositionsUpdated = false ∧
    (Game.placeVerticalWallBody g R C).2.validNextWalls.horizontal
      = gset g.validNextWalls.horizontal R C false ∧
    ∀ x y, (Game.placeVerticalWallBody g R C).2.validNextWalls.vertical x y = true →
      g.validNextWalls.vertical x y = true ∧ ¬(x = R ∧ y = C) ∧
      (1 ≤ R → ¬(x = R - 1 ∧ y = C)) ∧ (R < 7 → ¬(x = R + 1 ∧ y = C)) := by
  unfold Game.placeVerticalWallBody
    Game.adjustProbableValidNextWallForAfterPlaceVerticalWall
    Game.setPawnOfTurn Game.setTurn Game.pawnOfTurn Game.pawnIndexOfTurn
  dsimp only
  by_cases hr0 : 0 < R
  · by_cases hr7 : R < 7
    · simp only [if_pos hr0, if_pos hr7]
      by_cases hpar : g.turn % 2 = 0
      · simp only [if_pos hpar]
        refine ⟨(by first | rfl | trivial), (by first | rfl | trivial), (by first | rfl | trivial), (by first | rfl | trivial), (by first | rfl | trivial), (by first | rfl | trivial), (by first | rfl | trivial), (by first | rfl | trivial), (by first | rfl | trivial), (by first | rfl | trivial), ?_⟩
        intro x y hxy
        obtain ⟨hxy1, hne3⟩ := gset_false_true_ne hxy
        obtain ⟨hxy2, hne2⟩ := gset_false_true_ne hxy1
        obtain ⟨hxy3, hne1⟩ := gset_false_true_ne hxy2
        exact ⟨hxy3, hne1, fun _ => hne2, fun _ => hne3⟩
      · simp only [if_neg hpar]
        refine ⟨(by first | rfl | trivial), (by first | rfl | trivial), (by first | rfl | trivial), (by first | rfl | trivial), (by first | rfl | trivial), (by first | rfl | trivial), (by first | rfl | trivial), (by first | rfl | trivial), (by first | rfl | trivial), (by first | rfl | trivial), ?_⟩
        intro x y hxy
        obtain ⟨hxy1, hne3⟩ := gset_false_true_ne hxy
        obtain ⟨hxy2, hne2⟩ := gset_false_true_ne hxy1
        obtain ⟨hxy3, hne1⟩ := gset_false_true_ne hxy2
        exact ⟨hxy3, hne1, fun _ => hne2, fun _ => hne3⟩
    · simp only [if_pos hr0, if_neg hr7]
      by_cases hpar : g.turn % 2 = 0
      · simp only [if_pos hpar]
        refine ⟨(by first | rfl | trivial), (by first | rfl | trivial), (by first | rfl | trivial), (by first | rfl | trivial), (by first | rfl | trivial), (by first | rfl | trivial), (by first | rfl | trivial), (by first | rfl | trivial), (by first | rfl | trivial), (by first | rfl | trivial), ?_⟩
        intro x y hxy
        obtain ⟨hxy2, hne2⟩ := gset_false_true_ne hxy
        obtain ⟨hxy3, hne1⟩ := gset_false_true_ne hxy2
        exact ⟨hxy3, hne1, fun _ => hne2, fun h7 => absurd h7 hr7⟩
      · simp only [if_neg hpar]
        refine ⟨(by first | rfl | trivial), (by first | rfl | trivial), (by first | rfl | trivial), (by first | rfl | trivial), (by first | rfl | trivial), (by first | rfl | trivial), (by first | rfl | trivial), (by first | rfl | trivial), (by first | rfl | trivial), (by first | rfl | trivial), ?_⟩
        intro x y hxy
        obtain ⟨hxy2, hne2⟩ := gset_false_true_ne hxy
        obtain ⟨hxy3, hne1⟩ := gset_false_true_ne hxy2
        exact ⟨hxy3, hne1, fun _ => hne2, fun h7 => absurd h7 hr7⟩
  · by_cases hr7 : R < 7
    · simp only [if_neg hr0, if_pos hr7]
      by_cases hpar : g.turn % 2 = 0
      · simp only [if_pos hpar]
        refine ⟨(by first | rfl | trivial), (by first | rfl | trivial), (by first | rfl | trivial), (by first | rfl | trivial), (by first | rfl | trivial), (by first | rfl | trivial), (by first | rfl | trivial), (by first | rfl | trivial), (by first | rfl | trivial), (by first | rfl | trivial), ?_⟩
        intro x y hxy
        obtain ⟨hxy1, hne3⟩ := gset_false_true_ne hxy
        obtain ⟨hxy3, hne1⟩ := gset_false_true_ne hxy1
        exact ⟨hxy3, hne1, fun h1 => absurd h1 (by omega), fun _ => hne3⟩
      · simp only [if_neg hpar]
        refine ⟨(by first | rfl | trivial), (by first | rfl | trivial), (by first | rfl | trivial), (by first | rfl | trivial), (by first | rfl | trivial), (by first | rfl | trivial), (by first | rfl | trivial), (by first | rfl | trivial), (by first | rfl | trivial), (by first | rfl | trivial), ?_⟩
        intro x y hxy
        obtain ⟨hxy1, hne3⟩ := gset_false_true_ne hxy
        obtain ⟨hxy3, hne1⟩ := gset_false_true_ne hxy1
        exact ⟨hxy3, hne1, fun h1 => absurd h1 (by omega), fun _ => hne3⟩
    · simp only [if_neg hr0, if_neg hr7]
      by_cases hpar : g.turn % 2 = 0
      · simp only [if_pos hpar]
        refine ⟨(by first | rfl | trivial), (by first | rfl | trivial), (by first | rfl | trivial), (by first | rfl | trivial), (by first | rfl | trivial), (by first | rfl | trivial), (by first | rfl | trivial), (by first | rfl | trivial), (by first | rfl | trivial), (by first | rfl | trivial), ?_⟩
        intro x y hxy
        obtain ⟨hxy3, hne1⟩ := gset_false_true_ne hxy
        exact ⟨hxy3, hne1, fun h1 => absurd h1 (by omega), fun h7 => absurd h7 hr7⟩
      · simp only [if_neg hpar]
        refine ⟨(by first | rfl | trivial), (by first | rfl | trivial), (by first | rfl | trivial), (by first | rfl | trivial), (by first | rfl | trivial), (by first | rfl | trivial), (by first | rfl | trivial), (by first | rfl | trivial), (by first | rfl | trivial), (by first | rfl | trivial), ?_⟩
        intro x y hxy
        obtain ⟨hxy3, hne1⟩ := gset_false_true_ne hxy
        exact ⟨hxy3, hne1, fun h1 => absurd h1 (by omega), fun h7 => absurd h7 hr7⟩

theorem cons_congr {w w' : Walls} {ow ow' : OpenWays}
    (hh : w'.horizontal = w.horizontal) (hv : w'.vertical = w.vertical)
    (ho : ow' = ow) (hc : Cons w ow) : Cons w' ow' := by
  constructor
  · intro r c hr hcb
    rw [hh, ho]
    exact hc.1 r c hr hcb
  · intro r c hr hcb
    rw [hv, ho]
    exact hc.2 r c hr hcb

theorem gset_true_elim {g : GridB} {i j a b : Nat} (h : gset g i j true a b = true) :
    (a = i ∧ b = j) ∨ g a b = true := by
  by_cases hab : a = i ∧ b = j
  · exact Or.inl hab
  · rw [gset_other _ _ _ _ hab] at h
    exact Or.inr h

theorem placeHWall_inv {g g' : Game} {R C : Nat} (hinv : g.Inv)
    (hallow : g.validNextWalls.horizontal R C = true)
    (h : g.placeHorizontalWall R C true = (true, g')) : g'.Inv := by
  obtain ⟨hws, hsup, hcons, hvnw, hcoh, hgr0, hgr1⟩ := hinv
  obtain ⟨hbR, hbC, hNoH, hNoV, hNoL, hNoR⟩ := hvnw.1 R C hallow
  have hfree1 : g.openWays.upDown R C = true :=
    cons_upDown_open hcons hbR (by omega) hNoL hNoH
  have hfree2 : g.openWays.upDown R (C + 1) = true := by
    apply cons_upDown_open hcons hbR (by omega)
    · intro hx
      exact hNoH
    · by_cases h7 : C < 7
      · exact hNoR h7
      · exact wallsSupport_h_false hws (by omega)
  unfold Game.placeHorizontalWall at h
  rw [if_pos rfl] at h
  dsimp only at h
  split at h
  · exfalso
    have hfst := congrArg Prod.fst h
    simp at hfst
  · rename_i hfail
    rw [testH_snd g R C hfree1 hfree2] at h
    have hg' : (Game.placeHorizontalWallBody g R C).2 = g' := congrArg Prod.snd h
    have hfst : (g.testIfExistPathsToGoalLinesAfterPlaceHorizontalWall R C).1 = true := by
      cases hb : (g.testIfExistPathsToGoalLinesAfterPlaceHorizontalWall R C).1 with
      | false => exact absurd hb hfail
      | true => rfl
    rw [testH_fst] at hfst
    have hlift :
        GoalReach (blockH g.openWays R C) g.board.pawns0.position g.board.pawns0.goalRow ∧
        GoalReach (blockH g.openWays R C) g.board.pawns1.position g.board.pawns1.goalRow := by
      by_cases hpre : testIfConnectedOnTwoPointsForHorizontalWall g.board.walls R C = false
      · have hsurg := surgeryH hws hsup hcons hbR hbC hNoH hNoV hNoL hNoR hpre
        exact ⟨goalReach_lift hsurg hgr0, goalReach_lift hsurg hgr1⟩
      · rw [if_neg hpre] at hfst
        have hsup' : OWSupport (blockH g.openWays R C) := blockH_support hsup
        unfold Game.testUnoptimizedH at hfst
        rw [existPathsToGoalLines_set_ow, Bool.and_eq_true] at hfst
        have hgrT := goalPath_goalReach ((existPath_iff_goalPath _ _ hsup').mp hfst.1)
        have hgrN := goalPath_goalReach ((existPath_iff_goalPath _ _ hsup').mp hfst.2)
        rcases pawns_cover g with ⟨e1, e2⟩ | ⟨e1, e2⟩
        · rw [e1] at hgrT
          rw [e2] at hgrN
          exact ⟨hgrT, hgrN⟩
        · rw [e1] at hgrT
          rw [e2] at hgrN
          exact ⟨hgrN, hgrT⟩
    have hf := placeHWallBody_fields g R C
    have ho' : g'.openWays = blockH g.openWays R C := by
      rw [← hg']
      exact hf.2.1
    have hwH' : g'.board.walls.horizontal = gset g.board.walls.horizontal R C true := by
      rw [← hg']
      exact hf.2.2.1
    have hwV' : g'.board.walls.vertical = g.board.walls.vertical := by
      rw [← hg']
      exact hf.2.2.2.1
    have hp0p : g'.board.pawns0.position = g.board.pawns0.position := by
      rw [← hg']
      exact hf.2.2.2.2.1
    have hp0g : g'.board.pawns0.goalRow = g.board.pawns0.goalRow := by
      rw [← hg']
      exact hf.2.2.2.2.2.1
    have hp1p : g'.board.pawns1.position = g.board.pawns1.position := by
      rw [← hg']
      exact hf.2.2.2.2.2.2.1
    have hp1g : g'.board.pawns1.goalRow = g.board.pawns1.goalRow := by
      rw [← hg']
      exact hf.2.2.2.2.2.2.2.1
    have hupd' : g'.validNextPositionsUpdated = false := by
      rw [← hg']
      exact hf.2.2.2.2.2.2.2.2.1
    have hvnwV' : g'.validNextWalls.vertical = gset g.validNextWalls.vertical R C false := by
      rw [← hg']
      exact hf.2.2.2.2.2.2.2.2.2.1
    have hvnwH' : ∀ x y, g'.validNextWalls.horizontal x y = true →
        g.validNextWalls.horizontal x y = true ∧ ¬(x = R ∧ y = C) ∧
        (1 ≤ C → ¬(x = R ∧ y = C - 1)) ∧ (C < 7 → ¬(x = R ∧ y = C + 1)) := by
      rw [← hg']
      exact hf.2.2.2.2.2.2.2.2.2.2
    refine ⟨⟨?_, ?_⟩, ?_, ?_, ⟨?_, ?_⟩, ?_, ?_, ?_⟩
    · intro a b hab
      rw [hwH'] at hab
      rcases gset_true_elim hab with ⟨rfl, rfl⟩ | hold
      · exact ⟨hbR, hbC⟩
      · exact hws.1 a b hold
    · intro a b hab
      rw [hwV'] at hab
      exact hws.2 a b hab
    · rw [ho']
      exact blockH_support hsup
    · refine cons_congr ?_ ?_ ho' (cons_placeH hcons)
      · exact hwH'
      · exact hwV'
    · intro x y hxy
      obtain ⟨hold, hne1, hne2, hne3⟩ := hvnwH' x y hxy
      obtain ⟨hx8, hy8, hH, hV, hL, hR'⟩ := hvnw.1 x y hold
      refine ⟨hx8, hy8, ?_, ?_, ?_, ?_⟩
      · rw [hwH', gset_other _ _ _ _ hne1]
        exact hH
      · rw [hwV']
        exact hV
      · intro hy1
        rw [hwH']
        have hne' : ¬(x = R ∧ y - 1 = C) := by
          rintro ⟨rfl, hyc⟩
          by_cases hC7 : C < 7
          · exact hne3 hC7 ⟨rfl, by omega⟩
          · omega
        rw [gset_other _ _ _ _ hne']
        exact hL hy1
      · intro hy7
        rw [hwH']
        have hne' : ¬(x = R ∧ y + 1 = C) := by
          rintro ⟨rfl, hyc⟩
          exact hne2 (by omega) ⟨rfl, by omega⟩
        rw [gset_other _ _ _ _ hne']
        exact hR' hy7
    · intro x y hxy
      rw [hvnwV'] at hxy
      obtain ⟨hold, hneRC⟩ := gset_false_true_ne hxy
      obtain ⟨hx8, hy8, hV, hH, hT, hB⟩ := hvnw.2 x y hold
      refine ⟨hx8, hy8, ?_, ?_, ?_, ?_⟩
      · rw [hwV']
        exact hV
      · rw [hwH', gset_other _ _ _ _ hneRC]
        exact hH
      · intro hx1
        rw [hwV']
        exact hT hx1
      · intro hx7
        rw [hwV']
        exact hB hx7
    · intro hu
      rw [hupd'] at hu
      exact absurd hu (by decide)
    · show GoalReach g'.openWays g'.board.pawns0.position g'.board.pawns0.goalRow
      rw [ho', hp0p, hp0g]
      exact hlift.1
    · show GoalReach g'.openWays g'.board.pawns1.position g'.board.pawns1.goalRow
      rw [ho', hp1p, hp1g]
      exact hlift.2

theorem placeVWall_inv {g g' : Game} {R C : Nat} (hinv : g.Inv)
    (hallow : g.validNextWalls.vertical R C = true)
    (h : g.placeVerticalWall R C true = (true, g')) : g'.Inv := by
  obtain ⟨hws, hsup, hcons, hvnw, hcoh, hgr0, hgr1⟩ := hinv
  obtain ⟨hbR, hbC, hNoV, hNoH, hNoT, hNoB⟩ := hvnw.2 R C hallow
  have hfree1 : g.openWays.leftRight R C = true :=
    cons_leftRight_open hcons (by omega) hbC hNoT hNoV
  have hfree2 : g.openWays.leftRight (R + 1) C = true := by
    apply cons_leftRight_open hcons (by omega) hbC
    · intro hx
      exact hNoV
    · by_cases h7 : R < 7
      · exact hNoB h7
      · exact wallsSupport_v_false hws (by omega)
  unfold Game.placeVerticalWall at h
  rw [if_pos rfl] at h
  dsimp only at h
  split at h
  · exfalso
    have hfst := congrArg Prod.fst h
    simp at hfst
  · rename_i hfail
    rw [testV_snd g R C hfree1 hfree2] at h
    have hg' : (Game.placeVerticalWallBody g R C).2 = g' := congrArg Prod.snd h
    have hfst : (g.testIfExistPathsToGoalLinesAfterPlaceVerticalWall R C).1 = true := by
      cases hb : (g.testIfExistPathsToGoalLinesAfterPlaceVerticalWall R C).1 with
      | false => exact absurd hb hfail
      | true => rfl
    rw [testV_fst] at hfst
    have hlift :
        GoalReach (blockV g.openWays R C) g.board.pawns0.position g.board.pawns0.goalRow ∧
        GoalReach (blockV g.openWays R C) g.board.pawns1.position g.board.pawns1.goalRow := by
      by_cases hpre : testIfConnectedOnTwoPointsForVerticalWall g.board.walls R C = false
      · have hsurg := surgeryV hws hsup hcons hbR hbC hNoV hNoH hNoT hNoB hpre
        exact ⟨goalReach_lift hsurg hgr0, goalReach_lift hsurg hgr1⟩
      · rw [if_neg hpre] at hfst
        have hsup' : OWSupport (blockV g.openWays R C) := blockV_support hsup
        unfold Game.testUnoptimizedV at hfst
        rw [existPathsToGoalLines_set_ow, Bool.and_eq_true] at hfst
        have hgrT := goalPath_goalReach ((existPath_iff_goalPath _ _ hsup').mp hfst.1)
        have hgrN := goalPath_goalReach ((existPath_iff_goalPath _ _ hsup').mp hfst.2)
        rcases pawns_cover g with ⟨e1, e2⟩ | ⟨e1, e2⟩
        · rw [e1] at hgrT
          rw [e2] at hgrN
          exact ⟨hgrT, hgrN⟩
        · rw [e1] at hgrT
          rw [e2] at hgrN
          exact ⟨hgrN, hgrT⟩
    have hf := placeVWallBody_fields g R C
    have ho' : g'.openWays = blockV g.openWays R C := by
      rw [← hg']
      exact hf.2.1
    have hwV' : g'.board.walls.vertical = gset g.board.walls.vertical R C true := by
      rw [← hg']
      exact hf.2.2.1
    have hwH' : g'.board.walls.horizontal = g.board.walls.horizontal := by
      rw [← hg']
      exact hf.2.2.2.1
    have hp0p : g'.board.pawns0.position = g.board.pawns0.position := by
      rw [← hg']
      exact hf.2.2.2.2.1
    have hp0g : g'.board.pawns0.goalRow = g.board.pawns0.goalRow := by
      rw [← hg']
      exact hf.2.2.2.2.2.1
    have hp1p : g'.board.pawns1.position = g.board.pawns1.position := by
      rw [← hg']
      exact hf.2.2.2.2.2.2.1
    have hp1g : g'.board.pawns1.goalRow = g.board.pawns1.goalRow := by
      rw [← hg']
      exact hf.2.2.2.2.2.2.2.1
    have hupd' : g'.validNextPositionsUpdated = false := by
      rw [← hg']
      exact hf.2.2.2.2.2.2.2.2.1
    have hvnwH' : g'.validNextWalls.horizontal
        = gset g.validNextWalls.horizontal R C false := by
      rw [← hg']
      exact hf.2.2.2.2.2.2.2.2.2.1
    have hvnwV' : ∀ x y, g'.validNextWalls.vertical x y = true →
        g.validNextWalls.vertical x y = true ∧ ¬(x = R ∧ y = C) ∧
        (1 ≤ R → ¬(x = R - 1 ∧ y = C)) ∧ (R < 7 → ¬(x = R + 1 ∧ y = C)) := by
      rw [← hg']
      exact hf.2.2.2.2.2.2.2.2.2.2
    refine ⟨⟨?_, ?_⟩, ?_, ?_, ⟨?_, ?_⟩, ?_, ?_, ?_⟩
    · intro a b hab
      rw [hwH'] at hab
      exact hws.1 a b hab
    · intro a b hab
      rw [hwV'] at hab
      rcases gset_true_elim hab with ⟨rfl, rfl⟩ | hold
      · exact ⟨hbR, hbC⟩
      · exact hws.2 a b hold
    · rw [ho']
      exact blockV_support hsup
    · refine cons_congr ?_ ?_ ho' (cons_placeV hcons)
      · exact hwH'
      · exact hwV'
    · intro x y hxy
      rw [hvnwH'] at hxy
      obtain ⟨hold, hneRC⟩ := gset_false_true_ne hxy
      obtain ⟨hx8, hy8, hH, hV, hL, hR'⟩ := hvnw.1 x y hold
      refine ⟨hx8, hy8, ?_, ?_, ?_, ?_⟩
      · rw [hwH']
        exact hH
      · rw [hwV', gset_other _ _ _ _ hneRC]
        exact hV
      · intro hy1
        rw [hwH']
        exact hL hy1
      · intro hy7
        rw [hwH']
        exact hR' hy7
    · intro x y hxy
      obtain ⟨hold, hne1, hne2, hne3⟩ := hvnwV' x y hxy
      obtain ⟨hx8, hy8, hV, hH, hT, hB⟩ := hvnw.2 x y hold
      refine ⟨hx8, hy8, ?_, ?_, ?_, ?_⟩
      · rw [hwV', gset_other _ _ _ _ hne1]
        exact hV
      · rw [hwH']
        exact hH
      · intro hx1
        rw [hwV']
        have hne' : ¬(x - 1 = R ∧ y = C) := by
          rintro ⟨hxr, rfl⟩
          exact hne3 (by omega) ⟨by omega, rfl⟩
        rw [gset_other _ _ _ _ hne']
        exact hT hx1
      · intro hx7
        rw [hwV']
        have hne' : ¬(x + 1 = R ∧ y = C) := by
          rintro ⟨hxr, rfl⟩
          exact hne2 (by omega) ⟨by omega, rfl⟩
        rw [gset_other _ _ _ _ hne']
        exact hB hx7
    · intro hu
      rw [hupd'] at hu
      exact absurd hu (by decide)
    · show GoalReach g'.openWays g'.board.pawns0.position g'.board.pawns0.goalRow
      rw [ho', hp0p, hp0g]
      exact hlift.1
    · show GoalReach g'.openWays g'.board.pawns1.position g'.board.pawns1.goalRow
      rw [ho', hp1p, hp1g]
      exact hlift.2

theorem inv_newGame (b : Bool) : (newGame b).Inv := by
  have hwalls := newGame_walls b
  have how := newGame_openWays b
  refine ⟨⟨?_, ?_⟩, ?_, ?_, ⟨?_, ?_⟩, ?_, ?_, ?_⟩
  · intro r c h
    rw [hwalls] at h
    exact absurd h (by simp)
  · intro r c h
    rw [hwalls] at h
    exact absurd h (by simp)
  · rw [how]
    exact initOW_support
  · rw [hwalls, how]
    constructor
    · intro r c hr hc
      show (decide (r < 8) && decide (c < 9))
        = !((decide (1 ≤ c) && false) || false)
      simp [hr, hc]
    · intro r c hr hc
      show (decide (r < 9) && decide (c < 8))
        = !((decide (1 ≤ r) && false) || false)
      simp [hr, hc]
  · intro r c h
    have hb : r < 8 ∧ c < 8 := by
      unfold newGame at h
      dsimp only at h
      rw [updateValidNextWalls_vnw_h] at h
      by_cases hB : r < 8 ∧ c < 8
      · exact hB
      · rw [if_neg (fun hc => hB hc.1)] at h
        exact absurd h (by simp)
    refine ⟨hb.1, hb.2, ?_, ?_, ?_, ?_⟩
    · rw [hwalls]
    · rw [hwalls]
    · intro hx
      rw [hwalls]
    · intro hx
      rw [hwalls]
  · intro r c h
    have hb : r < 8 ∧ c < 8 := by
      unfold newGame at h
      dsimp only at h
      rw [updateValidNextWalls_vnw_v] at h
      by_cases hB : r < 8 ∧ c < 8
      · exact hB
      · rw [if_neg (fun hc => hB hc.1)] at h
        exact absurd h (by simp)
    refine ⟨hb.1, hb.2, ?_, ?_, ?_, ?_⟩
    · rw [hwalls]
    · rw [hwalls]
    · intro hx
      rw [hwalls]
    · intro hx
      rw [hwalls]
  · intro hu
    rw [newGame_vnpUpdated] at hu
    exact absurd hu (by decide)
  · unfold Game.pawn0
    rw [how, newGame_board]
    cases b
    · exact goalPath_goalReach (goalPath_initOW 0 4 8 (by omega) (Or.inr ⟨rfl, rfl⟩))
    · exact goalPath_goalReach (goalPath_initOW 8 4 0 (by omega) (Or.inl ⟨rfl, rfl⟩))
  · unfold Game.pawn1
    rw [how, newGame_board]
    cases b
    · exact goalPath_goalReach (goalPath_initOW 8 4 0 (by omega) (Or.inl ⟨rfl, rfl⟩))
    · exact goalPath_goalReach (goalPath_initOW 0 4 8 (by omega) (Or.inr ⟨rfl, rfl⟩))

theorem legalStep_inv {g g' : Game} (hinv : g.Inv) (h : g.legalStep g') : g'.Inv := by
  obtain ⟨m, hallow, hmv⟩ := h
  rcases m with ⟨mp, mh, mv⟩
  cases mp with
  | some p =>
    unfold Game.doMove at hmv
    dsimp only at hmv
    have h1 : (g.movePawn p.1 p.2 true).1 = true := by
      have h0 := congrArg Prod.fst hmv
      simpa using h0
    have h2 : (g.movePawn p.1 p.2 true).2 = g' := congrArg Prod.snd hmv
    have hpair : g.movePawn p.1 p.2 true = (true, g') := by
      have heta : g.movePawn p.1 p.2 true
          = ((g.movePawn p.1 p.2 true).1, (g.movePawn p.1 p.2 true).2) := rfl
      rw [heta, h1, h2]
    exact movePawn_inv hinv hpair
  | none =>
    cases mh with
    | some w =>
      unfold Game.doMove at hmv
      dsimp only at hmv
      have hallow' : g.validNextWalls.horizontal w.1 w.2 = true := hallow
      have h1 : (g.placeHorizontalWall w.1 w.2 true).1 = true := by
        have h0 := congrArg Prod.fst hmv
        simpa using h0
      have h2 : (g.placeHorizontalWall w.1 w.2 true).2 = g' := congrArg Prod.snd hmv
      have hpair : g.placeHorizontalWall w.1 w.2 true = (true, g') := by
        have heta : g.placeHorizontalWall w.1 w.2 true
            = ((g.placeHorizontalWall w.1 w.2 true).1,
               (g.placeHorizontalWall w.1 w.2 true).2) := rfl
        rw [heta, h1, h2]
      exact placeHWall_inv hinv hallow' hpair
    | none =>
      cases mv with
      | some w =>
        unfold Game.doMove at hmv
        dsimp only at hmv
        have hallow' : g.validNextWalls.vertical w.1 w.2 = true := hallow
        have h1 : (g.placeVerticalWall w.1 w.2 true).1 = true := by
          have h0 := congrArg Prod.fst hmv
          simpa using h0
        have h2 : (g.placeVerticalWall w.1 w.2 true).2 = g' := congrArg Prod.snd hmv
        have hpair : g.placeVerticalWall w.1 w.2 true = (true, g') := by
          have heta : g.placeVerticalWall w.1 w.2 true
              = ((g.placeVerticalWall w.1 w.2 true).1,
                 (g.placeVerticalWall w.1 w.2 true).2) := rfl
          rw [heta, h1, h2]
        exact placeVWall_inv hinv hallow' hpair
      | none =>
        exfalso
        unfold Game.doMove at hmv
        dsimp only at hmv
        have h0 := congrArg Prod.fst hmv
        simp at h0

theorem reachableByLegal_inv {g0 g : Game} (hinv : g0.Inv)
    (h : g0.reachableByLegal g) : g.Inv := by
  induction h with
  | refl => exact hinv
  | tail _ hstep ih => exact legalStep_inv ih hstep

theorem step_row_lb {ow : OpenWays} (hblock : ∀ c, ow.upDown 4 c = false)
    {p q : PawnPosition} (h : Step ow p q) (hp : 5 ≤ p.row) : 5 ≤ q.row := by
  obtain ⟨d, hopen, rfl⟩ := h
  cases d with
  | up =>
    simp only [isOpenWayOW, Bool.and_eq_true, decide_eq_true_eq] at hopen
    obtain ⟨hpos, hopen2⟩ := hopen
    simp only [stepRow]
    by_cases h5 : p.row = 5
    · have h4 : p.row - 1 = 4 := by omega
      rw [h4, hblock p.col] at hopen2
      exact absurd hopen2 (by simp)
    · omega
  | down =>
    simp only [stepRow]
    omega
  | left =>
    simp only [stepRow]
    exact hp
  | right =>
    simp only [stepRow]
    exact hp

theorem reach_row_lb {ow : OpenWays} (hblock : ∀ c, ow.upDown 4 c = false)
    {p q : PawnPosition} (h : Reach ow p q) (hp : 5 ≤ p.row) : 5 ≤ q.row := by
  induction h with
  | refl => exact hp
  | tail _ hstep ih => exact step_row_lb hblock hstep ih

set_option maxRecDepth 100000 in
theorem sBar_row4_blocked (c : Nat) : (blockH sBar4.openWays 4 7).upDown 4 c = false := by
  have how : blockH sBar4.openWays 4 7
      = blockH (blockH (blockH (blockH (blockH initOW 4 0) 4 2) 4 4) 4 6) 4 7 := rfl
  rw [how]
  by_cases hc : c < 9
  · interval_cases c <;> decide
  · cases hud : (blockH (blockH (blockH (blockH (blockH initOW 4 0) 4 2) 4 4) 4 6) 4 7).upDown
        4 c with
    | false => rfl
    | true =>
      have hsup : OWSupport
          (blockH (blockH (blockH (blockH (blockH initOW 4 0) 4 2) 4 4) 4 6) 4 7) :=
        blockH_support (blockH_support (blockH_support (blockH_support
          (blockH_support initOW_support))))
      exact absurd (hsup.1 4 c hud).2 hc

theorem gset_true_iff {g : GridB} {i j a b : Nat} :
    gset g i j true a b = true ↔ ((a = i ∧ b = j) ∨ g a b = true) := by
  constructor
  · exact gset_true_elim
  · rintro (⟨rfl, rfl⟩ | h)
    · exact gset_same ..
    · by_cases hab : a = i ∧ b = j
      · obtain ⟨rfl, rfl⟩ := hab
        exact gset_same ..
      · rwa [gset_other _ _ _ _ hab]

theorem pp_ne_of_row {p q : PawnPosition} (h : p.row ≠ q.row) : p ≠ q := by
  intro he
  exact h (congrArg PawnPosition.row he)

theorem pp_ne_of_col {p q : PawnPosition} (h : p.col ≠ q.col) : p ≠ q := by
  intro he
  exact h (congrArg PawnPosition.col he)

theorem toward_ne {g : Game} (grid : GridB) {main s1 s2 : Dir}
    (htriple : (main = Dir.up ∧ s1 = Dir.left ∧ s2 = Dir.right) ∨
               (main = Dir.down ∧ s1 = Dir.left ∧ s2 = Dir.right) ∨
               (main = Dir.left ∧ s1 = Dir.up ∧ s2 = Dir.down) ∨
               (main = Dir.right ∧ s1 = Dir.up ∧ s2 = Dir.down))
    {x y : Nat}
    (h : g.setValidNextPositionsToward grid main s1 s2 x y = true) :
    grid x y = true ∨
    ((⟨x, y⟩ : PawnPosition) ≠ g.pawnOfTurn.position ∧
     (⟨x, y⟩ : PawnPosition) ≠ g.pawnOfNotTurn.position) := by
  rcases htriple with ⟨rfl, rfl, rfl⟩ | ⟨rfl, rfl, rfl⟩ | ⟨rfl, rfl, rfl⟩ | ⟨rfl, rfl, rfl⟩
  · unfold Game.setValidNextPositionsToward at h
    by_cases hm : g.isValidNextMoveNotConsideringOtherPawn g.pawnOfTurn.position
        Dir.up = true
    case neg =>
      rw [if_neg hm] at h
      exact Or.inl h
    rw [if_pos hm] at h
    dsimp only at h
    have hmb : 0 < g.pawnOfTurn.position.row := by
      have h2 := hm
      simp only [Game.isValidNextMoveNotConsideringOtherPawn, Bool.and_eq_true,
        decide_eq_true_eq] at h2
      exact h2.1
    by_cases hocc : g.pawnOfTurn.position.newAddMove Dir.up
        = g.pawnOfNotTurn.position
    case neg =>
      rw [if_neg hocc] at h
      by_cases hxy : x = (g.pawnOfTurn.position.newAddMove Dir.up).row ∧
          y = (g.pawnOfTurn.position.newAddMove Dir.up).col
      · obtain ⟨rfl, rfl⟩ := hxy
        refine Or.inr ⟨?_, fun he => hocc he⟩
        apply pp_ne_of_row
        simp only [newAddMove_step, stepRow, stepCol]
        omega
      · rw [gset_other _ _ _ _ hxy] at h
        exact Or.inl h
    rw [if_pos hocc] at h
    have hoppR : g.pawnOfNotTurn.position.row = g.pawnOfTurn.position.row - 1 := by
      rw [← hocc]
      simp only [newAddMove_step, stepRow, stepCol]
    have hoppC : g.pawnOfNotTurn.position.col = g.pawnOfTurn.position.col := by
      rw [← hocc]
      simp only [newAddMove_step, stepRow, stepCol]
    rw [hocc] at h
    by_cases hb : g.isValidNextMoveNotConsideringOtherPawn g.pawnOfNotTurn.position
        Dir.up = true
    · rw [if_pos hb] at h
      have hbb : 0 < g.pawnOfNotTurn.position.row := by
        have h2 := hb
        simp only [Game.isValidNextMoveNotConsideringOtherPawn, Bool.and_eq_true,
          decide_eq_true_eq] at h2
        exact h2.1
      by_cases hxy : x = (g.pawnOfNotTurn.position.newAddMove Dir.up).row ∧
          y = (g.pawnOfNotTurn.position.newAddMove Dir.up).col
      · obtain ⟨rfl, rfl⟩ := hxy
        refine Or.inr ⟨?_, ?_⟩
        · apply pp_ne_of_row
          simp only [newAddMove_step, stepRow, stepCol]
          omega
        · apply pp_ne_of_row
          simp only [newAddMove_step, stepRow, stepCol]
          omega
      · rw [gset_other _ _ _ _ hxy] at h
        exact Or.inl h
    · rw [if_neg hb] at h
      have hstep2 : (if g.isValidNextMoveNotConsideringOtherPawn
            g.pawnOfNotTurn.position Dir.left = true
          then gset grid (g.pawnOfNotTurn.position.newAddMove Dir.left).row
            (g.pawnOfNotTurn.position.newAddMove Dir.left).col true
          else grid) x y = true ∨
          ((⟨x, y⟩ : PawnPosition) ≠ g.pawnOfTurn.position ∧
           (⟨x, y⟩ : PawnPosition) ≠ g.pawnOfNotTurn.position) := by
        by_cases hs2 : g.isValidNextMoveNotConsideringOtherPawn
            g.pawnOfNotTurn.position Dir.right = true
        · rw [if_pos hs2] at h
          have hsb : g.pawnOfNotTurn.position.col < 8 := by
            have h2 := hs2
            simp only [Game.isValidNextMoveNotConsideringOtherPawn, Bool.and_eq_true,
              decide_eq_true_eq] at h2
            exact h2.1
          by_cases hxy : x = (g.pawnOfNotTurn.position.newAddMove Dir.right).row ∧
              y = (g.pawnOfNotTurn.position.newAddMove Dir.right).col
          · obtain ⟨rfl, rfl⟩ := hxy
            refine Or.inr ⟨?_, ?_⟩
            · apply pp_ne_of_row
              simp only [newAddMove_step, stepRow, stepCol]
              omega
            · apply pp_ne_of_col
              simp only [newAddMove_step, stepRow, stepCol]
              omega
          · rw [gset_other _ _ _ _ hxy] at h
            exact Or.inl h
        · rw [if_neg hs2] at h
          exact Or.inl h
      rcases hstep2 with h | hres
      on_goal 2 => exact Or.inr hres
      by_cases hs1 : g.isValidNextMoveNotConsideringOtherPawn
          g.pawnOfNotTurn.position Dir.left = true
      · rw [if_pos hs1] at h
        have hsb : 0 < g.pawnOfNotTurn.position.col := by
          have h2 := hs1
          simp only [Game.isValidNextMoveNotConsideringOtherPawn, Bool.and_eq_true,
            decide_eq_true_eq] at h2
          exact h2.1
        by_cases hxy : x = (g.pawnOfNotTurn.position.newAddMove Dir.left).row ∧
            y = (g.pawnOfNotTurn.position.newAddMove Dir.left).col
        · obtain ⟨rfl, rfl⟩ := hxy
          refine Or.inr ⟨?_, ?_⟩
          · apply pp_ne_of_row
            simp only [newAddMove_step, stepRow, stepCol]
            omega
          · apply pp_ne_of_col
            simp only [newAddMove_step, stepRow, stepCol]
            omega
        · rw [gset_other _ _ _ _ hxy] at h
          exact Or.inl h
      · rw [if_neg hs1] at h
        exact Or.inl h
  · unfold Game.setValidNextPositionsToward at h
    by_cases hm : g.isValidNextMoveNotConsideringOtherPawn g.pawnOfTurn.position
        Dir.down = true
    case neg =>
      rw [if_neg hm] at h
      exact Or.inl h
    rw [if_pos hm] at h
    dsimp only at h
    have hmb : g.pawnOfTurn.position.row < 8 := by
      have h2 := hm
      simp only [Game.isValidNextMoveNotConsideringOtherPawn, Bool.and_eq_true,
        decide_eq_true_eq] at h2
      exact h2.1
    by_cases hocc : g.pawnOfTurn.position.newAddMove Dir.down
        = g.pawnOfNotTurn.position
    case neg =>
      rw [if_neg hocc] at h
      by_cases hxy : x = (g.pawnOfTurn.position.newAddMove Dir.down).row ∧
          y = (g.pawnOfTurn.position.newAddMove Dir.down).col
      · obtain ⟨rfl, rfl⟩ := hxy
        refine Or.inr ⟨?_, fun he => hocc he⟩
        apply pp_ne_of_row
        simp only [newAddMove_step, stepRow, stepCol]
        omega
      · rw [gset_other _ _ _ _ hxy] at h
        exact Or.inl h
    rw [if_pos hocc] at h
    have hoppR : g.pawnOfNotTurn.position.row = g.pawnOfTurn.position.row + 1 := by
      rw [← hocc]
      simp only [newAddMove_step, stepRow, stepCol]
    have hoppC : g.pawnOfNotTurn.position.col = g.pawnOfTurn.position.col := by
      rw [← hocc]
      simp only [newAddMove_step, stepRow, stepCol]
    rw [hocc] at h
    by_cases hb : g.isValidNextMoveNotConsideringOtherPawn g.pawnOfNotTurn.position
        Dir.down = true
    · rw [if_pos hb] at h
      have hbb : g.pawnOfNotTurn.position.row < 8 := by
        have h2 := hb
        simp only [Game.isValidNextMoveNotConsideringOtherPawn, Bool.and_eq_true,
          decide_eq_true_eq] at h2
        exact h2.1
      by_cases hxy : x = (g.pawnOfNotTurn.position.newAddMove Dir.down).row ∧
          y = (g.pawnOfNotTurn.position.newAddMove Dir.down).col
      · obtain ⟨rfl, rfl⟩ := hxy
        refine Or.inr ⟨?_, ?_⟩
        · apply pp_ne_of_row
          simp only [newAddMove_step, stepRow, stepCol]
          omega
        · apply pp_ne_of_row
          simp only [newAddMove_step, stepRow, stepCol]
          omega
      · rw [gset_other _ _ _ _ hxy] at h
        exact Or.inl h
    · rw [if_neg hb] at h
      have hstep2 : (if g.isValidNextMoveNotConsideringOtherPawn
            g.pawnOfNotTurn.position Dir.left = true
          then gset grid (g.pawnOfNotTurn.position.newAddMove Dir.left).row
            (g.pawnOfNotTurn.position.newAddMove Dir.left).col true
          else grid) x y = true ∨
          ((⟨x, y⟩ : PawnPosition) ≠ g.pawnOfTurn.position ∧
           (⟨x, y⟩ : PawnPosition) ≠ g.pawnOfNotTurn.position) := by
        by_cases hs2 : g.isValidNextMoveNotConsideringOtherPawn
            g.pawnOfNotTurn.position Dir.right = true
        · rw [if_pos hs2] at h
          have hsb : g.pawnOfNotTurn.position.col < 8 := by
            have h2 := hs2
            simp only [Game.isValidNextMoveNotConsideringOtherPawn, Bool.and_eq_true,
              decide_eq_true_eq] at h2
            exact h2.1
          by_cases hxy : x = (g.pawnOfNotTurn.position.newAddMove Dir.right).row ∧
              y = (g.pawnOfNotTurn.position.newAddMove Dir.right).col
          · obtain ⟨rfl, rfl⟩ := hxy
            refine Or.inr ⟨?_, ?_⟩
            · apply pp_ne_of_row
              simp only [newAddMove_step, stepRow, stepCol]
              omega
            · apply pp_ne_of_col
              simp only [newAddMove_step, stepRow, stepCol]
              omega
          · rw [gset_other _ _ _ _ hxy] at h
            exact Or.inl h
        · rw [if_neg hs2] at h
          exact Or.inl h
      rcases hstep2 with h | hres
      on_goal 2 => exact Or.inr hres
      by_cases hs1 : g.isValidNextMoveNotConsideringOtherPawn
          g.pawnOfNotTurn.position Dir.left = true
      · rw [if_pos hs1] at h
        have hsb : 0 < g.pawnOfNotTurn.position.col := by
          have h2 := hs1
          simp only [Game.isValidNextMoveNotConsideringOtherPawn, Bool.and_eq_true,
            decide_eq_true_eq] at h2
          exact h2.1
        by_cases hxy : x = (g.pawnOfNotTurn.position.newAddMove Dir.left).row ∧
            y = (g.pawnOfNotTurn.position.newAddMove Dir.left).col
        · obtain ⟨rfl, rfl⟩ := hxy
          refine Or.inr ⟨?_, ?_⟩
          · apply pp_ne_of_row
            simp only [newAddMove_step, stepRow, stepCol]
            omega
          · apply pp_ne_of_col
            simp only [newAddMove_step, stepRow, stepCol]
            omega
        · rw [gset_other _ _ _ _ hxy] at h
          exact Or.inl h
      · rw [if_neg hs1] at h
        exact Or.inl h
  · unfold Game.setValidNextPositionsToward at h
    by_cases hm : g.isValidNextMoveNotConsideringOtherPawn g.pawnOfTurn.position
        Dir.left = true
    case neg =>
      rw [if_neg hm] at h
      exact Or.inl h
    rw [if_pos hm] at h
    dsimp only at h
    have hmb : 0 < g.pawnOfTurn.position.col := by
      have h2 := hm
      simp only [Game.isValidNextMoveNotConsideringOtherPawn, Bool.and_eq_true,
        decide_eq_true_eq] at h2
      exact h2.1
    by_cases hocc : g.pawnOfTurn.position.newAddMove Dir.left
        = g.pawnOfNotTurn.position
    case neg =>
      rw [if_neg hocc] at h
      by_cases hxy : x = (g.pawnOfTurn.position.newAddMove Dir.left).row ∧
          y = (g.pawnOfTurn.position.newAddMove Dir.left).col
      · obtain ⟨rfl, rfl⟩ := hxy
        refine Or.inr ⟨?_, fun he => hocc he⟩
        apply pp_ne_of_col
        simp only [newAddMove_step, stepRow, stepCol]
        omega
      · rw [gset_other _ _ _ _ hxy] at h
        exact Or.inl h
    rw [if_pos hocc] at h
    have hoppR : g.pawnOfNotTurn.position.row = g.pawnOfTurn.position.row := by
      rw [← hocc]
      simp only [newAddMove_step, stepRow, stepCol]
    have hoppC : g.pawnOfNotTurn.position.col = g.pawnOfTurn.position.col - 1 := by
      rw [← hocc]
      simp only [newAddMove_step, stepRow, stepCol]
    rw [hocc] at h
    by_cases hb : g.isValidNextMoveNotConsideringOtherPawn g.pawnOfNotTurn.position
        Dir.left = true
    · rw [if_pos hb] at h
      have hbb : 0 < g.pawnOfNotTurn.position.col := by
        have h2 := hb
        simp only [Game.isValidNextMoveNotConsideringOtherPawn, Bool.and_eq_true,
          decide_eq_true_eq] at h2
        exact h2.1
      by_cases hxy : x = (g.pawnOfNotTurn.position.newAddMove Dir.left).row ∧
          y = (g.pawnOfNotTurn.position.newAddMove Dir.left).col
      · obtain ⟨rfl, rfl⟩ := hxy
        refine Or.inr ⟨?_, ?_⟩
        · apply pp_ne_of_col
          simp only [newAddMove_step, stepRow, stepCol]
          omega
        · apply pp_ne_of_col
          simp only [newAddMove_step, stepRow, stepCol]
          omega
      · rw [gset_other _ _ _ _ hxy] at h
        exact Or.inl h
    · rw [if_neg hb] at h
      have hstep2 : (if g.isValidNextMoveNotConsideringOtherPawn
            g.pawnOfNotTurn.position Dir.up = true
          then gset grid (g.pawnOfNotTurn.position.newAddMove Dir.up).row
            (g.pawnOfNotTurn.position.newAddMove Dir.up).col true
          else grid) x y = true ∨
          ((⟨x, y⟩ : PawnPosition) ≠ g.pawnOfTurn.position ∧
           (⟨x, y⟩ : PawnPosition) ≠ g.pawnOfNotTurn.position) := by
        by_cases hs2 : g.isValidNextMoveNotConsideringOtherPawn
            g.pawnOfNotTurn.position Dir.down = true
        · rw [if_pos hs2] at h
          have hsb : g.pawnOfNotTurn.position.row < 8 := by
            have h2 := hs2
            simp only [Game.isValidNextMoveNotConsideringOtherPawn, Bool.and_eq_true,
              decide_eq_true_eq] at h2
            exact h2.1
          by_cases hxy : x = (g.pawnOfNotTurn.position.newAddMove Dir.down).row ∧
              y = (g.pawnOfNotTurn.position.newAddMove Dir.down).col
          · obtain ⟨rfl, rfl⟩ := hxy
            refine Or.inr ⟨?_, ?_⟩
            · apply pp_ne_of_col
              simp only [newAddMove_step, stepRow, stepCol]
              omega
            · apply pp_ne_of_row
              simp only [newAddMove_step, stepRow, stepCol]
              omega
          · rw [gset_other _ _ _ _ hxy] at h
            exact Or.inl h
        · rw [if_neg hs2] at h
          exact Or.inl h
      rcases hstep2 with h | hres
      on_goal 2 => exact Or.inr hres
      by_cases hs1 : g.isValidNextMoveNotConsideringOtherPawn
          g.pawnOfNotTurn.position Dir.up = true
      · rw [if_pos hs1] at h
        have hsb : 0 < g.pawnOfNotTurn.position.row := by
          have h2 := hs1
          simp only [Game.isValidNextMoveNotConsideringOtherPawn, Bool.and_eq_true,
            decide_eq_true_eq] at h2
          exact h2.1
        by_cases hxy : x = (g.pawnOfNotTurn.position.newAddMove Dir.up).row ∧
            y = (g.pawnOfNotTurn.position.newAddMove Dir.up).col
        · obtain ⟨rfl, rfl⟩ := hxy
          refine Or.inr ⟨?_, ?_⟩
          · apply pp_ne_of_col
            simp only [newAddMove_step, stepRow, stepCol]
            omega
          · apply pp_ne_of_row
            simp only [newAddMove_step, stepRow, stepCol]
            omega
        · rw [gset_other _ _ _ _ hxy] at h
          exact Or.inl h
      · rw [if_neg hs1] at h
        exact Or.inl h
  · unfold Game.setValidNextPositionsToward at h
    by_cases hm : g.isValidNextMoveNotConsideringOtherPawn g.pawnOfTurn.position
        Dir.right = true
    case neg =>
      rw [if_neg hm] at h
      exact Or.inl h
    rw [if_pos hm] at h
    dsimp only at h
    have hmb : g.pawnOfTurn.position.col < 8 := by
      have h2 := hm
      simp only [Game.isValidNextMoveNotConsideringOtherPawn, Bool.and_eq_true,
        decide_eq_true_eq] at h2
      exact h2.1
    by_cases hocc : g.pawnOfTurn.position.newAddMove Dir.right
        = g.pawnOfNotTurn.position
    case neg =>
      rw [if_neg hocc] at h
      by_cases hxy : x = (g.pawnOfTurn.position.newAddMove Dir.right).row ∧
          y = (g.pawnOfTurn.position.newAddMove Dir.right).col
      · obtain ⟨rfl, rfl⟩ := hxy
        refine Or.inr ⟨?_, fun he => hocc he⟩
        apply pp_ne_of_col
        simp only [newAddMove_step, stepRow, stepCol]
        omega
      · rw [gset_other _ _ _ _ hxy] at h
        exact Or.inl h
    rw [if_pos hocc] at h
    have hoppR : g.pawnOfNotTurn.position.row = g.pawnOfTurn.position.row := by
      rw [← hocc]
      simp only [newAddMove_step, stepRow, stepCol]
    have hoppC : g.pawnOfNotTurn.position.col = g.pawnOfTurn.position.col + 1 := by
      rw [← hocc]
      simp only [newAddMove_step, stepRow, stepCol]
    rw [hocc] at h
    by_cases hb : g.isValidNextMoveNotConsideringOtherPawn g.pawnOfNotTurn.position
        Dir.right = true
    · rw [if_pos hb] at h
      have hbb : g.pawnOfNotTurn.position.col < 8 := by
        have h2 := hb
        simp only [Game.isValidNextMoveNotConsideringOtherPawn, Bool.and_eq_true,
          decide_eq_true_eq] at h2
        exact h2.1
      by_cases hxy : x = (g.pawnOfNotTurn.position.newAddMove Dir.right).row ∧
          y = (g.pawnOfNotTurn.position.newAddMove Dir.right).col
      · obtain ⟨rfl, rfl⟩ := hxy
        refine Or.inr ⟨?_, ?_⟩
        · apply pp_ne_of_col
          simp only [newAddMove_step, stepRow, stepCol]
          omega
        · apply pp_ne_of_col
          simp only [newAddMove_step, stepRow, stepCol]
          omega
      · rw [gset_other _ _ _ _ hxy] at h
        exact Or.inl h
    · rw [if_neg hb] at h
      have hstep2 : (if g.isValidNextMoveNotConsideringOtherPawn
            g.pawnOfNotTurn.position Dir.up = true
          then gset grid (g.pawnOfNotTurn.position.newAddMove Dir.up).row
            (g.pawnOfNotTurn.position.newAddMove Dir.up).col true
          else grid) x y = true ∨
          ((⟨x, y⟩ : PawnPosition) ≠ g.pawnOfTurn.position ∧
           (⟨x, y⟩ : PawnPosition) ≠ g.pawnOfNotTurn.position) := by
        by_cases hs2 : g.isValidNextMoveNotConsideringOtherPawn
            g.pawnOfNotTurn.position Dir.down = true
        · rw [if_pos hs2] at h
          have hsb : g.pawnOfNotTurn.position.row < 8 := by
            have h2 := hs2
            simp only [Game.isValidNextMoveNotConsideringOtherPawn, Bool.and_eq_true,
              decide_eq_true_eq] at h2
            exact h2.1
          by_cases hxy : x = (g.pawnOfNotTurn.position.newAddMove Dir.down).row ∧
              y = (g.pawnOfNotTurn.position.newAddMove Dir.down).col
          · obtain ⟨rfl, rfl⟩ := hxy
            refine Or.inr ⟨?_, ?_⟩
            · apply pp_ne_of_col
              simp only [newAddMove_step, stepRow, stepCol]
              omega
            · apply pp_ne_of_row
              simp only [newAddMove_step, stepRow, stepCol]
              omega
          · rw [gset_other _ _ _ _ hxy] at h
            exact Or.inl h
        · rw [if_neg hs2] at h
          exact Or.inl h
      rcases hstep2 with h | hres
      on_goal 2 => exact Or.inr hres
      by_cases hs1 : g.isValidNextMoveNotConsideringOtherPawn
          g.pawnOfNotTurn.position Dir.up = true
      · rw [if_pos hs1] at h
        have hsb : 0 < g.pawnOfNotTurn.position.row := by
          have h2 := hs1
          simp only [Game.isValidNextMoveNotConsideringOtherPawn, Bool.and_eq_true,
            decide_eq_true_eq] at h2
          exact h2.1
        by_cases hxy : x = (g.pawnOfNotTurn.position.newAddMove Dir.up).row ∧
            y = (g.pawnOfNotTurn.position.newAddMove Dir.up).col
        · obtain ⟨rfl, rfl⟩ := hxy
          refine Or.inr ⟨?_, ?_⟩
          · apply pp_ne_of_col
            simp only [newAddMove_step, stepRow, stepCol]
            omega
          · apply pp_ne_of_row
            simp only [newAddMove_step, stepRow, stepCol]
            omega
        · rw [gset_other _ _ _ _ hxy] at h
          exact Or.inl h
      · rw [if_neg hs1] at h
        exact Or.inl h

theorem bool_eq_false_of_ne {b : Bool} (h : ¬b = true) : b = false := by
  cases b
  · rfl
  · exact absurd rfl h

/-- C7: when the straight one-step move from the pawn of turn lands on the
opponent's cell, `_set_validNextPositionsToward` marks exactly the straight
two-away cell when the edge behind the opponent is open (no lateral), and
otherwise marks exactly those lateral cells whose edges are open and in
bounds; with both laterals blocked it marks nothing in that direction. -/
theorem C7_confirmed {g : Game} (grid : GridB) (main s1 s2 : Dir)
    (hmain : g.isValidNextMoveNotConsideringOtherPawn g.pawnOfTurn.position main = true)
    (hocc : g.pawnOfTurn.position.newAddMove main = g.pawnOfNotTurn.position)
    (x y : Nat) :
    (g.isValidNextMoveNotConsideringOtherPawn
        (g.pawnOfTurn.position.newAddMove main) main = true →
      (g.setValidNextPositionsToward grid main s1 s2 x y = true ↔
        ((x = ((g.pawnOfTurn.position.newAddMove main).newAddMove main).row ∧
          y = ((g.pawnOfTurn.position.newAddMove main).newAddMove main).col) ∨
         grid x y = true))) ∧
    (g.isValidNextMoveNotConsideringOtherPawn
        (g.pawnOfTurn.position.newAddMove main) main = false →
      (g.setValidNextPositionsToward grid main s1 s2 x y = true ↔
        (grid x y = true ∨
         (g.isValidNextMoveNotConsideringOtherPawn
            (g.pawnOfTurn.position.newAddMove main) s1 = true ∧
          x = ((g.pawnOfTurn.position.newAddMove main).newAddMove s1).row ∧
          y = ((g.pawnOfTurn.position.newAddMove main).newAddMove s1).col) ∨
         (g.isValidNextMoveNotConsideringOtherPawn
            (g.pawnOfTurn.position.newAddMove main) s2 = true ∧
          x = ((g.pawnOfTurn.position.newAddMove main).newAddMove s2).row ∧
          y = ((g.pawnOfTurn.position.newAddMove main).newAddMove s2).col)))) := by
  constructor
  · intro hb
    unfold Game.setValidNextPositionsToward
    rw [if_pos hmain]
    dsimp only
    rw [if_pos hocc, if_pos hb, gset_true_iff]
  · intro hb
    unfold Game.setValidNextPositionsToward
    rw [if_pos hmain]
    dsimp only
    rw [if_pos hocc, if_neg (by simp [hb])]
    by_cases hs1 : g.isValidNextMoveNotConsideringOtherPawn
        (g.pawnOfTurn.position.newAddMove main) s1 = true
    · rw [if_pos hs1]
      by_cases hs2 : g.isValidNextMoveNotConsideringOtherPawn
          (g.pawnOfTurn.position.newAddMove main) s2 = true
      · rw [if_pos hs2, gset_true_iff, gset_true_iff]
        constructor
        · rintro (⟨rfl, rfl⟩ | ⟨rfl, rfl⟩ | hg)
          · exact Or.inr (Or.inr ⟨hs2, rfl, rfl⟩)
          · exact Or.inr (Or.inl ⟨hs1, rfl, rfl⟩)
          · exact Or.inl hg
        · rintro (hg | ⟨h1, rfl, rfl⟩ | ⟨h2, rfl, rfl⟩)
          · exact Or.inr (Or.inr hg)
          · exact Or.inr (Or.inl ⟨rfl, rfl⟩)
          · exact Or.inl ⟨rfl, rfl⟩
      · rw [if_neg hs2, gset_true_iff]
        constructor
        · rintro (⟨rfl, rfl⟩ | hg)
          · exact Or.inr (Or.inl ⟨hs1, rfl, rfl⟩)
          · exact Or.inl hg
        · rintro (hg | ⟨h1, rfl, rfl⟩ | ⟨h2, hxy⟩)
          · exact Or.inr hg
          · exact Or.inl ⟨rfl, rfl⟩
          · exact absurd h2 hs2
    · rw [if_neg hs1]
      by_cases hs2 : g.isValidNextMoveNotConsideringOtherPawn
          (g.pawnOfTurn.position.newAddMove main) s2 = true
      · rw [if_pos hs2, gset_true_iff]
        constructor
        · rintro (⟨rfl, rfl⟩ | hg)
          · exact Or.inr (Or.inr ⟨hs2, rfl, rfl⟩)
          · exact Or.inl hg
        · rintro (hg | ⟨h1, hxy⟩ | ⟨h2, rfl, rfl⟩)
          · exact Or.inr hg
          · exact absurd h1 hs1
          · exact Or.inl ⟨rfl, rfl⟩
      · rw [if_neg hs2]
        constructor
        · intro hg
          exact Or.inl hg
        · rintro (hg | ⟨h1, hxy⟩ | ⟨h2, hxy⟩)
          · exact hg
          · exact absurd h1 hs1
          · exact absurd h2 hs2

/-- C7 witness: in the mid-board jump position `gAdj` (pawn0 at (4,4) to
move, pawn1 at (3,4)), the straight-behind edge is open and `(2,4)` is
marked. -/
theorem C7_confirmed_witness :
    gAdj.setValidNextPositionsToward (fun _ _ => false) Dir.up Dir.left Dir.right 2 4
      = true := by
  have h := (@C7_confirmed gAdj (fun _ _ => false) Dir.up Dir.left Dir.right
    (by decide) (by decide) 2 4).1 (by decide)
  exact h.mpr (Or.inl ⟨by decide, by decide⟩)

/-- C10: the computed `validNextPositions` grid never marks the cell occupied
by the pawn of turn itself nor the cell occupied by the opponent pawn. -/
theorem C10_confirmed {g : Game} (x y : Nat)
    (h : g.computeValidNextPositions x y = true) :
    (⟨x, y⟩ : PawnPosition) ≠ g.pawnOfTurn.position ∧
    (⟨x, y⟩ : PawnPosition) ≠ g.pawnOfNotTurn.position := by
  unfold Game.computeValidNextPositions at h
  rcases toward_ne _ (Or.inr (Or.inr (Or.inr ⟨rfl, rfl, rfl⟩))) h with h | hres
  · rcases toward_ne _ (Or.inr (Or.inr (Or.inl ⟨rfl, rfl, rfl⟩))) h with h | hres
    · rcases toward_ne _ (Or.inr (Or.inl ⟨rfl, rfl, rfl⟩)) h with h | hres
      · rcases toward_ne _ (Or.inl ⟨rfl, rfl, rfl⟩) h with h | hres
        · exact absurd h (by simp)
        · exact hres
      · exact hres
    · exact hres
  · exact hres

set_option maxRecDepth 100000 in
/-- C10 witness: in the initial game the cell (7,4) is a marked destination
and is neither pawn's cell. -/
theorem C10_confirmed_witness :
    gInit.computeValidNextPositions 7 4 = true ∧
    ((⟨7, 4⟩ : PawnPosition) ≠ gInit.pawnOfTurn.position ∧
     (⟨7, 4⟩ : PawnPosition) ≠ gInit.pawnOfNotTurn.position) :=
  ⟨by decide, C10_confirmed 7 4 (by decide)⟩

set_option maxRecDepth 100000 in
/-- C8 counterexample: with `isHumanPlayerFirst = false` the constructor
places pawn0 at (0,4), not (8,4) as the claim asserts of every fresh game. -/
theorem C8_counterexample :
    (newGame false).pawn0.position = ⟨0, 4⟩ ∧
    ¬(newGame false).pawn0.position = ⟨8, 4⟩ := by
  constructor
  · rfl
  · intro h
    have h2 := congrArg PawnPosition.row h
    exact absurd h2 (by decide)

set_option maxRecDepth 100000 in
/-- C8 (amended): the human-first construction `newGame true` has pawn0 at
(8,4) with goal row 0, pawn1 at (0,4) with goal row 8, both with 10 walls,
turn 0, no winner, and every in-bounds wall cell legal in `validNextWalls`. -/
theorem C8_amended :
    (newGame true).pawn0.position = ⟨8, 4⟩ ∧ (newGame true).pawn0.goalRow = 0 ∧
    (newGame true).pawn1.position = ⟨0, 4⟩ ∧ (newGame true).pawn1.goalRow = 8 ∧
    (newGame true).pawn0.numberOfLeftWalls = 10 ∧
    (newGame true).pawn1.numberOfLeftWalls = 10 ∧
    (newGame true).turn = 0 ∧ (newGame true).winner = none ∧
    ∀ r c, r < 8 → c < 8 →
      (newGame true).validNextWalls.horizontal r c = true ∧
      (newGame true).validNextWalls.vertical r c = true := by
  refine ⟨rfl, rfl, rfl, rfl, rfl, rfl, newGame_turn true, newGame_winner true, ?_⟩
  intro r c hr hc
  exact newGame_walls_legal true r c hr hc

/-- C8 witness: cell (0,0) of the fresh human-first game is legal for a
horizontal wall. -/
theorem C8_amended_witness :
    (newGame true).validNextWalls.horizontal 0 0 = true :=
  (C8_amended.2.2.2.2.2.2.2.2 0 0 (by decide) (by decide)).1

/-- C9 (amended): `doMove` dispatches on the first populated slot in the
order pawn, horizontal wall, vertical wall, ignoring any later populated
slots, and returns `none` leaving the state untouched when all three slots
are empty. -/
theorem C9_amended (g : Game) (needCheck : Bool) :
    (∀ p mh mv, g.doMove ⟨some p, mh, mv⟩ needCheck
        = (some (g.movePawn p.1 p.2 needCheck).1, (g.movePawn p.1 p.2 needCheck).2)) ∧
    (∀ w mv, g.doMove ⟨none, some w, mv⟩ needCheck
        = (some (g.placeHorizontalWall w.1 w.2 needCheck).1,
           (g.placeHorizontalWall w.1 w.2 needCheck).2)) ∧
    (∀ w, g.doMove ⟨none, none, some w⟩ needCheck
        = (some (g.placeVerticalWall w.1 w.2 needCheck).1,
           (g.placeVerticalWall w.1 w.2 needCheck).2)) ∧
    g.doMove ⟨none, none, none⟩ needCheck = (none, g) :=
  ⟨fun p mh mv => rfl, fun w mv => rfl, fun w => rfl, rfl⟩

set_option maxRecDepth 100000 in
/-- C9 counterexample: a move with two populated slots is not rejected:
`doMove` executes the pawn move, mutating the state (the turn advances). -/
theorem C9_counterexample :
    (gInit.doMove ⟨some (7, 4), some (0, 0), none⟩ true).1 = some true ∧
    (gInit.doMove ⟨some (7, 4), some (0, 0), none⟩ true).2.turn = 1 := by
  constructor
  · rfl
  · rfl

/-- C5 (amended): a validated pawn move that lands the pawn of turn on its
goal row sets `winner` to that pawn's index during the same `movePawn` call. -/
theorem C5_amended {g g' : Game} {r c : Nat}
    (hcoh : g.validNextPositionsUpdated = true →
      g.validNextPositionsCache = g.computeValidNextPositions)
    (hgoal : g.pawnOfTurn.goalRow = r)
    (h : g.movePawn r c true = (true, g')) :
    g'.winner = some g.pawnIndexOfTurn := by
  unfold Game.movePawn at h
  rw [if_pos rfl] at h
  dsimp only at h
  split at h
  · have hg' : (Game.movePawnBody (g.validNextPositionsGet).2 r c).2 = g' :=
      congrArg Prod.snd h
    have hf := (movePawnBody_fields (g.validNextPositionsGet).2 r c).2.2.2.2.2.2.2
    have hs := validNextPositionsGet_snd g
    have hpw : (g.validNextPositionsGet).2.pawnOfTurn = g.pawnOfTurn :=
      pawnOfTurn_congr hs.1 hs.2.2.1
    have hpi : (g.validNextPositionsGet).2.pawnIndexOfTurn = g.pawnIndexOfTurn := by
      unfold Game.pawnIndexOfTurn
      rw [hs.2.2.1]
    rw [← hg', hf, hpw, hpi, if_pos hgoal]
  · exfalso
    have h0 := congrArg Prod.fst h
    simp at h0

set_option maxRecDepth 100000 in
/-- C5 witness: in `gNearWin` (pawn0 one step from its goal row) the move to
(0,4) sets the winner. -/
theorem C5_amended_witness :
    (gNearWin.movePawn 0 4 true).2.winner = some gNearWin.pawnIndexOfTurn :=
  C5_amended (fun hu => Bool.noConfusion hu)
    (by rfl : gNearWin.pawnOfTurn.goalRow = 0)
    (rfl : gNearWin.movePawn 0 4 true = (true, (gNearWin.movePawn 0 4 true).2))

set_option maxRecDepth 100000 in
/-- C5 counterexample: in the terminal state `gWon` (winner already set) a
further `doMove` with `needCheck = true` succeeds and changes the state,
refuting "once winner is non-null no further move is legal". -/
theorem C5_counterexample :
    gWon.winner = some 0 ∧
    (gWon.doMove (mvP 1 4) true).1 = some true ∧
    (gWon.doMove (mvP 1 4) true).2.board.pawns1.position = ⟨1, 4⟩ := by
  refine ⟨rfl, ?_, ?_⟩
  · rfl
  · rfl

/-- C6 (amended): the constructor-side legality recomputation
`updateValidNextWalls` marks every wall cell that overlaps a placed wall of
either orientation (including fractional overlap with an adjacent parallel
wall) as illegal. -/
theorem C6_amended (g : Game) (r c : Nat) :
    (overlapH g.board.walls r c = true →
      g.updateValidNextWalls.validNextWalls.horizontal r c = false) ∧
    (overlapV g.board.walls r c = true →
      g.updateValidNextWalls.validNextWalls.vertical r c = false) := by
  constructor
  · intro hov
    rw [updateValidNextWalls_vnw_h, if_neg]
    rintro ⟨hb, hovf⟩
    rw [hov] at hovf
    exact Bool.noConfusion hovf
  · intro hov
    rw [updateValidNextWalls_vnw_v, if_neg]
    rintro ⟨hb, hovf⟩
    rw [hov] at hovf
    exact Bool.noConfusion hovf

set_option maxRecDepth 100000 in
/-- C6 witness: after the wall at (4,0) is placed, recomputation marks the
cell (4,0) illegal for another horizontal wall. -/
theorem C6_amended_witness :
    sBar1.updateValidNextWalls.validNextWalls.horizontal 4 0 = false :=
  (C6_amended sBar1 4 0).1 (by decide)

set_option maxRecDepth 100000 in
/-- C6 counterexample: `doMove` with `needCheck = true` accepts a duplicate
of the already-placed wall at (4,4): it returns success and advances the
turn instead of rejecting the overlap. -/
theorem C6_counterexample :
    sBar3.board.walls.horizontal 4 4 = true ∧
    (sBar3.doMove (mvH 4 4) true).1 = some true ∧
    (sBar3.doMove (mvH 4 4) true).2.turn = sBar3.turn + 1 := by
  refine ⟨?_, ?_, ?_⟩
  · rfl
  · rfl
  · rfl

/-- C4 (amended): when the two edges a candidate wall would close are open
on entry -- in particular whenever the candidate does not overlap a placed
wall in a consistent state -- the transactional path test returns the game
with `openWays` (and everything else) unchanged. -/
theorem C4_amended (g : Game) (R C : Nat) :
    (g.openWays.upDown R C = true → g.openWays.upDown R (C + 1) = true →
      (g.testIfExistPathsToGoalLinesAfterPlaceHorizontalWall R C).2 = g) ∧
    (g.openWays.leftRight R C = true → g.openWays.leftRight (R + 1) C = true →
      (g.testIfExistPathsToGoalLinesAfterPlaceVerticalWall R C).2 = g) :=
  ⟨fun h1 h2 => testH_snd g R C h1 h2, fun h1 h2 => testV_snd g R C h1 h2⟩

set_option maxRecDepth 100000 in
/-- C4 witness: testing the legal candidate (2,2) on the initial game leaves
the state unchanged. -/
theorem C4_amended_witness :
    (gInit.testIfExistPathsToGoalLinesAfterPlaceHorizontalWall 2 2).2 = gInit :=
  (C4_amended gInit 2 2).1 (by decide) (by decide)

set_option maxRecDepth 100000 in
/-- C4 counterexample: on `sres2` (walls V(1,1) and H(0,1)) testing the
candidate H(0,0) restores the edge (0,1) to open even though the placed wall
H(0,1) had closed it: `openWays` after the call differs from before. -/
theorem C4_counterexample :
    sres2.openWays.upDown 0 1 = false ∧
    (sres2.testIfExistPathsToGoalLinesAfterPlaceHorizontalWall 0 0).2.openWays.upDown 0 1
      = true := by
  constructor
  · rfl
  · rfl


theorem step_row_ub {ow : OpenWays} (hblock : ∀ c, ow.upDown 4 c = false)
    {p q : PawnPosition} (h : Step ow p q) (hp : p.row ≤ 4) : q.row ≤ 4 := by
  obtain ⟨d, hopen, rfl⟩ := h
  cases d with
  | up =>
    simp only [stepRow]
    omega
  | down =>
    simp only [isOpenWayOW, Bool.and_eq_true, decide_eq_true_eq] at hopen
    obtain ⟨hpos, hopen2⟩ := hopen
    simp only [stepRow]
    by_cases h4 : p.row = 4
    · rw [h4, hblock p.col] at hopen2
      exact absurd hopen2 (by simp)
    · omega
  | left =>
    simp only [stepRow]
    exact hp
  | right =>
    simp only [stepRow]
    exact hp

theorem reach_row_ub {ow : OpenWays} (hblock : ∀ c, ow.upDown 4 c = false)
    {p q : PawnPosition} (h : Reach ow p q) (hp : p.row ≤ 4) : q.row ≤ 4 := by
  induction h with
  | refl => exact hp
  | tail _ hstep ih => exact step_row_ub hblock hstep ih

theorem step_pocket0 {ow : OpenWays} (hx : ∀ c, c ≤ 5 → ow.upDown 0 c = false)
    (hy : ow.leftRight 0 5 = false) {p q : PawnPosition} (h : Step ow p q)
    (hp : p.row = 0 ∧ p.col ≤ 5) : q.row = 0 ∧ q.col ≤ 5 := by
  obtain ⟨d, hopen, rfl⟩ := h
  obtain ⟨hr, hc⟩ := hp
  cases d with
  | up =>
    simp only [isOpenWayOW, Bool.and_eq_true, decide_eq_true_eq] at hopen
    exfalso
    omega
  | down =>
    simp only [isOpenWayOW, Bool.and_eq_true, decide_eq_true_eq] at hopen
    obtain ⟨hlt, hopen2⟩ := hopen
    exfalso
    rw [hr, hx p.col hc] at hopen2
    exact absurd hopen2 (by simp)
  | left =>
    simp only [stepRow, stepCol]
    omega
  | right =>
    simp only [isOpenWayOW, Bool.and_eq_true, decide_eq_true_eq] at hopen
    obtain ⟨hc8, hlr⟩ := hopen
    simp only [stepRow, stepCol]
    by_cases h5 : p.col = 5
    · rw [hr, h5, hy] at hlr
      exact absurd hlr (by simp)
    · omega

theorem reach_pocket0 {ow : OpenWays} (hx : ∀ c, c ≤ 5 → ow.upDown 0 c = false)
    (hy : ow.leftRight 0 5 = false) {p q : PawnPosition} (h : Reach ow p q)
    (hp : p.row = 0 ∧ p.col ≤ 5) : q.row = 0 ∧ q.col ≤ 5 := by
  induction h with
  | refl => exact hp
  | tail _ hstep ih => exact step_pocket0 hx hy hstep ih

/-- C3 (amended): when the two edges the candidate wall would close are open
on entry, a wall placement rejected by `doMove` with `needCheck = true`
(result `some false`) leaves the game state completely unchanged. -/
theorem C3_amended (g g' : Game) (R C : Nat) :
    (g.openWays.upDown R C = true → g.openWays.upDown R (C + 1) = true →
      g.doMove (mvH R C) true = (some false, g') → g' = g) ∧
    (g.openWays.leftRight R C = true → g.openWays.leftRight (R + 1) C = true →
      g.doMove (mvV R C) true = (some false, g') → g' = g) := by
  constructor
  · intro hf1 hf2 hmv
    unfold Game.doMove mvH at hmv
    dsimp only at hmv
    have h2 : (g.placeHorizontalWall R C true).2 = g' := congrArg Prod.snd hmv
    have h1 : (g.placeHorizontalWall R C true).1 = false := by
      have h0 := congrArg Prod.fst hmv
      simpa using h0
    unfold Game.placeHorizontalWall at h1 h2
    rw [if_pos rfl] at h1 h2
    dsimp only at h1 h2
    cases htg : (g.testIfExistPathsToGoalLinesAfterPlaceHorizontalWall R C).1 with
    | false =>
      rw [if_pos htg] at h2
      rw [← h2]
      exact testH_snd g R C hf1 hf2
    | true =>
      rw [if_neg (by rw [htg]; intro hc; exact Bool.noConfusion hc)] at h1
      rw [(placeHWallBody_fields _ R C).1] at h1
      exact Bool.noConfusion h1
  · intro hf1 hf2 hmv
    unfold Game.doMove mvV at hmv
    dsimp only at hmv
    have h2 : (g.placeVerticalWall R C true).2 = g' := congrArg Prod.snd hmv
    have h1 : (g.placeVerticalWall R C true).1 = false := by
      have h0 := congrArg Prod.fst hmv
      simpa using h0
    unfold Game.placeVerticalWall at h1 h2
    rw [if_pos rfl] at h1 h2
    dsimp only at h1 h2
    cases htg : (g.testIfExistPathsToGoalLinesAfterPlaceVerticalWall R C).1 with
    | false =>
      rw [if_pos htg] at h2
      rw [← h2]
      exact testV_snd g R C hf1 hf2
    | true =>
      rw [if_neg (by rw [htg]; intro hc; exact Bool.noConfusion hc)] at h1
      rw [(placeVWallBody_fields _ R C).1] at h1
      exact Bool.noConfusion h1

set_option maxRecDepth 1000000 in
/-- C3 witness: on the pocket scenario `sPock3` the sealing candidate V(0,5)
is rejected by `doMove` and the state is unchanged. -/
theorem C3_amended_witness :
    (sPock3.doMove (mvV 0 5) true).2 = sPock3 := by
  have hpre : testIfConnectedOnTwoPointsForVerticalWall sPock3.board.walls 0 5
      = true := rfl
  have hblockD : ∀ c2, c2 ≤ 5 → (blockV sPock3.openWays 0 5).upDown 0 c2 = false := by
    intro c2 hc2
    interval_cases c2 <;> decide
  have hblockR : (blockV sPock3.openWays 0 5).leftRight 0 5 = false := by decide
  have hunopt : sPock3.testUnoptimizedV 0 5 = false := by
    cases hv : sPock3.testUnoptimizedV 0 5 with
    | false => rfl
    | true =>
      exfalso
      unfold Game.testUnoptimizedV at hv
      rw [existPathsToGoalLines_set_ow, Bool.and_eq_true] at hv
      have hgp := dfsAux_sound (blockV sPock3.openWays 0 5) sPock3.pawnOfTurn.goalRow
        81 allDirs (fun _ _ => false) sPock3.pawnOfTurn.position.row
        sPock3.pawnOfTurn.position.col hv.1
      obtain ⟨q, hr, hq⟩ := goalPath_goalReach hgp
      have hqp : q.row = 0 ∧ q.col ≤ 5 :=
        reach_pocket0 hblockD hblockR hr ⟨by decide, by decide⟩
      have h8 : sPock3.pawnOfTurn.goalRow = 8 := rfl
      omega
  have htg : (sPock3.testIfExistPathsToGoalLinesAfterPlaceVerticalWall 0 5).1
      = false := by
    rw [testV_fst, if_neg (by simp [hpre]), hunopt]
  have h1 : (sPock3.placeVerticalWall 0 5 true).1 = false := by
    unfold Game.placeVerticalWall
    rw [if_pos rfl]
    dsimp only
    rw [if_pos htg]
  have hfst : (sPock3.doMove (mvV 0 5) true).1 = some false := by
    rw [show (sPock3.doMove (mvV 0 5) true).1
        = some (sPock3.placeVerticalWall 0 5 true).1 from rfl, h1]
  have hmv : sPock3.doMove (mvV 0 5) true
      = (some false, (sPock3.doMove (mvV 0 5) true).2) := by
    have heta : sPock3.doMove (mvV 0 5) true
        = ((sPock3.doMove (mvV 0 5) true).1, (sPock3.doMove (mvV 0 5) true).2) := rfl
    rw [heta, hfst]
  exact (C3_amended sPock3 (sPock3.doMove (mvV 0 5) true).2 0 5).2
    (by decide) (by decide) hmv

set_option maxRecDepth 1000000 in
/-- C3 counterexample: on `sCor5` the overlapping candidate H(4,6) is
rejected (`some false`) but the failed attempt forces the edge (4,7), closed
by the placed wall H(4,7), back open: the state is corrupted, not unchanged. -/
theorem C3_counterexample :
    sCor6.1 = some false ∧
    sCor5.openWays.upDown 4 7 = false ∧
    sCor6.2.openWays.upDown 4 7 = true := by
  have hpre : testIfConnectedOnTwoPointsForHorizontalWall sCor5.board.walls 4 6
      = true := rfl
  have how : blockH sCor5.openWays 4 6
      = blockH (blockV (blockH (blockH (blockH (blockH initOW 4 0) 4 2) 4 4) 4 7)
          3 6) 4 6 := rfl
  have hblock : ∀ c2, (blockH sCor5.openWays 4 6).upDown 4 c2 = false := by
    intro c2
    rw [how]
    by_cases hc : c2 < 9
    · interval_cases c2 <;> decide
    · cases hud : (blockH (blockV (blockH (blockH (blockH (blockH initOW 4 0) 4 2)
          4 4) 4 7) 3 6) 4 6).upDown 4 c2 with
      | false => rfl
      | true =>
        have hsup : OWSupport (blockH (blockV (blockH (blockH (blockH
            (blockH initOW 4 0) 4 2) 4 4) 4 7) 3 6) 4 6) :=
          blockH_support (blockV_support (blockH_support (blockH_support
            (blockH_support (blockH_support initOW_support)))))
        exact absurd (hsup.1 4 c2 hud).2 hc
  have hunopt : sCor5.testUnoptimizedH 4 6 = false := by
    cases hv : sCor5.testUnoptimizedH 4 6 with
    | false => rfl
    | true =>
      exfalso
      unfold Game.testUnoptimizedH at hv
      rw [existPathsToGoalLines_set_ow, Bool.and_eq_true] at hv
      have hgp := dfsAux_sound (blockH sCor5.openWays 4 6) sCor5.pawnOfTurn.goalRow
        81 allDirs (fun _ _ => false) sCor5.pawnOfTurn.position.row
        sCor5.pawnOfTurn.position.col hv.1
      obtain ⟨q, hr, hq⟩ := goalPath_goalReach hgp
      have h4 : q.row ≤ 4 := reach_row_ub hblock hr (by decide)
      have h8 : sCor5.pawnOfTurn.goalRow = 8 := rfl
      omega
  have htg : (sCor5.testIfExistPathsToGoalLinesAfterPlaceHorizontalWall 4 6).1
      = false := by
    rw [testH_fst, if_neg (by simp [hpre]), hunopt]
  have h1 : (sCor5.placeHorizontalWall 4 6 true).1 = false := by
    unfold Game.placeHorizontalWall
    rw [if_pos rfl]
    dsimp only
    rw [if_pos htg]
  have h2 : (sCor5.placeHorizontalWall 4 6 true).2
      = (sCor5.testIfExistPathsToGoalLinesAfterPlaceHorizontalWall 4 6).2 := by
    unfold Game.placeHorizontalWall
    rw [if_pos rfl]
    dsimp only
    rw [if_pos htg]
  refine ⟨?_, ?_, ?_⟩
  · rw [show sCor6.1 = some (sCor5.placeHorizontalWall 4 6 true).1 from rfl, h1]
  · rfl
  · rw [show sCor6.2 = (sCor5.placeHorizontalWall 4 6 true).2 from rfl, h2]
    rfl

/-- C2 (amended): for a candidate wall that does not overlap or cross any
placed wall (in a bounded, consistent state where both pawns have nonempty
paths to their goal rows), the precheck-skip is sound: the optimized
legality test agrees with the unoptimized flip-edges-then-DFS test, in both
orientations. -/
theorem C2_amended {g : Game} (hws : WallsSupport g.board.walls)
    (hsup : OWSupport g.openWays) (hcons : Cons g.board.walls g.openWays)
    (hgpT : GoalPath g.openWays g.pawnOfTurn.position g.pawnOfTurn.goalRow)
    (hgpN : GoalPath g.openWays g.pawnOfNotTurn.position g.pawnOfNotTurn.goalRow)
    {R C : Nat} (hR : R < 8) (hC : C < 8)
    (hNoH : g.board.walls.horizontal R C = false)
    (hNoV : g.board.walls.vertical R C = false)
    (hNoL : 1 ≤ C → g.board.walls.horizontal R (C - 1) = false)
    (hNoR : C < 7 → g.board.walls.horizontal R (C + 1) = false)
    (hNoT : 1 ≤ R → g.board.walls.vertical (R - 1) C = false)
    (hNoB : R < 7 → g.board.walls.vertical (R + 1) C = false) :
    (g.testIfExistPathsToGoalLinesAfterPlaceHorizontalWall R C).1
      = g.testUnoptimizedH R C ∧
    (g.testIfExistPathsToGoalLinesAfterPlaceVerticalWall R C).1
      = g.testUnoptimizedV R C := by
  constructor
  · rw [testH_fst]
    by_cases hpre : testIfConnectedOnTwoPointsForHorizontalWall g.board.walls R C = false
    · rw [if_pos hpre]
      have hsurg := surgeryH hws hsup hcons hR hC hNoH hNoV hNoL hNoR hpre
      have hsup2 : OWSupport (blockH g.openWays R C) := blockH_support hsup
      unfold Game.testUnoptimizedH
      rw [existPathsToGoalLines_set_ow]
      have h1 : existPathToGoalLineForOW (blockH g.openWays R C) g.pawnOfTurn = true :=
        (existPath_iff_goalPath _ _ hsup2).mpr (goalPath_lift hsurg hgpT)
      have h2 : existPathToGoalLineForOW (blockH g.openWays R C) g.pawnOfNotTurn = true :=
        (existPath_iff_goalPath _ _ hsup2).mpr (goalPath_lift hsurg hgpN)
      rw [h1, h2]
      rfl
    · rw [if_neg hpre]
  · rw [testV_fst]
    by_cases hpre : testIfConnectedOnTwoPointsForVerticalWall g.board.walls R C = false
    · rw [if_pos hpre]
      have hsurg := surgeryV hws hsup hcons hR hC hNoV hNoH hNoT hNoB hpre
      have hsup2 : OWSupport (blockV g.openWays R C) := blockV_support hsup
      unfold Game.testUnoptimizedV
      rw [existPathsToGoalLines_set_ow]
      have h1 : existPathToGoalLineForOW (blockV g.openWays R C) g.pawnOfTurn = true :=
        (existPath_iff_goalPath _ _ hsup2).mpr (goalPath_lift hsurg hgpT)
      have h2 : existPathToGoalLineForOW (blockV g.openWays R C) g.pawnOfNotTurn = true :=
        (existPath_iff_goalPath _ _ hsup2).mpr (goalPath_lift hsurg hgpN)
      rw [h1, h2]
      rfl
    · rw [if_neg hpre]

set_option maxRecDepth 1000000 in
/-- C2 witness: on the initial game the optimized and unoptimized tests
agree at the legal candidate (4,3), in both orientations. -/
theorem C2_amended_witness :
    ((newGame true).testIfExistPathsToGoalLinesAfterPlaceHorizontalWall 4 3).1
      = (newGame true).testUnoptimizedH 4 3 ∧
    ((newGame true).testIfExistPathsToGoalLinesAfterPlaceVerticalWall 4 3).1
      = (newGame true).testUnoptimizedV 4 3 :=
  C2_amended (inv_newGame true).1 (inv_newGame true).2.1 (inv_newGame true).2.2.1
    (by rw [newGame_openWays]
        exact goalPath_initOW 8 4 0 (by omega) (Or.inl ⟨rfl, rfl⟩))
    (by rw [newGame_openWays]
        exact goalPath_initOW 0 4 8 (by omega) (Or.inr ⟨rfl, rfl⟩))
    (by omega) (by omega)
    (by rw [newGame_walls]) (by rw [newGame_walls])
    (by intro h1
        rw [newGame_walls])
    (by intro h1
        rw [newGame_walls])
    (by intro h1
        rw [newGame_walls])
    (by intro h1
        rw [newGame_walls])

set_option maxRecDepth 1000000 in
/-- C2 counterexample: on `sBar4` the candidate H(4,7) overlaps the placed
wall at (4,6); the two-point precheck returns false, yet the unoptimized
flip-edges-then-DFS test returns false (the wall completes a barrier): the
precheck-skip makes the optimized test report true where the unoptimized
test reports false. -/
theorem C2_counterexample :
    testIfConnectedOnTwoPointsForHorizontalWall sBar4.board.walls 4 7 = false ∧
    sBar4.testUnoptimizedH 4 7 = false ∧
    (sBar4.testIfExistPathsToGoalLinesAfterPlaceHorizontalWall 4 7).1 = true := by
  have hpre : testIfConnectedOnTwoPointsForHorizontalWall sBar4.board.walls 4 7
      = false := rfl
  refine ⟨hpre, ?_, ?_⟩
  · cases hv : sBar4.testUnoptimizedH 4 7 with
    | false => rfl
    | true =>
      exfalso
      unfold Game.testUnoptimizedH at hv
      rw [existPathsToGoalLines_set_ow, Bool.and_eq_true] at hv
      have hgp := dfsAux_sound (blockH sBar4.openWays 4 7) sBar4.pawnOfTurn.goalRow
        81 allDirs (fun _ _ => false) sBar4.pawnOfTurn.position.row
        sBar4.pawnOfTurn.position.col hv.1
      obtain ⟨q, hr, hq⟩ := goalPath_goalReach hgp
      have h5 : 5 ≤ q.row := reach_row_lb sBar_row4_blocked hr (by decide)
      have h0 : sBar4.pawnOfTurn.goalRow = 0 := rfl
      omega
  · rw [testH_fst, if_pos hpre]

set_option maxRecDepth 1000000 in
/-- C1 counterexample: the barrier states `sBar1` … `sBar5` are reachable
from the initial game by `doMove` with `needCheck = true` alone, yet in
`sBar5` (after the overlapping wall H(4,7) slipped past the precheck) pawn0
has no path in `openWays` to its goal row. -/
theorem C1_counterexample :
    gInit.reachableByValidated sBar5 ∧
    ¬GoalReach sBar5.openWays sBar5.pawn0.position sBar5.pawn0.goalRow := by
  constructor
  · have s1 : gInit.validatedStep sBar1 := ⟨mvH 4 0, rfl⟩
    have s2 : sBar1.validatedStep sBar2 := ⟨mvH 4 2, rfl⟩
    have s3 : sBar2.validatedStep sBar3 := ⟨mvH 4 4, rfl⟩
    have s4 : sBar3.validatedStep sBar4 := ⟨mvH 4 6, rfl⟩
    have s5 : sBar4.validatedStep sBar5 := ⟨mvH 4 7, rfl⟩
    exact Relation.ReflTransGen.tail (Relation.ReflTransGen.tail
      (Relation.ReflTransGen.tail (Relation.ReflTransGen.tail
        (Relation.ReflTransGen.single s1) s2) s3) s4) s5
  · rintro ⟨q, hr, hq⟩
    have hb5 : ∀ c2, sBar5.openWays.upDown 4 c2 = false := fun c2 => sBar_row4_blocked c2
    have h5 : 5 ≤ q.row := reach_row_lb hb5 hr (by decide)
    have h0 : sBar5.pawn0.goalRow = 0 := rfl
    omega

/-- C1 (amended): for every state reachable from a fresh game by `doMove`
with `needCheck = true` whose wall placements are restricted to cells the
engine itself marks legal in `validNextWalls`, each pawn's position retains
a path in `openWays` to its goal row. -/
theorem C1_amended (b : Bool) {g : Game} (h : (newGame b).reachableByLegal g) :
    GoalReach g.openWays g.pawn0.position g.pawn0.goalRow ∧
    GoalReach g.openWays g.pawn1.position g.pawn1.goalRow := by
  have hinv := reachableByLegal_inv (inv_newGame b) h
  exact ⟨hinv.2.2.2.2.2.1, hinv.2.2.2.2.2.2⟩

set_option maxRecDepth 1000000 in
/-- C1 witness: after the legal wall placement H(4,0) on a fresh game both
pawns still reach their goal rows. -/
theorem C1_amended_witness :
    GoalReach sBar1.openWays sBar1.pawn0.position sBar1.pawn0.goalRow ∧
    GoalReach sBar1.openWays sBar1.pawn1.position sBar1.pawn1.goalRow :=
  C1_amended true (Relation.ReflTransGen.single
    ⟨mvH 4 0, (newGame_walls_legal true 4 0 (by omega) (by omega)).1, rfl⟩)

/-- C9 witness: the all-empty move argument returns `none` and the initial
state unchanged. -/
theorem C9_amended_witness :
    gInit.doMove ⟨none, none, none⟩ true = (none, gInit) :=
  (C9_amended gInit true).2.2.2
